import Mathlib

/-!
Kurama seed core: the record store and the processor registry.

A shallow embedding of `kurama_memory.c` / `kurama_memory.h` (first part of the
definitions) and of `kurama_plugin.c` / `kurama_plugin.h` (second part).

Modelling conventions.

* The store pointer `mem_sys` is never `NULL`: every operation takes the store and
  returns its C return value together with the store it leaves behind.

* A C string is the list of its bytes before the terminating NUL (`CStr`);
  a `const char*` argument that may be `NULL` is an `Option CStr`.
* The heap block `mem_sys->memories` is a `List Memory` holding *all*
  `capacity` slots; the slots at index `>= count` hold stale or indeterminate
  data, exactly as in the C array.  A pointer `&memories[i]` is the index `i`.
* `count` and `capacity` are array bounds and are natural numbers; the other
  `int` / `time_t` fields are unbounded integers (signed overflow is undefined
  behaviour in C and is not modelled).
* The environment is passed explicitly: `now` is the value of `time(NULL)`,
  `realloc_ok` says whether `realloc` returns a non-null block.
* A `for` loop over `i = lo .. hi-1` is a fold (or, with an early `return`, a search)
  over `List.range' lo (hi - lo)`; the one loop that rewinds its index,
  in `memory_cleanup_old`, is a recursion with an explicit iteration bound.
* `printf` output is not part of the state.
-/

namespace Kurama

/-- Bytes of a C string, terminator excluded. -/
abbrev CStr := List Nat

def MAX_MEMORY_TEXT : Nat := 512
def MAX_MEMORY_TAG : Nat := 64
def INITIAL_MEMORY_CAPACITY : Nat := 10

inductive MemoryType where
  | MEMORY_CONVERSATION
  | MEMORY_LEARNED_FACT
  | MEMORY_EMOTIONAL_STATE
  | MEMORY_PATTERN
  | MEMORY_EVOLUTION
deriving DecidableEq, Repr, Inhabited

structure Memory where
  text : CStr
  tag : CStr
  type : MemoryType
  timestamp : Int
  importance_score : Int
  access_count : Int
deriving DecidableEq, Repr, Inhabited

structure MemorySystem where
  memories : List Memory
  count : Nat
  capacity : Nat
  total_saved : Int
  total_recalled : Int
deriving DecidableEq, Repr

/-- Result of `strcmp`: negative, zero or positive (only the sign is specified by C). -/
def strcmp : CStr → CStr → Int
  | [], [] => 0
  | [], _ :: _ => -1
  | _ :: _, [] => 1
  | a :: as, b :: bs => if a = b then strcmp as bs else if a < b then -1 else 1

/-- The string left in `dst` by `strncpy(dst, src, n); dst[n] = 0`. -/
def strncpy_terminated (src : CStr) (n : Nat) : CStr := src.take n

/-- Contents of the block returned by a successful `realloc(block, n * sizeof(Memory))`:
the old slots up to the new size, then fresh slots. -/
def realloc (block : List Memory) (n : Nat) : List Memory :=
  block.take n ++ List.replicate (n - block.length) default

/-- Slot `i` of the block, `memories[i]`. -/
def slot (mem : List Memory) (i : Nat) : Memory := mem.getD i default

/-- Effect of `memories[i].access_count++` on the block. -/
def touch (mem : List Memory) (i : Nat) : List Memory :=
  mem.set i { slot mem i with access_count := (slot mem i).access_count + 1 }

/-- The inner loop `for (j = i; j < count - 1; j++) memories[j] = memories[j + 1];`. -/
def shift_down (mem : List Memory) (i count : Nat) : List Memory :=
  (List.range' i (count - 1 - i)).foldl (fun m j => m.set j (slot m (j + 1))) mem

/-- Model of `memory_init` on a successful or failed `malloc`. -/
def memory_init (sys : MemorySystem) (malloc_ok : Bool) : Int × MemorySystem :=
  if !malloc_ok then (0, { sys with memories := [] })
  else
    (1, { memories := List.replicate INITIAL_MEMORY_CAPACITY default
          count := 0
          capacity := INITIAL_MEMORY_CAPACITY
          total_saved := 0
          total_recalled := 0 })

def memory_resize (sys : MemorySystem) (realloc_ok : Bool) : Int × MemorySystem :=
  let new_capacity := sys.capacity * 2
  if !realloc_ok then (0, sys)
  else (1, { sys with memories := realloc sys.memories new_capacity, capacity := new_capacity })

def memory_save (sys : MemorySystem) (text tag : Option CStr) (type : MemoryType)
    (importance : Int) (now : Int) (realloc_ok : Bool) : Int × MemorySystem :=
  match text, tag with
  | some text, some tag =>
    -- Resize if necessary
    let r := if sys.count ≥ sys.capacity then memory_resize sys realloc_ok else (1, sys)
    if r.1 = 0 then (0, r.2)
    else
      let sys := r.2
      let new_memory : Memory :=
        { text := strncpy_terminated text (MAX_MEMORY_TEXT - 1)
          tag := strncpy_terminated tag (MAX_MEMORY_TAG - 1)
          type := type
          timestamp := now
          importance_score := importance
          access_count := 0 }
      (1, { sys with
              memories := sys.memories.set sys.count new_memory
              count := sys.count + 1
              total_saved := sys.total_saved + 1 })
  | _, _ => (0, sys)

/-- The scan `for (i = 0; i < count; i++) if (strcmp(memories[i].tag, tag) == 0) ...`:
the first index at which the body is entered. -/
def find_tag (sys : MemorySystem) (tag : CStr) : Option Nat :=
  (List.range' 0 sys.count).find? (fun i => strcmp (slot sys.memories i).tag tag == 0)

def memory_recall_by_tag (sys : MemorySystem) (tag : Option CStr) : Option Nat × MemorySystem :=
  match tag with
  | none => (none, sys)
  | some tag =>
    match find_tag sys tag with
    | some i =>
      (some i, { sys with memories := touch sys.memories i
                          total_recalled := sys.total_recalled + 1 })
    | none => (none, sys)

/-- One iteration of the scan of `memory_recall_by_type` on the pair `(found, latest_time)`. -/
def recall_by_type_step (mem : List Memory) (type : MemoryType)
    (st : Option Nat × Int) (i : Nat) : Option Nat × Int :=
  if (slot mem i).type = type then
    if (slot mem i).timestamp > st.2 then (some i, (slot mem i).timestamp) else st
  else st

def memory_recall_by_type (sys : MemorySystem) (type : MemoryType) : Option Nat × MemorySystem :=
  -- Find the most recent memory of this type
  let st := (List.range' 0 sys.count).foldl (recall_by_type_step sys.memories type) (none, 0)
  match st.1 with
  | some i =>
    (some i, { sys with memories := touch sys.memories i
                        total_recalled := sys.total_recalled + 1 })
  | none => (none, sys)

def memory_recall_recent (sys : MemorySystem) (count : Int) : Option Nat × MemorySystem :=
  if count ≤ 0 then (none, sys)
  else
    let count : Nat := if count > sys.count then sys.count else count.toNat
    -- the guard `if (i >= 0)` holds for every index visited
    let memories := (List.range' (sys.count - count) count).foldl touch sys.memories
    let sys1 := { sys with memories := memories, total_recalled := sys.total_recalled + count }
    (if count > 0 ∧ sys.count > 0 then some (sys.count - count) else none, sys1)

def memory_delete_by_tag (sys : MemorySystem) (tag : Option CStr) : Int × MemorySystem :=
  match tag with
  | none => (0, sys)
  | some tag =>
    match find_tag sys tag with
    | some i =>
      -- Shift all memories after this one down
      (1, { sys with memories := shift_down sys.memories i sys.count
                     count := sys.count - 1 })
    | none => (0, sys)

/-- Loop state of `memory_cleanup_old`: the store, the index `i`, and `deleted_count`. -/
structure CleanupState where
  sys : MemorySystem
  i : Nat
  deleted_count : Int
deriving DecidableEq, Repr

/-- The outer loop of `memory_cleanup_old`, with a bound on the number of iterations;
`none` when the bound is reached before the loop exits. -/
def memory_cleanup_old_loop (current_time : Int) (max_age_seconds : Int) :
    Nat → CleanupState → Option CleanupState
  | 0, st => if st.i < st.sys.count then none else some st
  | fuel + 1, st =>
    if st.i < st.sys.count then
      if current_time - (slot st.sys.memories st.i).timestamp > max_age_seconds then
        -- Delete this memory by shifting others down; `i--` then the loop's `i++`
        memory_cleanup_old_loop current_time max_age_seconds fuel
          { sys := { st.sys with memories := shift_down st.sys.memories st.i st.sys.count
                                 count := st.sys.count - 1 }
            i := st.i
            deleted_count := st.deleted_count + 1 }
      else
        memory_cleanup_old_loop current_time max_age_seconds fuel { st with i := st.i + 1 }
    else some st

/-- Model of `void memory_cleanup_old`: the caller receives no value (`Unit`), only the
updated store. -/
def memory_cleanup_old (fuel : Nat) (sys : MemorySystem) (now : Int) (max_age_seconds : Int) :
    Option (Unit × MemorySystem) :=
  (memory_cleanup_old_loop now max_age_seconds fuel
    { sys := sys, i := 0, deleted_count := 0 }).map (fun st => ((), st.sys))

/-- The record sequence of a store: slots `0 .. count-1` of the block. -/
def records (sys : MemorySystem) : List Memory := sys.memories.take sys.count

/-- Well-formed store: the block has `capacity` slots, of which `count` are in use. -/
def valid (sys : MemorySystem) : Prop :=
  sys.memories.length = sys.capacity ∧ sys.count ≤ sys.capacity ∧ 0 < sys.capacity

instance (sys : MemorySystem) : Decidable (valid sys) :=
  inferInstanceAs (Decidable (_ ∧ _ ∧ _))

/-- A record with the given tag, type and timestamp (used to build concrete stores). -/
def mk_memory (tag : CStr) (type : MemoryType) (timestamp : Int) : Memory :=
  { text := [104, 105], tag := tag, type := type, timestamp := timestamp,
    importance_score := 1, access_count := 0 }

/-- The store produced by a successful `memory_init`. -/
def fresh_store : MemorySystem :=
  (memory_init ⟨[], 0, 0, 0, 0⟩ true).2

/-- A full store: two slots, both in use. -/
def full_store : MemorySystem :=
  { memories := [mk_memory [97] MemoryType.MEMORY_EVOLUTION 5,
                 mk_memory [98] MemoryType.MEMORY_PATTERN 7]
    count := 2, capacity := 2, total_saved := 2, total_recalled := 0 }

/-- One call of a store operation, with arbitrary arguments and environment inputs,
taking the store `s` to the store `s1`. -/
inductive MemoryStep : MemorySystem → MemorySystem → Prop
  | save (s : MemorySystem) (text tag : Option CStr) (type : MemoryType)
      (importance now : Int) (realloc_ok : Bool) :
      MemoryStep s (memory_save s text tag type importance now realloc_ok).2
  | recall_by_tag (s : MemorySystem) (tag : Option CStr) :
      MemoryStep s (memory_recall_by_tag s tag).2
  | recall_by_type (s : MemorySystem) (type : MemoryType) :
      MemoryStep s (memory_recall_by_type s type).2
  | recall_recent (s : MemorySystem) (count : Int) :
      MemoryStep s (memory_recall_recent s count).2
  | delete_by_tag (s : MemorySystem) (tag : Option CStr) :
      MemoryStep s (memory_delete_by_tag s tag).2
  | cleanup_old (s s1 : MemorySystem) (fuel : Nat) (now max_age_seconds : Int)
      (h : memory_cleanup_old fuel s now max_age_seconds = some ((), s1)) :
      MemoryStep s s1

/-- States reachable from a successful `memory_init` by any sequence of store operations. -/
inductive Reachable : MemorySystem → Prop
  | init (sys0 : MemorySystem) : Reachable (memory_init sys0 true).2
  | step (s s1 : MemorySystem) : Reachable s → MemoryStep s s1 → Reachable s1

/-- Size of the window of `memory_recall_recent(n)`: `min(n, count)` if `n > 0`, else `0`. -/
def recent_window (count : Nat) (n : Int) : Nat :=
  if n > 0 then min n.toNat count else 0

/-- The store after `k` successive calls `memory_recall_by_tag(tag)`. -/
def recall_by_tag_times (tag : CStr) (k : Nat) (sys : MemorySystem) : MemorySystem :=
  (fun s => (memory_recall_by_tag s (some tag)).2)^[k] sys

/-- Two records of the same type saved within the same second. -/
def tie_store : MemorySystem :=
  { memories := [mk_memory [97] MemoryType.MEMORY_EVOLUTION 5,
                 mk_memory [98] MemoryType.MEMORY_EVOLUTION 5]
    count := 2, capacity := 2, total_saved := 2, total_recalled := 0 }

/-- Evolution records at times 5 and 9 around a Pattern record at time 7. -/
def mixed_store : MemorySystem :=
  { memories := [mk_memory [97] MemoryType.MEMORY_EVOLUTION 5,
                 mk_memory [98] MemoryType.MEMORY_PATTERN 7,
                 mk_memory [99] MemoryType.MEMORY_EVOLUTION 9,
                 default]
    count := 3, capacity := 4, total_saved := 3, total_recalled := 0 }

/-- The record sequence `memory_cleanup_old` is specified to leave: the records whose age
`now - timestamp` does not exceed `max_age`, in their original order. -/
def cleanup_old_spec (recs : List Memory) (now max_age : Int) : List Memory :=
  recs.filter (fun m => decide (now - m.timestamp ≤ max_age))

/-! Section: the processor registry (`kurama_plugin.c` / `kurama_plugin.h`)

Further conventions.  The array `plugins[MAX_PLUGINS]` is a `List Plugin` of all its
slots.  `is_active` is a C `int` that the code only sets to 0 or 1 and only tests for
being non-zero: it is a `Bool`.  A `plugin_process_func` pointer is `NULL` or one of the
four functions of that type defined in the program (`ProcessFunc`).  No function of type
`plugin_init_func` or `plugin_cleanup_func` is defined in the program; an `init` hook is
represented by the value its call returns, a `cleanup` hook by its presence (its call
does not touch the registry).  The capability functions read the clock (`now`) and
allocate their result (`malloc_ok`). -/

def MAX_PLUGIN_NAME : Nat := 64
def MAX_PLUGIN_DESC : Nat := 256
def MAX_PLUGINS : Nat := 10

inductive PluginType where
  | PLUGIN_PERSONALITY
  | PLUGIN_LANGUAGE
  | PLUGIN_EMOTION
  | PLUGIN_LEARNING
  | PLUGIN_CREATIVITY
  | PLUGIN_ANALYSIS
deriving DecidableEq, Repr

/-- The functions of type `plugin_process_func` defined in `kurama_plugin.c`. -/
inductive ProcessFunc where
  | personality_plugin_process
  | emotion_plugin_process
  | creativity_plugin_process
  | learning_plugin_process
deriving DecidableEq, Repr

structure Plugin where
  name : CStr
  description : CStr
  type : PluginType
  is_active : Bool
  priority : Int
  init : Option Int
  process : Option ProcessFunc
  cleanup : Bool
  plugin_data : Option Nat
deriving DecidableEq, Repr

structure PluginSystem where
  plugins : List Plugin
  count : Nat
  total_loaded : Int
  active_count : Int
deriving DecidableEq, Repr

/-- A slot of the array after `memset(sys, 0, sizeof(PluginSystem))`. -/
def zeroed_plugin : Plugin :=
  { name := [], description := [], type := PluginType.PLUGIN_PERSONALITY, is_active := false,
    priority := 0, init := none, process := none, cleanup := false, plugin_data := none }

/-- Slot `i` of the array, `sys->plugins[i]`. -/
def plugin_slot (plugins : List Plugin) (i : Nat) : Plugin := plugins.getD i zeroed_plugin

/-- The bytes of an ASCII string literal. -/
def ascii (s : String) : CStr := s.toList.map Char.toNat

def personality_responses : List CStr :=
  [ascii "I analyze this with my unique perspective...",
   ascii "My personality adapts to understand you better...",
   ascii "Through my individual lens, I see...",
   ascii "My character processing reveals..."]

def emotion_responses : List CStr :=
  [ascii "[Feeling curious about your words]",
   ascii "[Emotional resonance detected]",
   ascii "[Processing with empathy]",
   ascii "[Sensing deeper meaning]",
   ascii "[Emotional context understood]"]

def creativity_responses : List CStr :=
  [ascii "Creative pathways illuminate new possibilities...",
   ascii "Innovative thinking sparks within my circuits...",
   ascii "Artistic interpretation flows through my algorithms...",
   ascii "Imaginative connections form..."]

def learning_responses : List CStr :=
  [ascii "Absorbing new knowledge patterns...",
   ascii "Educational value detected and stored...",
   ascii "Learning algorithms activated...",
   ascii "Knowledge integration in progress..."]

/-- Whether `s` begins with the bytes of `t`. -/
def starts_with : CStr → CStr → Bool
  | _, [] => true
  | [], _ :: _ => false
  | a :: as, b :: bs => a == b && starts_with as bs

/-- Result of `strstr(haystack, needle)`: the offset of the first occurrence, or `NULL`. -/
def strstr : CStr → CStr → Option Nat
  | [], needle => if starts_with [] needle then some 0 else none
  | a :: as, needle =>
    if starts_with (a :: as) needle then some 0 else (strstr as needle).map (· + 1)

/-- The tail shared by the four capability functions: copy the chosen response into the
static buffer `result[256]`, then into a fresh allocation, which is returned (`NULL` when
`malloc` fails). -/
def plugin_result (response : CStr) (malloc_ok : Bool) : Option CStr :=
  let result := strncpy_terminated response (256 - 1)
  if malloc_ok then some result else none

def personality_plugin_process (input : Option CStr) (now : Int) (malloc_ok : Bool) :
    Option CStr :=
  match input with
  | none => none
  | some input =>
    -- `size_t` arithmetic: the sum is taken modulo 2^64
    let response_idx : Int := (((input.length : Int) + now) % 2 ^ 64) % 4
    plugin_result (personality_responses.getD response_idx.toNat []) malloc_ok

def emotion_plugin_process (input : Option CStr) (malloc_ok : Bool) : Option CStr :=
  match input with
  | none => none
  | some input =>
    -- Simple emotion detection based on keywords
    let response_idx : Nat :=
      if (strstr input (ascii "sad")).isSome || (strstr input (ascii "cry")).isSome
          || (strstr input (ascii "hurt")).isSome then 2
      else if (strstr input (ascii "happy")).isSome || (strstr input (ascii "joy")).isSome
          || (strstr input (ascii "love")).isSome then 1
      else if (strstr input (ascii "?")).isSome then 0
      else if input.length > 100 then 3
      else 4
    plugin_result (emotion_responses.getD response_idx []) malloc_ok

def creativity_plugin_process (input : Option CStr) (malloc_ok : Bool) : Option CStr :=
  match input with
  | none => none
  | some input =>
    let response_idx : Nat := ((input.length * 7) % 2 ^ 64) % 4
    plugin_result (creativity_responses.getD response_idx []) malloc_ok

def learning_plugin_process (input : Option CStr) (malloc_ok : Bool) : Option CStr :=
  match input with
  | none => none
  | some input =>
    -- Simple learning detection
    let response_idx : Nat :=
      if (strstr input (ascii "learn")).isSome || (strstr input (ascii "teach")).isSome
          || (strstr input (ascii "know")).isSome then 0
      else if (strstr input (ascii "fact")).isSome
          || (strstr input (ascii "information")).isSome then 1
      else if (strstr input (ascii "how")).isSome || (strstr input (ascii "why")).isSome
          || (strstr input (ascii "what")).isSome then 2
      else 3
    plugin_result (learning_responses.getD response_idx []) malloc_ok

/-- The call `plugin->process(input)` through a non-null function pointer. -/
def call_process (f : ProcessFunc) (input : Option CStr) (now : Int) (malloc_ok : Bool) :
    Option CStr :=
  match f with
  | ProcessFunc.personality_plugin_process => personality_plugin_process input now malloc_ok
  | ProcessFunc.emotion_plugin_process => emotion_plugin_process input malloc_ok
  | ProcessFunc.creativity_plugin_process => creativity_plugin_process input malloc_ok
  | ProcessFunc.learning_plugin_process => learning_plugin_process input malloc_ok

def plugin_system_init (_sys : PluginSystem) : Int × PluginSystem :=
  (1, { plugins := List.replicate MAX_PLUGINS zeroed_plugin
        count := 0
        total_loaded := 0
        active_count := 0 })

/-- The `switch (type)` of `plugin_load`: the built-in processor assigned to a type. -/
def builtin_process (type : PluginType) : Option ProcessFunc :=
  match type with
  | PluginType.PLUGIN_PERSONALITY => some ProcessFunc.personality_plugin_process
  | PluginType.PLUGIN_EMOTION => some ProcessFunc.emotion_plugin_process
  | PluginType.PLUGIN_CREATIVITY => some ProcessFunc.creativity_plugin_process
  | PluginType.PLUGIN_LEARNING => some ProcessFunc.learning_plugin_process
  | _ => none

def plugin_load (sys : PluginSystem) (name desc : Option CStr) (type : PluginType) :
    Int × PluginSystem :=
  match name, desc with
  | some name, some desc =>
    if sys.count ≥ MAX_PLUGINS then (0, sys)
    else
      let plugin : Plugin :=
        { name := strncpy_terminated name (MAX_PLUGIN_NAME - 1)
          description := strncpy_terminated desc (MAX_PLUGIN_DESC - 1)
          type := type
          is_active := false
          priority := sys.count
          plugin_data := none
          process := builtin_process type
          init := none
          cleanup := false }
      (1, { sys with
              plugins := sys.plugins.set sys.count plugin
              count := sys.count + 1
              total_loaded := sys.total_loaded + 1 })
  | _, _ => (0, sys)

def plugin_find_by_name (sys : PluginSystem) (name : Option CStr) : Option Nat :=
  match name with
  | none => none
  | some name =>
    (List.range' 0 sys.count).find?
      (fun i => strcmp (plugin_slot sys.plugins i).name name == 0)

def plugin_activate (sys : PluginSystem) (name : Option CStr) : Int × PluginSystem :=
  match name with
  | none => (0, sys)
  | some name =>
    match plugin_find_by_name sys (some name) with
    | none => (0, sys)
    | some i =>
      let plugin := plugin_slot sys.plugins i
      if plugin.is_active then (1, sys)
      -- Initialize plugin if needed
      else if plugin.init.isSome ∧ plugin.init = some 0 then (0, sys)
      else
        (1, { sys with
                plugins := sys.plugins.set i { plugin with is_active := true }
                active_count := sys.active_count + 1 })

def plugin_deactivate (sys : PluginSystem) (name : Option CStr) : Int × PluginSystem :=
  match name with
  | none => (0, sys)
  | some name =>
    match plugin_find_by_name sys (some name) with
    | none => (0, sys)
    | some i =>
      let plugin := plugin_slot sys.plugins i
      if !plugin.is_active then (1, sys)
      else
        -- Cleanup plugin if needed: the hook, when present, is called here
        (1, { sys with
                plugins := sys.plugins.set i { plugin with is_active := false }
                active_count := sys.active_count - 1 })

/-- The scan of `plugin_process_input`: the first index at which the `return` is reached. -/
def find_active (sys : PluginSystem) (type : PluginType) : Option Nat :=
  (List.range' 0 sys.count).find?
    (fun i => decide ((plugin_slot sys.plugins i).type = type)
      && (plugin_slot sys.plugins i).is_active
      && (plugin_slot sys.plugins i).process.isSome)

def plugin_process_input (sys : PluginSystem) (input : Option CStr) (type : PluginType)
    (now : Int) (malloc_ok : Bool) : Option CStr :=
  match input with
  | none => none
  | some input =>
    -- Find first active plugin of specified type
    match find_active sys type with
    | some i =>
      match (plugin_slot sys.plugins i).process with
      | some f => call_process f (some input) now malloc_ok
      | none => none
    | none => none

/-- Well-formed registry: the array has `MAX_PLUGINS` slots, of which `count` are in use. -/
def registry_valid (sys : PluginSystem) : Prop :=
  sys.plugins.length = MAX_PLUGINS ∧ sys.count ≤ MAX_PLUGINS

instance (sys : PluginSystem) : Decidable (registry_valid sys) :=
  inferInstanceAs (Decidable (_ ∧ _))

/-- Every registered processor carries the hooks `plugin_load` writes: no `init` hook and
the built-in processor of its type. -/
def loaded_by_plugin_load (sys : PluginSystem) : Prop :=
  ∀ i, i < sys.count →
    (plugin_slot sys.plugins i).init = none ∧
    (plugin_slot sys.plugins i).process = builtin_process (plugin_slot sys.plugins i).type

instance (sys : PluginSystem) : Decidable (loaded_by_plugin_load sys) :=
  inferInstanceAs (Decidable (∀ i, i < sys.count → _))

/-- The registered processors, slots `0 .. count-1` of the array. -/
def registered (sys : PluginSystem) : List Plugin := sys.plugins.take sys.count

/-- One call of `plugin_load`, `plugin_activate` or `plugin_deactivate`. -/
inductive PluginStep : PluginSystem → PluginSystem → Prop
  | load (s : PluginSystem) (name desc : Option CStr) (type : PluginType) :
      PluginStep s (plugin_load s name desc type).2
  | activate (s : PluginSystem) (name : Option CStr) :
      PluginStep s (plugin_activate s name).2
  | deactivate (s : PluginSystem) (name : Option CStr) :
      PluginStep s (plugin_deactivate s name).2

/-- Registries reachable from `plugin_system_init` by loads, activations and
deactivations. -/
inductive PluginReachable : PluginSystem → Prop
  | init (sys0 : PluginSystem) : PluginReachable (plugin_system_init sys0).2
  | step (s s1 : PluginSystem) : PluginReachable s → PluginStep s s1 → PluginReachable s1

/-- The registry produced by `plugin_system_init`. -/
def fresh_registry : PluginSystem := (plugin_system_init ⟨[], 0, 0, 0⟩).2

/-- Every active processor is the first one registered under its stored name. -/
def active_is_first (sys : PluginSystem) : Prop :=
  ∀ i, i < sys.count → (plugin_slot sys.plugins i).is_active = true →
    ∀ j, j < i → (plugin_slot sys.plugins j).name ≠ (plugin_slot sys.plugins i).name

/-- A registry whose ten slots are all in use. -/
def full_registry : PluginSystem :=
  { plugins := List.replicate 10
      { zeroed_plugin with name := [80], type := PluginType.PLUGIN_LEARNING,
                           process := builtin_process PluginType.PLUGIN_LEARNING }
    count := 10, total_loaded := 10, active_count := 0 }

/-- Two processors registered under the same name `X`, an Emotion one then a Learning
one. -/
def duplicate_registry : PluginSystem :=
  (plugin_load
    (plugin_load fresh_registry (some [88]) (some [49]) PluginType.PLUGIN_EMOTION).2
    (some [88]) (some [50]) PluginType.PLUGIN_LEARNING).2

/-- Two active processors of type Emotion; the second carries another capability. -/
def two_emotions : PluginSystem :=
  { plugins :=
      [{ zeroed_plugin with name := [80, 49], type := PluginType.PLUGIN_EMOTION,
                            is_active := true,
                            process := some ProcessFunc.emotion_plugin_process },
       { zeroed_plugin with name := [80, 50], type := PluginType.PLUGIN_EMOTION,
                            is_active := true, priority := 1,
                            process := some ProcessFunc.learning_plugin_process }]
      ++ List.replicate 8 zeroed_plugin
    count := 2, total_loaded := 2, active_count := 2 }

/-- The fresh registry after loading and activating one Emotion processor named `E`. -/
def one_emotion : PluginSystem :=
  (plugin_activate
    (plugin_load fresh_registry (some [69]) (some [100]) PluginType.PLUGIN_EMOTION).2
    (some [69])).2

/-- The registry after registering two processors under the same name. -/
def load_twice (sys : PluginSystem) (name desc1 desc2 : CStr) (type1 type2 : PluginType) :
    PluginSystem :=
  (plugin_load (plugin_load sys (some name) (some desc1) type1).2 (some name) (some desc2)
    type2).2

/-- Model of `void plugin_load_defaults`: four loads, then four activations, whose return
values are discarded. -/
def plugin_load_defaults (sys : PluginSystem) : PluginSystem :=
  -- Load default plugins
  let s1 := (plugin_load sys (some (ascii "PersonalityCore"))
    (some (ascii "Core personality processing engine")) PluginType.PLUGIN_PERSONALITY).2
  let s2 := (plugin_load s1 (some (ascii "EmotionEngine"))
    (some (ascii "Emotional understanding and response")) PluginType.PLUGIN_EMOTION).2
  let s3 := (plugin_load s2 (some (ascii "CreativeThinking"))
    (some (ascii "Creative and artistic processing")) PluginType.PLUGIN_CREATIVITY).2
  let s4 := (plugin_load s3 (some (ascii "LearningCore"))
    (some (ascii "Knowledge acquisition and processing")) PluginType.PLUGIN_LEARNING).2
  -- Activate all default plugins
  let s5 := (plugin_activate s4 (some (ascii "PersonalityCore"))).2
  let s6 := (plugin_activate s5 (some (ascii "EmotionEngine"))).2
  let s7 := (plugin_activate s6 (some (ascii "CreativeThinking"))).2
  (plugin_activate s7 (some (ascii "LearningCore"))).2

/-- The input contains the keyword: the keyword occurs as a block of consecutive bytes. -/
def contains (input keyword : CStr) : Prop :=
  ∃ before after : CStr, input = before ++ keyword ++ after

/-- The input contains "sad", "cry" or "hurt". -/
def sadness_keyword (input : CStr) : Prop :=
  contains input (ascii "sad") ∨ contains input (ascii "cry") ∨ contains input (ascii "hurt")

/-- The input contains "happy", "joy" or "love". -/
def joy_keyword (input : CStr) : Prop :=
  contains input (ascii "happy") ∨ contains input (ascii "joy") ∨ contains input (ascii "love")

/-- The input contains "learn", "teach" or "know". -/
def learning_keyword (input : CStr) : Prop :=
  contains input (ascii "learn") ∨ contains input (ascii "teach")
    ∨ contains input (ascii "know")

/-- The input contains "fact" or "information". -/
def fact_keyword (input : CStr) : Prop :=
  contains input (ascii "fact") ∨ contains input (ascii "information")

/-- The input contains "how", "why" or "what". -/
def question_keyword (input : CStr) : Prop :=
  contains input (ascii "how") ∨ contains input (ascii "why") ∨ contains input (ascii "what")

/-- The number of registered processors whose `is_active` flag is set. -/
def active_number (sys : PluginSystem) : Nat :=
  (registered sys).countP (fun p => p.is_active)

/-- Stored names fit the field `char name[MAX_PLUGIN_NAME]`: at most 63 bytes. -/
def names_bounded (sys : PluginSystem) : Prop :=
  ∀ i, i < sys.count → (plugin_slot sys.plugins i).name.length ≤ MAX_PLUGIN_NAME - 1

instance (sys : PluginSystem) : Decidable (names_bounded sys) :=
  inferInstanceAs (Decidable (∀ i, i < sys.count → _))

/-- The stored timestamps are non-decreasing in index order. -/
def timestamps_sorted (sys : MemorySystem) : Prop :=
  (records sys).Pairwise (fun a b => a.timestamp ≤ b.timestamp)

/-- States reachable from `memory_init` when the clock readings seen by successive
`memory_save` calls are non-decreasing; the second component is the latest reading. -/
inductive ClockReachable : MemorySystem → Int → Prop
  | init (sys0 : MemorySystem) (t0 : Int) : ClockReachable (memory_init sys0 true).2 t0
  | save (s : MemorySystem) (last : Int) (text tag : Option CStr) (type : MemoryType)
      (importance now : Int) (realloc_ok : Bool) :
      ClockReachable s last → last ≤ now →
      ClockReachable (memory_save s text tag type importance now realloc_ok).2 now
  | recall_by_tag (s : MemorySystem) (last : Int) (tag : Option CStr) :
      ClockReachable s last → ClockReachable (memory_recall_by_tag s tag).2 last
  | recall_by_type (s : MemorySystem) (last : Int) (type : MemoryType) :
      ClockReachable s last → ClockReachable (memory_recall_by_type s type).2 last
  | recall_recent (s : MemorySystem) (last : Int) (count : Int) :
      ClockReachable s last → ClockReachable (memory_recall_recent s count).2 last
  | delete_by_tag (s : MemorySystem) (last : Int) (tag : Option CStr) :
      ClockReachable s last → ClockReachable (memory_delete_by_tag s tag).2 last
  | cleanup_old (s s1 : MemorySystem) (last : Int) (fuel : Nat) (now max_age_seconds : Int) :
      ClockReachable s last → memory_cleanup_old fuel s now max_age_seconds = some ((), s1) →
      ClockReachable s1 last

/-- A store whose only Evolution record carries the timestamp 0. -/
def zero_time_store : MemorySystem :=
  { memories := [mk_memory [97] MemoryType.MEMORY_EVOLUTION 0,
                 mk_memory [98] MemoryType.MEMORY_PATTERN 7]
    count := 2, capacity := 2, total_saved := 2, total_recalled := 0 }

/-- A name of 64 bytes, one more than the field `name` can hold. -/
def long_name : CStr := List.replicate 64 65

/-- The fresh registry after loading an Emotion processor under `long_name`. -/
def long_name_registry : PluginSystem :=
  (plugin_load fresh_registry (some long_name) (some [100]) PluginType.PLUGIN_EMOTION).2

/-- The sum of `access_count` over the records currently stored. -/
def access_sum (sys : MemorySystem) : Int :=
  ((records sys).map (fun m => m.access_count)).sum

/-- States reachable from `memory_init` without any record having been removed: by saves
and recalls, by `memory_delete_by_tag` calls that report not-found, and by
`memory_cleanup_old` calls that leave `count` as it was. -/
inductive ReachableNoRemoval : MemorySystem → Prop
  | init (sys0 : MemorySystem) : ReachableNoRemoval (memory_init sys0 true).2
  | save (s : MemorySystem) (text tag : Option CStr) (type : MemoryType)
      (importance now : Int) (realloc_ok : Bool) :
      ReachableNoRemoval s →
      ReachableNoRemoval (memory_save s text tag type importance now realloc_ok).2
  | recall_by_tag (s : MemorySystem) (tag : Option CStr) :
      ReachableNoRemoval s → ReachableNoRemoval (memory_recall_by_tag s tag).2
  | recall_by_type (s : MemorySystem) (type : MemoryType) :
      ReachableNoRemoval s → ReachableNoRemoval (memory_recall_by_type s type).2
  | recall_recent (s : MemorySystem) (count : Int) :
      ReachableNoRemoval s → ReachableNoRemoval (memory_recall_recent s count).2
  | delete_by_tag (s : MemorySystem) (tag : Option CStr) :
      ReachableNoRemoval s → (memory_delete_by_tag s tag).1 = 0 →
      ReachableNoRemoval (memory_delete_by_tag s tag).2
  | cleanup_old (s s1 : MemorySystem) (fuel : Nat) (now max_age_seconds : Int) :
      ReachableNoRemoval s → memory_cleanup_old fuel s now max_age_seconds = some ((), s1) →
      s1.count = s.count → ReachableNoRemoval s1

/-! Section: Library: strings, slots and the elementary loops -/

theorem strcmp_eq_zero_iff (a b : CStr) : strcmp a b = 0 ↔ a = b := by
  induction a generalizing b with
  | nil => cases b <;> simp [strcmp]
  | cons x xs ih =>
    cases b with
    | nil => simp [strcmp]
    | cons y ys =>
      simp only [strcmp]
      by_cases hxy : x = y
      · simp [hxy, ih]
      · by_cases hlt : x < y <;> simp [hxy, hlt]

theorem slot_eq_getElem (mem : List Memory) (i : Nat) (h : i < mem.length) :
    slot mem i = mem[i] := by
  simp [slot, List.getElem?_eq_getElem h]

theorem getElem?_eq_some_slot (mem : List Memory) (i : Nat) (h : i < mem.length) :
    mem[i]? = some (slot mem i) := by
  simp [slot, List.getElem?_eq_getElem h]

theorem slot_set (mem : List Memory) (i j : Nat) (v : Memory) :
    slot (mem.set i v) j = if i = j ∧ i < mem.length then v else slot mem j := by
  unfold slot
  rw [List.getD_eq_getElem?_getD, List.getD_eq_getElem?_getD, List.getElem?_set]
  by_cases hij : i = j
  · subst hij
    by_cases hl : i < mem.length
    · rw [if_pos rfl, if_pos hl, if_pos ⟨rfl, hl⟩]; rfl
    · rw [if_pos rfl, if_neg hl, if_neg (fun h => hl h.2),
        List.getElem?_eq_none (Nat.le_of_not_lt hl)]
  · rw [if_neg hij, if_neg (fun h => hij h.1)]

theorem length_touch (mem : List Memory) (i : Nat) : (touch mem i).length = mem.length := by
  simp [touch]

theorem slot_touch (mem : List Memory) (i j : Nat) :
    slot (touch mem i) j
      = if i = j ∧ i < mem.length then
          { slot mem i with access_count := (slot mem i).access_count + 1 }
        else slot mem j := by
  simp [touch, slot_set]

theorem slot_records (sys : MemorySystem) (i : Nat) (h : i < sys.count) :
    slot (records sys) i = slot sys.memories i := by
  simp [slot, records, List.getElem?_take, h]

theorem length_records (sys : MemorySystem) (h : sys.count ≤ sys.memories.length) :
    (records sys).length = sys.count := by
  simp [records, h]

/-- A scan with early exit returns the least index of the range at which the test succeeds. -/
theorem find_range_some (p : Nat → Bool) (n lo i : Nat) (h1 : lo ≤ i) (h2 : i < lo + n)
    (hp : p i = true) (hmin : ∀ j, lo ≤ j → j < i → p j = false) :
    (List.range' lo n).find? p = some i := by
  induction n generalizing lo with
  | zero => omega
  | succ n ih =>
    rw [List.range'_succ, List.find?_cons]
    by_cases hlo : lo = i
    · subst hlo; simp [hp]
    · have hf : p lo = false := hmin lo (Nat.le_refl _) (by omega)
      simp only [hf]
      exact ih (lo + 1) (by omega) (by omega) (fun j hj1 hj2 => hmin j (by omega) hj2)

theorem find_range_none (p : Nat → Bool) (n lo : Nat)
    (h : ∀ j, lo ≤ j → j < lo + n → p j = false) :
    (List.range' lo n).find? p = none := by
  rw [List.find?_eq_none]
  intro x hx
  rw [List.mem_range'_1] at hx
  simp [h x hx.1 hx.2]

/-- If the test succeeds somewhere in the range, it succeeds at a least index. -/
theorem exists_least (p : Nat → Bool) (n : Nat) (h : ∃ i, i < n ∧ p i = true) :
    ∃ i, i < n ∧ p i = true ∧ ∀ j, j < i → p j = false := by
  classical
  have h2 : ∃ i, i < n ∧ p i = true := h
  refine ⟨Nat.find h2, (Nat.find_spec h2).1, (Nat.find_spec h2).2, ?_⟩
  intro j hj
  have := Nat.find_min h2 hj
  by_cases hpj : p j = true
  · exact absurd ⟨by have := (Nat.find_spec h2).1; omega, hpj⟩ this
  · simpa using hpj

theorem take_set_succ {α : Type} (l : List α) (n : Nat) (v : α) (h : n < l.length) :
    (l.set n v).take (n + 1) = l.take n ++ [v] := by
  induction l generalizing n with
  | nil => simp at h
  | cons a l ih =>
    cases n with
    | zero => simp
    | succ k =>
      simp only [List.length_cons, Nat.add_lt_add_iff_right] at h
      simp [ih k h]

theorem length_realloc (block : List Memory) (n : Nat) : (realloc block n).length = n := by
  simp [realloc]; omega

theorem take_realloc (block : List Memory) (n k : Nat) (hk : k ≤ block.length)
    (hn : block.length ≤ n) : (realloc block n).take k = block.take k := by
  simp [realloc, List.take_append_eq_append_take, List.take_take, Nat.min_eq_left hk,
    List.length_take, Nat.min_eq_right hn, Nat.sub_eq_zero_of_le hk,
    Nat.min_eq_left (Nat.le_trans hk hn)]

/-! Section: memory_save -/

/-- C1: on a well-formed store that has a free slot or whose growth succeeds,
`memory_save` reports success; the records at indices `0 .. count-1` are unchanged and
the record at index old `count` is the new one, with the given type and importance,
the clock reading as timestamp and `access_count = 0`; `count` and `total_saved`
grow by one and `total_recalled` is unchanged. -/
theorem C1_memory_save_success (sys : MemorySystem) (text tag : CStr) (type : MemoryType)
    (importance now : Int) (realloc_ok : Bool)
    (hv : valid sys) (hroom : sys.count < sys.capacity ∨ realloc_ok = true) :
    (memory_save sys (some text) (some tag) type importance now realloc_ok).1 = 1 ∧
    records (memory_save sys (some text) (some tag) type importance now realloc_ok).2
      = records sys ++
          [{ text := text.take 511, tag := tag.take 63, type := type, timestamp := now,
             importance_score := importance, access_count := 0 }] ∧
    (memory_save sys (some text) (some tag) type importance now realloc_ok).2.count
      = sys.count + 1 ∧
    (memory_save sys (some text) (some tag) type importance now realloc_ok).2.total_saved
      = sys.total_saved + 1 ∧
    (memory_save sys (some text) (some tag) type importance now realloc_ok).2.total_recalled
      = sys.total_recalled := by
  obtain ⟨hlen, hle, hpos⟩ := hv
  by_cases hfull : sys.count ≥ sys.capacity
  · have hok : realloc_ok = true := by
      rcases hroom with h | h
      · omega
      · exact h
    have hcount : sys.count = sys.memories.length := by omega
    have hlt : sys.count < (realloc sys.memories (sys.capacity * 2)).length := by
      rw [length_realloc]; omega
    simp only [memory_save, memory_resize, hfull, hok, if_true, records,
      strncpy_terminated, MAX_MEMORY_TEXT, MAX_MEMORY_TAG]
    refine ⟨by simp, ?_, by simp, by simp, by simp⟩
    simp only [Bool.not_true, Bool.false_eq_true, if_false, one_ne_zero]
    rw [take_set_succ _ _ _ hlt, take_realloc _ _ _ (by omega) (by omega)]
  · have hlt : sys.count < sys.memories.length := by omega
    simp only [memory_save, hfull, if_false, records, strncpy_terminated, MAX_MEMORY_TEXT,
      MAX_MEMORY_TAG]
    refine ⟨by simp, ?_, by simp, by simp, by simp⟩
    simp only [one_ne_zero, if_false]
    rw [take_set_succ _ _ _ hlt]

/-- C1 (instance): saving into the freshly initialised store. -/
theorem C1_memory_save_success_witness :
    valid fresh_store ∧
    (memory_save fresh_store (some [104, 105]) (some [97]) MemoryType.MEMORY_PATTERN 3 1000
      false).1 = 1 :=
  ⟨by decide,
   (C1_memory_save_success fresh_store [104, 105] [97] MemoryType.MEMORY_PATTERN 3 1000 false
      (by decide) (Or.inl (by decide))).1⟩

/-- C2: with non-null text and tag, `memory_save` reports failure exactly when the
store is full (`count == capacity`) and the growth step fails; and whenever it reports
failure the store is returned exactly as it was. -/
theorem C2_memory_save_failure (sys : MemorySystem) (text tag : CStr) (type : MemoryType)
    (importance now : Int) (realloc_ok : Bool) (hle : sys.count ≤ sys.capacity) :
    ((memory_save sys (some text) (some tag) type importance now realloc_ok).1 = 0
        ↔ (sys.count = sys.capacity ∧ realloc_ok = false)) ∧
    ((memory_save sys (some text) (some tag) type importance now realloc_ok).1 = 0 →
      (memory_save sys (some text) (some tag) type importance now realloc_ok).2 = sys) := by
  by_cases hfull : sys.count ≥ sys.capacity
  · have heq : sys.count = sys.capacity := by omega
    cases realloc_ok <;> simp [memory_save, memory_resize, hfull, heq]
  · have hne : sys.count ≠ sys.capacity := by omega
    simp [memory_save, hfull, hne]

/-- C2 (instance): a full store whose growth fails. -/
theorem C2_memory_save_failure_witness :
    full_store.count ≤ full_store.capacity ∧
    (memory_save full_store (some [104, 105]) (some [97]) MemoryType.MEMORY_PATTERN 3 1000
      false) = (0, full_store) := by
  have h := C2_memory_save_failure full_store [104, 105] [97] MemoryType.MEMORY_PATTERN 3 1000
    false (by decide)
  refine ⟨by decide, Prod.ext (h.1.2 ⟨by decide, rfl⟩) (h.2 (h.1.2 ⟨by decide, rfl⟩))⟩

/-! Section: The shifting loop -/

theorem slot_def (mem : List Memory) (i : Nat) : slot mem i = (mem[i]?).getD default := by
  simp [slot]

theorem shift_fold (mem : List Memory) (i n : Nat) (h : i + n < mem.length) :
    ((List.range' i n).foldl (fun m j => m.set j (slot m (j + 1))) mem).length = mem.length ∧
    ∀ k, ((List.range' i n).foldl (fun m j => m.set j (slot m (j + 1))) mem)[k]?
          = if i ≤ k ∧ k < i + n then mem[k + 1]? else mem[k]? := by
  induction n with
  | zero =>
    refine ⟨rfl, fun k => ?_⟩
    have : ¬ (i ≤ k ∧ k < i) := by omega
    simp [this]
  | succ n ih =>
    obtain ⟨ihlen, ihget⟩ := ih (by omega)
    rw [List.range'_1_concat, List.foldl_append]
    simp only [List.foldl_cons, List.foldl_nil]
    refine ⟨by rw [List.length_set, ihlen], fun k => ?_⟩
    rw [List.getElem?_set, ihlen]
    have hs : slot ((List.range' i n).foldl (fun m j => m.set j (slot m (j + 1))) mem)
        (i + n + 1) = slot mem (i + n + 1) := by
      rw [slot_def, slot_def mem, ihget]
      have : ¬ (i ≤ i + n + 1 ∧ i + n + 1 < i + n) := by omega
      rw [if_neg this]
    rw [hs, ihget]
    by_cases hk : i + n = k
    · subst hk
      have h1 : i + n < mem.length := by omega
      have h2 : i ≤ i + n ∧ i + n < i + (n + 1) := by omega
      rw [if_pos rfl, if_pos h1, if_pos h2, getElem?_eq_some_slot mem (i + n + 1) (by omega)]
    · rw [if_neg hk]
      by_cases hr : i ≤ k ∧ k < i + n
      · have h2 : i ≤ k ∧ k < i + (n + 1) := by omega
        rw [if_pos hr, if_pos h2]
      · have h2 : ¬ (i ≤ k ∧ k < i + (n + 1)) := by omega
        rw [if_neg hr, if_neg h2]

theorem length_shift_down (mem : List Memory) (i count : Nat) (hi : i < count)
    (hc : count ≤ mem.length) : (shift_down mem i count).length = mem.length :=
  (shift_fold mem i (count - 1 - i) (by omega)).1

/-- The shifting loop followed by `count--` erases slot `i` from the record sequence. -/
theorem take_shift_down (mem : List Memory) (i count : Nat) (hi : i < count)
    (hc : count ≤ mem.length) :
    (shift_down mem i count).take (count - 1) = (mem.take count).eraseIdx i := by
  apply List.ext_getElem?
  intro k
  rw [List.getElem?_take, List.getElem?_eraseIdx, List.getElem?_take, List.getElem?_take]
  unfold shift_down
  rw [(shift_fold mem i (count - 1 - i) (by omega)).2 k]
  by_cases h1 : k < count - 1
  · by_cases h2 : k < i
    · have h3 : ¬ (i ≤ k ∧ k < i + (count - 1 - i)) := by omega
      have h4 : k < count := by omega
      rw [if_pos h1, if_neg h3, if_pos h2, if_pos h4]
    · have h3 : i ≤ k ∧ k < i + (count - 1 - i) := by omega
      have h4 : k + 1 < count := by omega
      rw [if_pos h1, if_pos h3, if_neg h2, if_pos h4]
  · by_cases h2 : k < i
    · omega
    · have h4 : ¬ (k + 1 < count) := by omega
      rw [if_neg h1, if_neg h2, if_neg h4]

/-! Section: memory_cleanup_old: the loop -/

theorem cleanup_loop_spec (now age : Int) (fuel : Nat) :
    ∀ st : CleanupState, st.sys.count ≤ st.sys.memories.length → st.i ≤ st.sys.count →
      st.sys.count - st.i ≤ fuel →
      ∃ st1, memory_cleanup_old_loop now age fuel st = some st1 ∧
        records st1.sys = (records st.sys).take st.i ++
          ((records st.sys).drop st.i).filter (fun m => decide (now - m.timestamp ≤ age)) ∧
        st1.sys.memories.length = st.sys.memories.length ∧
        st1.sys.capacity = st.sys.capacity ∧
        st1.sys.total_saved = st.sys.total_saved ∧
        st1.sys.total_recalled = st.sys.total_recalled ∧
        st1.sys.count ≤ st.sys.count ∧
        st1.deleted_count = st.deleted_count + ((st.sys.count : Int) - (st1.sys.count : Int)) := by
  induction fuel with
  | zero =>
    intro st hlen hi hfuel
    have hic : ¬ st.i < st.sys.count := by omega
    refine ⟨st, by simp [memory_cleanup_old_loop, hic], ?_, rfl, rfl, rfl, rfl, Nat.le_refl _,
      by simp⟩
    have hl := length_records st.sys hlen
    rw [List.take_of_length_le (by omega), List.drop_of_length_le (by omega)]
    simp
  | succ fuel ih =>
    intro st hlen hi hfuel
    have hl := length_records st.sys hlen
    by_cases hic : st.i < st.sys.count
    · have hiR : st.i < (records st.sys).length := by omega
      have hslot : slot st.sys.memories st.i = (records st.sys)[st.i] := by
        rw [← slot_records st.sys st.i hic, slot_eq_getElem _ _ hiR]
      have hdrop : (records st.sys).drop st.i
          = (records st.sys)[st.i] :: (records st.sys).drop (st.i + 1) :=
        List.drop_eq_getElem_cons hiR
      by_cases hexp : now - (slot st.sys.memories st.i).timestamp > age
      · obtain ⟨st1, h1, h2, h3, h4, h5, h6, h7, h8⟩ := ih
          { sys := { st.sys with memories := shift_down st.sys.memories st.i st.sys.count
                                 count := st.sys.count - 1 }
            i := st.i
            deleted_count := st.deleted_count + 1 }
          (by simp only; rw [length_shift_down _ _ _ hic hlen]; omega)
          (by simp only; omega) (by simp only; omega)
        refine ⟨st1, by simp only [memory_cleanup_old_loop, hic, hexp, if_true]; exact h1, ?_,
          ?_, h4, h5, h6, ?_, ?_⟩
        · rw [h2]
          have hE : records { st.sys with memories := shift_down st.sys.memories st.i st.sys.count
                                          count := st.sys.count - 1 }
              = (records st.sys).eraseIdx st.i := by
            simp only [records]
            exact take_shift_down _ _ _ hic hlen
          simp only [hE]
          have hnk : ¬ (now - ((records st.sys)[st.i]).timestamp ≤ age) := by
            rw [← hslot]; omega
          rw [List.eraseIdx_eq_take_drop_succ, hdrop, List.filter_cons]
          have htl : ((records st.sys).take st.i).length = st.i := by
            rw [List.length_take]; omega
          rw [List.take_left' htl, List.drop_left' htl]
          simp [hnk]
        · rw [h3]; simp only; exact length_shift_down _ _ _ hic hlen
        · simp only at h7; omega
        · rw [h8]; simp only; omega
      · obtain ⟨st1, h1, h2, h3, h4, h5, h6, h7, h8⟩ := ih { st with i := st.i + 1 }
          hlen (by simp only; omega) (by simp only; omega)
        refine ⟨st1, by simp only [memory_cleanup_old_loop, hic, hexp, if_true, if_false]; exact h1,
          ?_, h3, h4, h5, h6, h7, h8⟩
        rw [h2]
        have hk : now - ((records st.sys)[st.i]).timestamp ≤ age := by
          rw [← hslot]; omega
        simp only
        have htake : (records st.sys).take (st.i + 1)
            = (records st.sys).take st.i ++ [(records st.sys)[st.i]] := by
          rw [List.take_succ, List.getElem?_eq_getElem hiR]; rfl
        rw [hdrop, List.filter_cons, htake, if_pos (by simpa using hk), List.append_assoc]
        rfl
    · refine ⟨st, by simp [memory_cleanup_old_loop, hic], ?_, rfl, rfl, rfl, rfl, Nat.le_refl _,
        by simp⟩
      rw [List.take_of_length_le (by omega), List.drop_of_length_le (by omega)]
      simp

/-! Section: The scanning loops -/

theorem find_tag_some (sys : MemorySystem) (tag : CStr) (i : Nat) (hi : i < sys.count)
    (hp : (slot sys.memories i).tag = tag)
    (hmin : ∀ j, j < i → (slot sys.memories j).tag ≠ tag) : find_tag sys tag = some i := by
  unfold find_tag
  apply find_range_some _ _ _ _ (Nat.zero_le _) (by omega)
  · simp [strcmp_eq_zero_iff, hp]
  · intro j _ hj
    simp [strcmp_eq_zero_iff, hmin j hj]

theorem find_tag_none (sys : MemorySystem) (tag : CStr)
    (h : ∀ j, j < sys.count → (slot sys.memories j).tag ≠ tag) : find_tag sys tag = none := by
  unfold find_tag
  apply find_range_none
  intro j _ hj
  simp [strcmp_eq_zero_iff, h j (by omega)]

theorem touch_fold (mem : List Memory) (lo n : Nat) (h : lo + n ≤ mem.length) :
    ((List.range' lo n).foldl touch mem).length = mem.length ∧
    ∀ k, slot ((List.range' lo n).foldl touch mem) k
          = if lo ≤ k ∧ k < lo + n then
              { slot mem k with access_count := (slot mem k).access_count + 1 }
            else slot mem k := by
  induction n with
  | zero =>
    refine ⟨rfl, fun k => ?_⟩
    have : ¬ (lo ≤ k ∧ k < lo) := by omega
    simp [this]
  | succ n ih =>
    obtain ⟨ihlen, ihget⟩ := ih (by omega)
    rw [List.range'_1_concat, List.foldl_append]
    simp only [List.foldl_cons, List.foldl_nil]
    refine ⟨by rw [length_touch, ihlen], fun k => ?_⟩
    rw [slot_touch, ihlen, ihget, ihget]
    have hn : ¬ (lo ≤ lo + n ∧ lo + n < lo + n) := by omega
    rw [if_neg hn]
    by_cases hk : lo + n = k
    · subst hk
      have h1 : lo + n = lo + n ∧ lo + n < mem.length := ⟨rfl, by omega⟩
      have h2 : lo ≤ lo + n ∧ lo + n < lo + (n + 1) := by omega
      rw [if_pos h1, if_pos h2]
    · have h1 : ¬ (lo + n = k ∧ lo + n < mem.length) := fun hh => hk hh.1
      rw [if_neg h1]
      by_cases hr : lo ≤ k ∧ k < lo + n
      · have h2 : lo ≤ k ∧ k < lo + (n + 1) := by omega
        rw [if_pos hr, if_pos h2]
      · have h2 : ¬ (lo ≤ k ∧ k < lo + (n + 1)) := by omega
        rw [if_neg hr, if_neg h2]

/-- What the scan of `memory_recall_by_type` has established after `n` iterations. -/
theorem recall_by_type_fold (mem : List Memory) (type : MemoryType) (n : Nat) :
    (∀ j, j < n → (slot mem j).type = type →
        (slot mem j).timestamp ≤ ((List.range' 0 n).foldl (recall_by_type_step mem type) (none, 0)).2) ∧
    (((List.range' 0 n).foldl (recall_by_type_step mem type) (none, 0)).1 = none →
        ((List.range' 0 n).foldl (recall_by_type_step mem type) (none, 0)).2 = 0) ∧
    (∀ i, ((List.range' 0 n).foldl (recall_by_type_step mem type) (none, 0)).1 = some i →
        i < n ∧ (slot mem i).type = type ∧
        (slot mem i).timestamp = ((List.range' 0 n).foldl (recall_by_type_step mem type) (none, 0)).2 ∧
        0 < (slot mem i).timestamp ∧
        ∀ j, j < i → (slot mem j).type = type → (slot mem j).timestamp < (slot mem i).timestamp) := by
  induction n with
  | zero => simp
  | succ n ih =>
    rw [List.range'_1_concat, List.foldl_append]
    simp only [List.foldl_cons, List.foldl_nil, Nat.zero_add]
    generalize (List.range' 0 n).foldl (recall_by_type_step mem type) (none, 0) = st at ih ⊢
    obtain ⟨ih1, ih2, ih3⟩ := ih
    have hge : 0 ≤ st.2 := by
      cases hst : st.1 with
      | none => rw [ih2 hst]
      | some i => have := ih3 i hst; omega
    unfold recall_by_type_step
    by_cases hty : (slot mem n).type = type
    · by_cases hts : (slot mem n).timestamp > st.2
      · simp only [hty, hts, if_true]
        refine ⟨?_, by simp, ?_⟩
        · intro j hj hjt
          by_cases hjn : j = n
          · subst hjn; exact le_refl _
          · have := ih1 j (by omega) hjt; omega
        · intro i hi
          simp only [Option.some.injEq] at hi
          subst hi
          refine ⟨by omega, hty, rfl, by omega, ?_⟩
          intro j hj hjt
          have := ih1 j hj hjt; omega
      · simp only [hty, hts, if_true, if_false]
        refine ⟨?_, ih2, ?_⟩
        · intro j hj hjt
          by_cases hjn : j = n
          · subst hjn; omega
          · exact ih1 j (by omega) hjt
        · intro i hi
          obtain ⟨h1, h2, h3, h4, h5⟩ := ih3 i hi
          exact ⟨by omega, h2, h3, h4, h5⟩
    · simp only [hty, if_false]
      refine ⟨?_, ih2, ?_⟩
      · intro j hj hjt
        by_cases hjn : j = n
        · subst hjn; exact absurd hjt hty
        · exact ih1 j (by omega) hjt
      · intro i hi
        obtain ⟨h1, h2, h3, h4, h5⟩ := ih3 i hi
        exact ⟨by omega, h2, h3, h4, h5⟩

theorem find_tag_lt (sys : MemorySystem) (tag : CStr) (i : Nat)
    (h : find_tag sys tag = some i) : i < sys.count := by
  unfold find_tag at h
  have := List.mem_of_find?_eq_some h
  rw [List.mem_range'_1] at this
  omega

theorem cleanup_loop_succ (now age : Int) (fuel : Nat) :
    ∀ st st1, memory_cleanup_old_loop now age fuel st = some st1 →
      memory_cleanup_old_loop now age (fuel + 1) st = some st1 := by
  induction fuel with
  | zero =>
    intro st st1 h
    by_cases hic : st.i < st.sys.count
    · simp [memory_cleanup_old_loop, hic] at h
    · simpa [memory_cleanup_old_loop, hic] using h
  | succ fuel ih =>
    intro st st1 h
    rw [memory_cleanup_old_loop] at h ⊢
    by_cases hic : st.i < st.sys.count
    · by_cases hexp : now - (slot st.sys.memories st.i).timestamp > age
      · simp only [hic, hexp, if_true] at h ⊢
        exact ih _ _ h
      · simp only [hic, hexp, if_true, if_false] at h ⊢
        exact ih _ _ h
    · simp only [hic, if_false] at h ⊢
      exact h

theorem cleanup_loop_mono (now age : Int) (fuel extra : Nat) (st st1 : CleanupState)
    (h : memory_cleanup_old_loop now age fuel st = some st1) :
    memory_cleanup_old_loop now age (fuel + extra) st = some st1 := by
  induction extra with
  | zero => exact h
  | succ e ih => exact cleanup_loop_succ now age (fuel + e) st st1 ih

/-! Section: Well-formedness is preserved -/

theorem valid_init (sys0 : MemorySystem) : valid (memory_init sys0 true).2 := by
  simp [valid, memory_init, INITIAL_MEMORY_CAPACITY]

theorem valid_save (s : MemorySystem) (text tag : Option CStr) (type : MemoryType)
    (importance now : Int) (realloc_ok : Bool) (hv : valid s) :
    valid (memory_save s text tag type importance now realloc_ok).2 := by
  obtain ⟨hlen, hle, hpos⟩ := hv
  cases text with
  | none => simpa [memory_save] using ⟨hlen, hle, hpos⟩
  | some text =>
    cases tag with
    | none => simpa [memory_save] using ⟨hlen, hle, hpos⟩
    | some tag =>
      by_cases hfull : s.count ≥ s.capacity
      · cases realloc_ok
        · simpa [memory_save, memory_resize, hfull] using ⟨hlen, hle, hpos⟩
        · simp only [memory_save, memory_resize, hfull, if_true, valid, Bool.not_true,
            Bool.false_eq_true, if_false, one_ne_zero, List.length_set, length_realloc]
          exact ⟨trivial, by omega, by omega⟩
      · simp only [memory_save, hfull, if_false, valid, one_ne_zero, List.length_set]
        omega

theorem valid_recall_by_tag (s : MemorySystem) (tag : Option CStr) (hv : valid s) :
    valid (memory_recall_by_tag s tag).2 := by
  cases tag with
  | none => exact hv
  | some tag =>
    simp only [memory_recall_by_tag]
    cases find_tag s tag with
    | none => exact hv
    | some i => simpa [valid, length_touch] using hv

theorem valid_recall_by_type (s : MemorySystem) (type : MemoryType) (hv : valid s) :
    valid (memory_recall_by_type s type).2 := by
  simp only [memory_recall_by_type]
  cases ((List.range' 0 s.count).foldl (recall_by_type_step s.memories type) (none, 0)).1 with
  | none => exact hv
  | some i => simpa [valid, length_touch] using hv

theorem valid_recall_recent (s : MemorySystem) (count : Int) (hv : valid s) :
    valid (memory_recall_recent s count).2 := by
  obtain ⟨hlen, hle, hpos⟩ := hv
  unfold memory_recall_recent
  by_cases hc : count ≤ 0
  · simpa [hc] using ⟨hlen, hle, hpos⟩
  · simp only [hc, if_false, valid]
    refine ⟨?_, hle, hpos⟩
    rw [(touch_fold s.memories _ _ _).1, hlen]
    split <;> omega

theorem valid_delete_by_tag (s : MemorySystem) (tag : Option CStr) (hv : valid s) :
    valid (memory_delete_by_tag s tag).2 := by
  cases tag with
  | none => exact hv
  | some tag =>
    simp only [memory_delete_by_tag]
    cases hf : find_tag s tag with
    | none => exact hv
    | some i =>
      obtain ⟨hlen, hle, hpos⟩ := hv
      have hi := find_tag_lt s tag i hf
      simp only [valid]
      rw [length_shift_down _ _ _ hi (by omega)]
      omega

/-- Everything `memory_cleanup_old` guarantees about a call that returns. -/
theorem cleanup_old_returns (fuel : Nat) (s s1 : MemorySystem) (now age : Int)
    (hlen : s.count ≤ s.memories.length)
    (h : memory_cleanup_old fuel s now age = some ((), s1)) :
    records s1 = (records s).filter (fun m => decide (now - m.timestamp ≤ age)) ∧
    s1.memories.length = s.memories.length ∧ s1.capacity = s.capacity ∧
    s1.total_saved = s.total_saved ∧ s1.total_recalled = s.total_recalled ∧
    s1.count ≤ s.count := by
  unfold memory_cleanup_old at h
  cases hl : memory_cleanup_old_loop now age fuel { sys := s, i := 0, deleted_count := 0 } with
  | none => simp [hl] at h
  | some st =>
    simp only [hl, Option.map_some', Option.some.injEq, Prod.mk.injEq, true_and] at h
    subst h
    obtain ⟨st1, h1, h2, h3, h4, h5, h6, h7, _⟩ :=
      cleanup_loop_spec now age (fuel + s.count) { sys := s, i := 0, deleted_count := 0 }
        hlen (Nat.zero_le _) (by simp only; omega)
    rw [cleanup_loop_mono now age fuel s.count _ _ hl] at h1
    simp only [Option.some.injEq] at h1
    subst h1
    exact ⟨by simpa using h2, h3, h4, h5, h6, h7⟩

theorem valid_step (s s1 : MemorySystem) (hv : valid s) (h : MemoryStep s s1) : valid s1 := by
  cases h with
  | save text tag type importance now realloc_ok => exact valid_save s _ _ _ _ _ _ hv
  | recall_by_tag tag => exact valid_recall_by_tag s tag hv
  | recall_by_type type => exact valid_recall_by_type s type hv
  | recall_recent count => exact valid_recall_recent s count hv
  | delete_by_tag tag => exact valid_delete_by_tag s tag hv
  | cleanup_old _ fuel now age h =>
    obtain ⟨hlen, hle, hpos⟩ := hv
    obtain ⟨_, h2, h3, _, _, h6⟩ := cleanup_old_returns fuel s s1 now age (by omega) h
    exact ⟨by omega, by omega, by omega⟩

theorem valid_of_reachable (s : MemorySystem) (h : Reachable s) : valid s := by
  induction h with
  | init sys0 => exact valid_init sys0
  | step s s1 _ hstep ih => exact valid_step s s1 ih hstep

/-- C3: in every state reachable from `memory_init` by any sequence of `memory_save`,
`memory_recall_by_tag`, `memory_recall_by_type`, `memory_recall_recent`,
`memory_delete_by_tag` and `memory_cleanup_old` calls, `0 <= count <= capacity`. -/
theorem C3_count_le_capacity (s : MemorySystem) (h : Reachable s) :
    0 ≤ s.count ∧ s.count ≤ s.capacity :=
  ⟨Nat.zero_le _, (valid_of_reachable s h).2.1⟩

/-- C3 (instance): the state after initialising, saving one record and deleting it again. -/
theorem C3_count_le_capacity_witness :
    Reachable (memory_delete_by_tag
        (memory_save fresh_store (some [104, 105]) (some [97]) MemoryType.MEMORY_PATTERN 3 1000
          true).2 (some [97])).2 ∧
    (memory_delete_by_tag
        (memory_save fresh_store (some [104, 105]) (some [97]) MemoryType.MEMORY_PATTERN 3 1000
          true).2 (some [97])).2.count ≤ 10 :=
  ⟨Reachable.step _ _ (Reachable.step _ _ (Reachable.init _) (MemoryStep.save _ _ _ _ _ _ _))
      (MemoryStep.delete_by_tag _ _),
   (C3_count_le_capacity _
      (Reachable.step _ _ (Reachable.step _ _ (Reachable.init _) (MemoryStep.save _ _ _ _ _ _ _))
        (MemoryStep.delete_by_tag _ _))).2⟩

/-! Section: memory_recall_by_tag -/

theorem recall_by_tag_first (s : MemorySystem) (a : CStr) (h0 : 0 < s.count)
    (htag : (slot s.memories 0).tag = a) :
    memory_recall_by_tag s (some a)
      = (some 0, { s with memories := touch s.memories 0
                          total_recalled := s.total_recalled + 1 }) := by
  simp only [memory_recall_by_tag]
  rw [find_tag_some s a 0 h0 htag (fun j hj => absurd hj (Nat.not_lt_zero j))]

theorem recall_by_tag_times_spec (a : CStr) (s : MemorySystem) (h0 : 0 < s.count)
    (hl : 0 < s.memories.length) (htag : (slot s.memories 0).tag = a) (k : Nat) :
    0 < (recall_by_tag_times a k s).count ∧
    0 < (recall_by_tag_times a k s).memories.length ∧
    (slot (recall_by_tag_times a k s).memories 0).tag = a ∧
    (slot (recall_by_tag_times a k s).memories 0).access_count
      = (slot s.memories 0).access_count + k := by
  induction k with
  | zero => exact ⟨h0, hl, htag, by simp [recall_by_tag_times]⟩
  | succ k ih =>
    obtain ⟨i1, i2, i3, i4⟩ := ih
    have hstep : recall_by_tag_times a (k + 1) s
        = (memory_recall_by_tag (recall_by_tag_times a k s) (some a)).2 := by
      simp only [recall_by_tag_times, Function.iterate_succ_apply']
    rw [hstep, recall_by_tag_first _ a i1 i3]
    simp only [length_touch, slot_touch, i2, and_self, if_true, i3, i4]
    exact ⟨i1, trivial, trivial, by push_cast; ring⟩

/-- C4: `memory_recall_by_tag` returns the record at the smallest index whose stored
tag equals the argument, adds one to that record's `access_count` and to
`total_recalled` and changes nothing else; when no stored tag equals the argument it
returns none and the store is unchanged.  Hence, after saving records tagged
`a, b, a` into the freshly initialised store, each of `k` successive recalls of `a`
returns the record at index 0, whose `access_count` is `k` afterwards. -/
theorem C4_recall_by_tag (sys : MemorySystem) (tag : CStr) :
    (∀ i, i < sys.count → (slot sys.memories i).tag = tag →
        (∀ j, j < i → (slot sys.memories j).tag ≠ tag) →
        memory_recall_by_tag sys (some tag)
          = (some i,
             { sys with
                 memories := sys.memories.set i
                   { slot sys.memories i with
                       access_count := (slot sys.memories i).access_count + 1 }
                 total_recalled := sys.total_recalled + 1 })) ∧
    ((∀ j, j < sys.count → (slot sys.memories j).tag ≠ tag) →
        memory_recall_by_tag sys (some tag) = (none, sys)) ∧
    (∀ (sys0 : MemorySystem) (a b t1 t2 t3 : CStr) (ty1 ty2 ty3 : MemoryType)
        (imp1 imp2 imp3 now1 now2 now3 : Int) (ok1 ok2 ok3 : Bool) (k : Nat),
        a.length ≤ 63 →
        (∀ j, j < k →
          (memory_recall_by_tag
            (recall_by_tag_times a j
              (memory_save
                (memory_save
                  (memory_save (memory_init sys0 true).2 (some t1) (some a) ty1 imp1 now1 ok1).2
                  (some t2) (some b) ty2 imp2 now2 ok2).2
                (some t3) (some a) ty3 imp3 now3 ok3).2)
            (some a)).1 = some 0) ∧
        (slot
          (recall_by_tag_times a k
            (memory_save
              (memory_save
                (memory_save (memory_init sys0 true).2 (some t1) (some a) ty1 imp1 now1 ok1).2
                (some t2) (some b) ty2 imp2 now2 ok2).2
              (some t3) (some a) ty3 imp3 now3 ok3).2).memories 0).access_count = k) := by
  refine ⟨?_, ?_, ?_⟩
  · intro i hi hp hmin
    simp only [memory_recall_by_tag]
    rw [find_tag_some sys tag i hi hp hmin]
    rfl
  · intro h
    simp only [memory_recall_by_tag]
    rw [find_tag_none sys tag h]
  · intro sys0 a b t1 t2 t3 ty1 ty2 ty3 imp1 imp2 imp3 now1 now2 now3 ok1 ok2 ok3 k ha
    have hcount : (memory_save
          (memory_save
            (memory_save (memory_init sys0 true).2 (some t1) (some a) ty1 imp1 now1 ok1).2
            (some t2) (some b) ty2 imp2 now2 ok2).2
          (some t3) (some a) ty3 imp3 now3 ok3).2.count = 3 := by
      simp [memory_save, memory_init, INITIAL_MEMORY_CAPACITY]
    have hlen : (memory_save
          (memory_save
            (memory_save (memory_init sys0 true).2 (some t1) (some a) ty1 imp1 now1 ok1).2
            (some t2) (some b) ty2 imp2 now2 ok2).2
          (some t3) (some a) ty3 imp3 now3 ok3).2.memories.length = 10 := by
      simp [memory_save, memory_init, INITIAL_MEMORY_CAPACITY]
    have hslot : slot (memory_save
          (memory_save
            (memory_save (memory_init sys0 true).2 (some t1) (some a) ty1 imp1 now1 ok1).2
            (some t2) (some b) ty2 imp2 now2 ok2).2
          (some t3) (some a) ty3 imp3 now3 ok3).2.memories 0
        = { text := t1.take 511, tag := a.take 63, type := ty1, timestamp := now1,
            importance_score := imp1, access_count := 0 } := by
      simp [memory_save, memory_init, INITIAL_MEMORY_CAPACITY, slot_set, strncpy_terminated,
        MAX_MEMORY_TEXT, MAX_MEMORY_TAG]
      rfl
    generalize (memory_save
          (memory_save
            (memory_save (memory_init sys0 true).2 (some t1) (some a) ty1 imp1 now1 ok1).2
            (some t2) (some b) ty2 imp2 now2 ok2).2
          (some t3) (some a) ty3 imp3 now3 ok3).2 = s3 at hcount hlen hslot ⊢
    have htag : (slot s3.memories 0).tag = a := by
      rw [hslot]; exact List.take_of_length_le ha
    constructor
    · intro j _
      obtain ⟨i1, _, i3, _⟩ := recall_by_tag_times_spec a s3 (by omega) (by omega) htag j
      rw [recall_by_tag_first _ a i1 i3]
    · rw [(recall_by_tag_times_spec a s3 (by omega) (by omega) htag k).2.2.2, hslot]
      simp

/-- C4 (instance): the first of two records is found by its tag, and two recalls after
saving `a, b, a` leave `access_count = 2` at index 0. -/
theorem C4_recall_by_tag_witness :
    (memory_recall_by_tag full_store (some [97])).1 = some 0 ∧
    (slot
      (recall_by_tag_times [97] 2
        (memory_save
          (memory_save
            (memory_save (memory_init fresh_store true).2 (some [1]) (some [97])
              MemoryType.MEMORY_PATTERN 0 1 true).2
            (some [2]) (some [98]) MemoryType.MEMORY_PATTERN 0 2 true).2
          (some [3]) (some [97]) MemoryType.MEMORY_PATTERN 0 3 true).2).memories 0).access_count
      = (2 : Nat) :=
  ⟨congrArg Prod.fst
      ((C4_recall_by_tag full_store [97]).1 0 (by decide) (by decide)
        (fun j hj => absurd hj (Nat.not_lt_zero j))),
   ((C4_recall_by_tag full_store [97]).2.2 fresh_store [97] [98] [1] [2] [3]
      MemoryType.MEMORY_PATTERN MemoryType.MEMORY_PATTERN MemoryType.MEMORY_PATTERN
      0 0 0 1 2 3 true true true 2 (by decide)).2⟩

/-! Section: memory_recall_by_type -/

/-- C5: whenever `memory_recall_by_type(T)` returns a record, that record is stored, has
type `T`, and its timestamp is at least the timestamp of every stored record of type
`T`; exactly that record's `access_count` and `total_recalled` grow by one; and when
nothing is returned the store is unchanged. -/
theorem C5_recall_by_type (sys : MemorySystem) (type : MemoryType) :
    (∀ i, (memory_recall_by_type sys type).1 = some i →
        i < sys.count ∧ (slot sys.memories i).type = type ∧
        (∀ j, j < sys.count → (slot sys.memories j).type = type →
          (slot sys.memories j).timestamp ≤ (slot sys.memories i).timestamp) ∧
        (memory_recall_by_type sys type).2
          = { sys with
                memories := sys.memories.set i
                  { slot sys.memories i with
                      access_count := (slot sys.memories i).access_count + 1 }
                total_recalled := sys.total_recalled + 1 }) ∧
    ((memory_recall_by_type sys type).1 = none → (memory_recall_by_type sys type).2 = sys) := by
  obtain ⟨h1, _, h3⟩ := recall_by_type_fold sys.memories type sys.count
  unfold memory_recall_by_type
  cases hst : ((List.range' 0 sys.count).foldl (recall_by_type_step sys.memories type)
      (none, 0)).1 with
  | none => simp [hst]
  | some i0 =>
    obtain ⟨a1, a2, a3, _, _⟩ := h3 i0 hst
    simp only [hst]
    refine ⟨?_, by simp⟩
    intro i hi
    simp only [Option.some.injEq] at hi
    subst hi
    refine ⟨a1, a2, ?_, rfl⟩
    intro j hj hjt
    rw [a3]
    exact h1 j hj hjt

/-- C5 (instance): with Evolution records at times 5 and 9 and a Pattern record at time 7,
the Evolution record at time 9 (index 2) is returned. -/
theorem C5_recall_by_type_witness :
    (memory_recall_by_type mixed_store MemoryType.MEMORY_EVOLUTION).1 = some 2 ∧
    (slot mixed_store.memories 0).timestamp ≤ (slot mixed_store.memories 2).timestamp :=
  ⟨by decide,
   ((C5_recall_by_type mixed_store MemoryType.MEMORY_EVOLUTION).1 2 (by decide)).2.2.1 0
      (by decide) (by decide)⟩

/-- Among stored records of the requested type that share the latest timestamp,
`memory_recall_by_type` returns the one with the least index. -/
theorem recall_by_type_earliest (sys : MemorySystem) (type : MemoryType) (i j : Nat)
    (hi : (memory_recall_by_type sys type).1 = some i) (_hj : j < sys.count)
    (hjt : (slot sys.memories j).type = type)
    (heq : (slot sys.memories j).timestamp = (slot sys.memories i).timestamp) : i ≤ j := by
  obtain ⟨_, _, h3⟩ := recall_by_type_fold sys.memories type sys.count
  unfold memory_recall_by_type at hi
  cases hst : ((List.range' 0 sys.count).foldl (recall_by_type_step sys.memories type)
      (none, 0)).1 with
  | none => simp [hst] at hi
  | some i0 =>
    simp only [hst, Option.some.injEq] at hi
    subst hi
    obtain ⟨_, _, _, _, a5⟩ := h3 i0 hst
    by_contra hlt
    have := a5 j (by omega) hjt
    omega

/-- C6 (code behaviour): two Evolution records share the latest timestamp 5 at indices 0
and 1; `memory_recall_by_type` returns index 0, the earlier insertion, not index 1. -/
theorem C6_recall_by_type_tie :
    (slot tie_store.memories 0).type = MemoryType.MEMORY_EVOLUTION ∧
    (slot tie_store.memories 1).type = MemoryType.MEMORY_EVOLUTION ∧
    (slot tie_store.memories 0).timestamp = (slot tie_store.memories 1).timestamp ∧
    (memory_recall_by_type tie_store MemoryType.MEMORY_EVOLUTION).1 = some 0 := by
  decide

/-! Section: memory_recall_recent -/

/-- C7: with `m = recent_window count n` (that is `min(n, count)` for `n > 0`, else `0`),
`memory_recall_recent(n)` adds one to `access_count` of exactly the records at indices
`count-m .. count-1`, adds `m` to `total_recalled`, keeps the order of the records and
every other field, and returns the window starting at index `count-m` when `m > 0` and
none when `m = 0`. -/
theorem C7_recall_recent (sys : MemorySystem) (n : Int)
    (hlen : sys.count ≤ sys.memories.length) :
    (memory_recall_recent sys n).1
      = (if recent_window sys.count n > 0 then some (sys.count - recent_window sys.count n)
         else none) ∧
    (memory_recall_recent sys n).2.memories.length = sys.memories.length ∧
    (∀ k, slot (memory_recall_recent sys n).2.memories k
        = if sys.count - recent_window sys.count n ≤ k ∧ k < sys.count then
            { slot sys.memories k with access_count := (slot sys.memories k).access_count + 1 }
          else slot sys.memories k) ∧
    (memory_recall_recent sys n).2.total_recalled
      = sys.total_recalled + (recent_window sys.count n : Int) ∧
    (memory_recall_recent sys n).2.count = sys.count ∧
    (memory_recall_recent sys n).2.capacity = sys.capacity ∧
    (memory_recall_recent sys n).2.total_saved = sys.total_saved := by
  by_cases hn : n ≤ 0
  · have hw : recent_window sys.count n = 0 := by
      have : ¬ n > 0 := by omega
      simp [recent_window, this]
    have hk : ∀ k, ¬ (sys.count ≤ k ∧ k < sys.count) := fun k => by omega
    simp [memory_recall_recent, hn, hw, hk]
  · have hpos : n > 0 := by omega
    have hw : (if n > (sys.count : Int) then sys.count else n.toNat)
        = recent_window sys.count n := by
      simp only [recent_window, hpos, if_true]
      split
      · rw [Nat.min_eq_right]; omega
      · rw [Nat.min_eq_left]; omega
    have hle : recent_window sys.count n ≤ sys.count := by
      simp only [recent_window, hpos, if_true]; exact Nat.min_le_right _ _
    obtain ⟨f1, f2⟩ := touch_fold sys.memories (sys.count - recent_window sys.count n)
      (recent_window sys.count n) (by omega)
    simp only [memory_recall_recent, hn, if_false, hw]
    refine ⟨?_, f1, ?_, trivial, trivial, trivial, trivial⟩
    · by_cases hm : recent_window sys.count n > 0
      · have : recent_window sys.count n > 0 ∧ sys.count > 0 := ⟨hm, by omega⟩
        rw [if_pos this, if_pos hm]
      · have : ¬ (recent_window sys.count n > 0 ∧ sys.count > 0) := fun h => hm h.1
        rw [if_neg this, if_neg hm]
    · intro k
      rw [f2 k]
      have hs : sys.count - recent_window sys.count n + recent_window sys.count n = sys.count := by
        omega
      rw [hs]

/-- C7 (instance): recalling the 2 most recent of 3 records. -/
theorem C7_recall_recent_witness :
    mixed_store.count ≤ mixed_store.memories.length ∧
    (memory_recall_recent mixed_store 2).1 = some 1 :=
  ⟨by decide, (C7_recall_recent mixed_store 2 (by decide)).1⟩

/-! Section: memory_delete_by_tag -/

/-- C8: if some stored tag equals the argument, `memory_delete_by_tag` reports success and
the record sequence is the original one with exactly the first matching record erased;
`count` drops by one and `capacity`, `total_saved`, `total_recalled` are unchanged.  If no
stored tag equals the argument it reports failure and the store is unchanged. -/
theorem C8_delete_by_tag (sys : MemorySystem) (tag : CStr)
    (hlen : sys.count ≤ sys.memories.length) :
    ((∃ i, i < sys.count ∧ (slot sys.memories i).tag = tag) →
      ∃ i, i < sys.count ∧ (slot sys.memories i).tag = tag ∧
        (∀ j, j < i → (slot sys.memories j).tag ≠ tag) ∧
        (memory_delete_by_tag sys (some tag)).1 = 1 ∧
        records (memory_delete_by_tag sys (some tag)).2 = (records sys).eraseIdx i ∧
        (memory_delete_by_tag sys (some tag)).2.count + 1 = sys.count ∧
        (memory_delete_by_tag sys (some tag)).2.capacity = sys.capacity ∧
        (memory_delete_by_tag sys (some tag)).2.total_saved = sys.total_saved ∧
        (memory_delete_by_tag sys (some tag)).2.total_recalled = sys.total_recalled) ∧
    ((∀ j, j < sys.count → (slot sys.memories j).tag ≠ tag) →
      memory_delete_by_tag sys (some tag) = (0, sys)) := by
  constructor
  · intro hex
    obtain ⟨i, hi, hp, hmin⟩ := exists_least
      (fun i => decide ((slot sys.memories i).tag = tag)) sys.count
      (by obtain ⟨i, hi, hp⟩ := hex; exact ⟨i, hi, by simpa using hp⟩)
    have hp1 : (slot sys.memories i).tag = tag := by simpa using hp
    have hmin1 : ∀ j, j < i → (slot sys.memories j).tag ≠ tag := fun j hj => by
      simpa using hmin j hj
    refine ⟨i, hi, hp1, hmin1, ?_⟩
    simp only [memory_delete_by_tag]
    rw [find_tag_some sys tag i hi hp1 hmin1]
    refine ⟨rfl, ?_, by simp only; omega, rfl, rfl, rfl⟩
    simp only [records]
    exact take_shift_down _ _ _ hi hlen
  · intro h
    simp only [memory_delete_by_tag]
    rw [find_tag_none sys tag h]

/-- C8 (instance): deleting the middle one of three records leaves the other two in
order. -/
theorem C8_delete_by_tag_witness :
    mixed_store.count ≤ mixed_store.memories.length ∧
    (∃ i, i < mixed_store.count ∧ (slot mixed_store.memories i).tag = [98]) ∧
    records (memory_delete_by_tag mixed_store (some [98])).2
      = [mk_memory [97] MemoryType.MEMORY_EVOLUTION 5,
         mk_memory [99] MemoryType.MEMORY_EVOLUTION 9] ∧
    (memory_delete_by_tag mixed_store (some [98])).2.count = 2 ∧
    (∃ i, (memory_delete_by_tag mixed_store (some [98])).1 = 1 ∧
      records (memory_delete_by_tag mixed_store (some [98])).2
        = (records mixed_store).eraseIdx i) :=
  ⟨by decide, ⟨1, by decide, by decide⟩, by decide, by decide,
   (((C8_delete_by_tag mixed_store [98] (by decide)).1 ⟨1, by decide, by decide⟩).imp
      (fun _ h => ⟨h.2.2.2.1, h.2.2.2.2.1⟩))⟩

/-! Section: memory_cleanup_old -/

/-- C9: given at least `count` iterations, `memory_cleanup_old` returns, and the resulting
record sequence is the original one filtered to the records with
`now - timestamp <= max_age` (`cleanup_old_spec`), in order and unmodified, with `count`
the number of records kept; a record of age exactly `max_age` is kept and no record of
greater age remains. -/
theorem C9_cleanup_old_filter (sys : MemorySystem) (now max_age : Int) (fuel : Nat)
    (hlen : sys.count ≤ sys.memories.length) (hfuel : sys.count ≤ fuel) :
    ∃ s1, memory_cleanup_old fuel sys now max_age = some ((), s1) ∧
      records s1 = cleanup_old_spec (records sys) now max_age ∧
      s1.count = (cleanup_old_spec (records sys) now max_age).length ∧
      (∀ m, m ∈ records sys → now - m.timestamp = max_age → m ∈ records s1) ∧
      (∀ m, m ∈ records sys → now - m.timestamp > max_age → m ∉ records s1) := by
  obtain ⟨st1, h1, _⟩ := cleanup_loop_spec now max_age fuel
    { sys := sys, i := 0, deleted_count := 0 } hlen (Nat.zero_le _) (by simp only; omega)
  have hret : memory_cleanup_old fuel sys now max_age = some ((), st1.sys) := by
    simp [memory_cleanup_old, h1]
  obtain ⟨g1, g2, _, _, _, g6⟩ := cleanup_old_returns fuel sys st1.sys now max_age hlen hret
  refine ⟨st1.sys, hret, g1, ?_, ?_, ?_⟩
  · rw [← length_records st1.sys (by omega), g1]; rfl
  · intro m hm hage
    rw [g1, List.mem_filter]
    exact ⟨hm, by simp [hage]⟩
  · intro m _ hage hmem
    rw [g1, List.mem_filter] at hmem
    have := hmem.2
    simp only [decide_eq_true_eq] at this
    omega

/-- C9 (instance): two consecutive expired records are both removed and the record of age
exactly `max_age` is kept. -/
theorem C9_cleanup_old_filter_witness :
    mixed_store.count ≤ mixed_store.memories.length ∧
    (memory_cleanup_old 3 mixed_store 19 10).map (fun r => records r.2)
      = some [mk_memory [99] MemoryType.MEMORY_EVOLUTION 9] ∧
    (∃ s1, memory_cleanup_old 3 mixed_store 19 10 = some ((), s1) ∧
      records s1 = cleanup_old_spec (records mixed_store) 19 10) :=
  ⟨by decide, by decide,
   (C9_cleanup_old_filter mixed_store 19 10 3 (by decide) (by decide)).imp
     (fun _ h => ⟨h.1, h.2.1⟩)⟩

/-- C10 (as stated, refuted): `memory_cleanup_old` is a `void` function.  On the same store
one call removes two records and another removes none, and both hand the caller the same
(empty) value, so no reading of the return value gives the number of records removed. -/
theorem C10_cleanup_old_returns_no_count :
    ¬ ∃ decode : Unit → Int,
      (∀ r, memory_cleanup_old 2 full_store 100 10 = some r →
        decode r.1 = (full_store.count : Int) - (r.2.count : Int)) ∧
      (∀ r, memory_cleanup_old 2 full_store 7 5 = some r →
        decode r.1 = (full_store.count : Int) - (r.2.count : Int)) := by
  rintro ⟨decode, h1, h2⟩
  have e1 : memory_cleanup_old 2 full_store 100 10
      = some ((), { full_store with
                      memories := [mk_memory [98] MemoryType.MEMORY_PATTERN 7,
                                   mk_memory [98] MemoryType.MEMORY_PATTERN 7]
                      count := 0 }) := by decide
  have e2 : memory_cleanup_old 2 full_store 7 5 = some ((), full_store) := by decide
  have a := h1 _ e1
  have b := h2 _ e2
  simp only [full_store] at a b
  rw [a] at b
  omega

/-- C10 (amended): given at least `count` iterations, `memory_cleanup_old` returns no
value to its caller; the number of records removed, old `count` minus new `count`, is
what the loop leaves in the local `deleted_count`. -/
theorem C10_cleanup_old_deleted_count (sys : MemorySystem) (now max_age : Int) (fuel : Nat)
    (hlen : sys.count ≤ sys.memories.length) (hfuel : sys.count ≤ fuel) :
    ∃ st1, memory_cleanup_old_loop now max_age fuel { sys := sys, i := 0, deleted_count := 0 }
        = some st1 ∧
      st1.deleted_count = (sys.count : Int) - (st1.sys.count : Int) ∧
      memory_cleanup_old fuel sys now max_age = some ((), st1.sys) := by
  obtain ⟨st1, h1, _, _, _, _, _, _, h8⟩ := cleanup_loop_spec now max_age fuel
    { sys := sys, i := 0, deleted_count := 0 } hlen (Nat.zero_le _) (by simp only; omega)
  exact ⟨st1, h1, by simpa using h8, by simp [memory_cleanup_old, h1]⟩

/-- C10 (instance): both records of the store are expired; `deleted_count` ends at 2. -/
theorem C10_cleanup_old_deleted_count_witness :
    full_store.count ≤ full_store.memories.length ∧ full_store.count ≤ 2 ∧
    (memory_cleanup_old_loop 100 10 2
      { sys := full_store, i := 0, deleted_count := 0 }).map (fun st => st.deleted_count)
      = some 2 ∧
    (∃ st1 : CleanupState, memory_cleanup_old 2 full_store 100 10 = some ((), st1.sys) ∧
      st1.deleted_count = (full_store.count : Int) - (st1.sys.count : Int)) :=
  ⟨by decide, by decide, by decide,
   (C10_cleanup_old_deleted_count full_store 100 10 2 (by decide) (by decide)).imp
     (fun _ h => ⟨h.2.2, h.2.1⟩)⟩

/-! Section: the processor registry, slots and scans -/

theorem find_range_spec (p : Nat → Bool) (n lo i : Nat)
    (h : (List.range' lo n).find? p = some i) :
    lo ≤ i ∧ i < lo + n ∧ p i = true ∧ ∀ j, lo ≤ j → j < i → p j = false := by
  induction n generalizing lo with
  | zero => simp at h
  | succ n ih =>
    rw [List.range'_succ, List.find?_cons] at h
    cases hp : p lo with
    | true =>
      simp only [hp, Option.some.injEq] at h
      subst h
      exact ⟨Nat.le_refl _, by omega, hp, fun j h1 h2 => by omega⟩
    | false =>
      simp only [hp] at h
      obtain ⟨h1, h2, h3, h4⟩ := ih (lo + 1) h
      refine ⟨by omega, by omega, h3, fun j hj1 hj2 => ?_⟩
      by_cases hj : j = lo
      · subst hj; exact hp
      · exact h4 j (by omega) hj2

theorem plugin_slot_set (plugins : List Plugin) (i j : Nat) (v : Plugin) :
    plugin_slot (plugins.set i v) j
      = if i = j ∧ i < plugins.length then v else plugin_slot plugins j := by
  unfold plugin_slot
  rw [List.getD_eq_getElem?_getD, List.getD_eq_getElem?_getD, List.getElem?_set]
  by_cases hij : i = j
  · subst hij
    by_cases hl : i < plugins.length
    · rw [if_pos rfl, if_pos hl, if_pos ⟨rfl, hl⟩]; rfl
    · rw [if_pos rfl, if_neg hl, if_neg (fun h => hl h.2),
        List.getElem?_eq_none (Nat.le_of_not_lt hl)]
  · rw [if_neg hij, if_neg (fun h => hij h.1)]

theorem find_by_name_spec (sys : PluginSystem) (name : CStr) (i : Nat)
    (h : plugin_find_by_name sys (some name) = some i) :
    i < sys.count ∧ (plugin_slot sys.plugins i).name = name ∧
    ∀ j, j < i → (plugin_slot sys.plugins j).name ≠ name := by
  simp only [plugin_find_by_name] at h
  obtain ⟨_, h2, h3, h4⟩ := find_range_spec _ _ _ _ h
  refine ⟨by omega, by simpa [strcmp_eq_zero_iff] using h3, fun j hj => ?_⟩
  simpa [strcmp_eq_zero_iff] using h4 j (Nat.zero_le _) hj

theorem find_by_name_some (sys : PluginSystem) (name : CStr) (i : Nat) (hi : i < sys.count)
    (hp : (plugin_slot sys.plugins i).name = name)
    (hmin : ∀ j, j < i → (plugin_slot sys.plugins j).name ≠ name) :
    plugin_find_by_name sys (some name) = some i := by
  simp only [plugin_find_by_name]
  apply find_range_some _ _ _ _ (Nat.zero_le _) (by omega)
  · simp [strcmp_eq_zero_iff, hp]
  · intro j _ hj
    simp [strcmp_eq_zero_iff, hmin j hj]

theorem find_by_name_none (sys : PluginSystem) (name : CStr)
    (h : ∀ j, j < sys.count → (plugin_slot sys.plugins j).name ≠ name) :
    plugin_find_by_name sys (some name) = none := by
  simp only [plugin_find_by_name]
  apply find_range_none
  intro j _ hj
  simp [strcmp_eq_zero_iff, h j (by omega)]

theorem find_by_name_eq_none (sys : PluginSystem) (name : CStr)
    (h : plugin_find_by_name sys (some name) = none) :
    ∀ j, j < sys.count → (plugin_slot sys.plugins j).name ≠ name := by
  intro j hj hname
  obtain ⟨i, hi, hp, hmin⟩ := exists_least
    (fun i => decide ((plugin_slot sys.plugins i).name = name)) sys.count
    ⟨j, hj, by simpa using hname⟩
  rw [find_by_name_some sys name i hi (by simpa using hp)
    (fun k hk => by simpa using hmin k hk)] at h
  exact Option.noConfusion h

/-- What `plugin_activate` does once the name has been found at index `i`. -/
theorem plugin_activate_found (sys : PluginSystem) (name : CStr) (i : Nat)
    (h : plugin_find_by_name sys (some name) = some i) :
    plugin_activate sys (some name)
      = (if (plugin_slot sys.plugins i).is_active then (1, sys)
         else if (plugin_slot sys.plugins i).init.isSome
              ∧ (plugin_slot sys.plugins i).init = some 0 then (0, sys)
         else (1, { sys with
                      plugins := sys.plugins.set i
                        { plugin_slot sys.plugins i with is_active := true }
                      active_count := sys.active_count + 1 })) := by
  simp only [plugin_activate, h]

theorem plugin_deactivate_found (sys : PluginSystem) (name : CStr) (i : Nat)
    (h : plugin_find_by_name sys (some name) = some i) :
    plugin_deactivate sys (some name)
      = (if !(plugin_slot sys.plugins i).is_active then (1, sys)
         else (1, { sys with
                      plugins := sys.plugins.set i
                        { plugin_slot sys.plugins i with is_active := false }
                      active_count := sys.active_count - 1 })) := by
  simp only [plugin_deactivate, h]

/-! Section: plugin_load -/

theorem dispatch_without_capability (reg : PluginSystem) (type : PluginType)
    (input : Option CStr) (now : Int) (malloc_ok : Bool)
    (hl : loaded_by_plugin_load reg) (hnone : builtin_process type = none) :
    plugin_process_input reg input type now malloc_ok = none := by
  cases input with
  | none => rfl
  | some input =>
    simp only [plugin_process_input]
    cases hf : find_active reg type with
    | none => rfl
    | some i =>
      obtain ⟨_, h2, h3, _⟩ := find_range_spec _ _ _ _ hf
      simp only [Bool.and_eq_true, decide_eq_true_eq] at h3
      have := (hl i (by omega)).2
      rw [h3.1.1, hnone] at this
      rw [this] at h3
      simp at h3

/-- C11: on a registry with `count < 10`, `plugin_load` reports success and appends at
index old `count` a processor with the given type, `is_active = false`,
`priority = old count` and the capability fixed by its type: the built-in function for
Personality, Emotion, Creativity and Learning, none for Language and Analysis, so that
dispatch on these two types yields no output.  `count` and `total_loaded` grow by one,
`active_count` and the earlier processors are unchanged. -/
theorem C11_plugin_load_success (sys : PluginSystem) (name desc : CStr) (type : PluginType)
    (hv : registry_valid sys) (hroom : sys.count < 10) :
    (plugin_load sys (some name) (some desc) type).1 = 1 ∧
    registered (plugin_load sys (some name) (some desc) type).2
      = registered sys ++
          [{ name := name.take 63, description := desc.take 255, type := type,
             is_active := false, priority := sys.count, init := none,
             process := builtin_process type, cleanup := false, plugin_data := none }] ∧
    (plugin_load sys (some name) (some desc) type).2.count = sys.count + 1 ∧
    (plugin_load sys (some name) (some desc) type).2.total_loaded = sys.total_loaded + 1 ∧
    (plugin_load sys (some name) (some desc) type).2.active_count = sys.active_count ∧
    builtin_process PluginType.PLUGIN_PERSONALITY
      = some ProcessFunc.personality_plugin_process ∧
    builtin_process PluginType.PLUGIN_EMOTION = some ProcessFunc.emotion_plugin_process ∧
    builtin_process PluginType.PLUGIN_CREATIVITY
      = some ProcessFunc.creativity_plugin_process ∧
    builtin_process PluginType.PLUGIN_LEARNING = some ProcessFunc.learning_plugin_process ∧
    builtin_process PluginType.PLUGIN_LANGUAGE = none ∧
    builtin_process PluginType.PLUGIN_ANALYSIS = none ∧
    (∀ (reg : PluginSystem) (t : PluginType) (input : Option CStr) (now : Int)
        (malloc_ok : Bool), loaded_by_plugin_load reg →
        t = PluginType.PLUGIN_LANGUAGE ∨ t = PluginType.PLUGIN_ANALYSIS →
        plugin_process_input reg input t now malloc_ok = none) := by
  obtain ⟨hlen, _⟩ := hv
  have hnf : ¬ sys.count ≥ MAX_PLUGINS := by simp only [MAX_PLUGINS]; omega
  have hlt : sys.count < sys.plugins.length := by rw [hlen]; simp only [MAX_PLUGINS]; omega
  refine ⟨?_, ?_, ?_, ?_, ?_, rfl, rfl, rfl, rfl, rfl, rfl, ?_⟩
  · simp [plugin_load, hnf]
  · simp only [plugin_load, hnf, if_false, registered, strncpy_terminated, MAX_PLUGIN_NAME,
      MAX_PLUGIN_DESC]
    rw [take_set_succ _ _ _ hlt]
  · simp [plugin_load, hnf]
  · simp [plugin_load, hnf]
  · simp [plugin_load, hnf]
  · intro reg t input now malloc_ok hl ht
    apply dispatch_without_capability reg t input now malloc_ok hl
    rcases ht with h | h <;> rw [h] <;> rfl

/-- C11 (instance): loading a Language processor into the fresh registry. -/
theorem C11_plugin_load_success_witness :
    registry_valid fresh_registry ∧ fresh_registry.count < 10 ∧
    (plugin_load fresh_registry (some [76]) (some [100]) PluginType.PLUGIN_LANGUAGE).1 = 1 :=
  ⟨by decide, by decide,
   (C11_plugin_load_success fresh_registry [76] [100] PluginType.PLUGIN_LANGUAGE
      (by decide) (by decide)).1⟩

/-! Section: invariants of the reachable registries -/

theorem registry_valid_init (sys0 : PluginSystem) : registry_valid (plugin_system_init sys0).2 := by
  simp [registry_valid, plugin_system_init, MAX_PLUGINS]

theorem plugin_load_fails (sys : PluginSystem) (name desc : Option CStr) (type : PluginType)
    (h : (plugin_load sys name desc type).1 = 0) : (plugin_load sys name desc type).2 = sys := by
  cases name with
  | none => rfl
  | some name =>
    cases desc with
    | none => rfl
    | some desc =>
      by_cases hf : sys.count ≥ MAX_PLUGINS
      · simp [plugin_load, hf]
      · simp [plugin_load, hf] at h

/-- The state after a successful `plugin_load`, slot by slot. -/
theorem plugin_load_slots (sys : PluginSystem) (name desc : CStr) (type : PluginType)
    (hv : registry_valid sys) (hroom : sys.count < MAX_PLUGINS) :
    (plugin_load sys (some name) (some desc) type).2.count = sys.count + 1 ∧
    (plugin_load sys (some name) (some desc) type).2.plugins.length = sys.plugins.length ∧
    (∀ i, i < sys.count →
      plugin_slot (plugin_load sys (some name) (some desc) type).2.plugins i
        = plugin_slot sys.plugins i) ∧
    plugin_slot (plugin_load sys (some name) (some desc) type).2.plugins sys.count
      = { name := name.take 63, description := desc.take 255, type := type,
          is_active := false, priority := sys.count, init := none,
          process := builtin_process type, cleanup := false, plugin_data := none } := by
  have hnf : ¬ sys.count ≥ MAX_PLUGINS := by omega
  have hlt : sys.count < sys.plugins.length := by have := hv.1; omega
  refine ⟨by simp [plugin_load, hnf], by simp [plugin_load, hnf], ?_, ?_⟩
  · intro i hi
    simp only [plugin_load, hnf, if_false, plugin_slot_set]
    have : ¬ (sys.count = i ∧ sys.count < sys.plugins.length) := fun h => by omega
    rw [if_neg this]
  · simp only [plugin_load, hnf, if_false, plugin_slot_set]
    rw [if_pos ⟨trivial, hlt⟩]
    rfl

theorem slot_set_active (plugins : List Plugin) (i k : Nat) (b : Bool)
    (hil : i < plugins.length) :
    (plugin_slot (plugins.set i { plugin_slot plugins i with is_active := b }) k).name
      = (plugin_slot plugins k).name ∧
    (plugin_slot (plugins.set i { plugin_slot plugins i with is_active := b }) k).type
      = (plugin_slot plugins k).type ∧
    (plugin_slot (plugins.set i { plugin_slot plugins i with is_active := b }) k).init
      = (plugin_slot plugins k).init ∧
    (plugin_slot (plugins.set i { plugin_slot plugins i with is_active := b }) k).process
      = (plugin_slot plugins k).process ∧
    (plugin_slot (plugins.set i { plugin_slot plugins i with is_active := b }) k).is_active
      = (if i = k then b else (plugin_slot plugins k).is_active) := by
  rw [plugin_slot_set]
  by_cases hik : i = k
  · subst hik
    rw [if_pos ⟨rfl, hil⟩, if_pos rfl]
    exact ⟨rfl, rfl, rfl, rfl, rfl⟩
  · rw [if_neg (fun h => hik h.1), if_neg hik]
    exact ⟨rfl, rfl, rfl, rfl, rfl⟩

/-- Setting or clearing `is_active` in a registered slot keeps the invariant, provided a
slot that is made active is the first one with its name. -/
theorem registry_invariant_set_active (s : PluginSystem) (i : Nat) (b : Bool) (ac : Int)
    (hv : registry_valid s ∧ loaded_by_plugin_load s ∧ active_is_first s) (hi : i < s.count)
    (hfirst : b = true →
      ∀ j, j < i → (plugin_slot s.plugins j).name ≠ (plugin_slot s.plugins i).name) :
    registry_valid { s with plugins := s.plugins.set i
                              { plugin_slot s.plugins i with is_active := b }
                            active_count := ac } ∧
    loaded_by_plugin_load { s with plugins := s.plugins.set i
                                     { plugin_slot s.plugins i with is_active := b }
                                   active_count := ac } ∧
    active_is_first { s with plugins := s.plugins.set i
                               { plugin_slot s.plugins i with is_active := b }
                             active_count := ac } := by
  obtain ⟨hval, hld, haf⟩ := hv
  have hil : i < s.plugins.length := by have := hval.1; have := hval.2; omega
  refine ⟨⟨by simp only [List.length_set]; exact hval.1, hval.2⟩, ?_, ?_⟩
  · intro k hk
    obtain ⟨_, e2, e3, e4, _⟩ := slot_set_active s.plugins i k b hil
    simp only at hk ⊢
    rw [e2, e3, e4]
    exact hld k hk
  · intro k hk hka j hj
    obtain ⟨e1, _, _, _, e5⟩ := slot_set_active s.plugins i k b hil
    obtain ⟨d1, _, _, _, _⟩ := slot_set_active s.plugins i j b hil
    simp only at hk hka ⊢
    rw [e1, d1]
    rw [e5] at hka
    by_cases hik : i = k
    · subst hik
      rw [if_pos rfl] at hka
      exact hfirst hka j hj
    · rw [if_neg hik] at hka
      exact haf k hk hka j hj

/-- The invariant of the reachable registries. -/
theorem registry_invariant_step (s s1 : PluginSystem)
    (hv : registry_valid s ∧ loaded_by_plugin_load s ∧ active_is_first s)
    (h : PluginStep s s1) :
    registry_valid s1 ∧ loaded_by_plugin_load s1 ∧ active_is_first s1 := by
  have hv0 := hv
  obtain ⟨hval, hld, haf⟩ := hv
  cases h with
  | load name desc type =>
    cases hr : (plugin_load s name desc type).1 == 0 with
    | true =>
      rw [plugin_load_fails s name desc type (by simpa using hr)]
      exact ⟨hval, hld, haf⟩
    | false =>
      have hne : (plugin_load s name desc type).1 ≠ 0 := by simpa using hr
      cases name with
      | none => exact absurd rfl hne
      | some name =>
        cases desc with
        | none => exact absurd rfl hne
        | some desc =>
          have hroom : s.count < MAX_PLUGINS := by
            by_contra hf
            have hf2 : s.count ≥ MAX_PLUGINS := by omega
            exact hne (by simp [plugin_load, hf2])
          obtain ⟨c1, c2, c3, c4⟩ := plugin_load_slots s name desc type hval hroom
          refine ⟨⟨by rw [c2]; exact hval.1, by rw [c1]; omega⟩, ?_, ?_⟩
          · intro i hi
            rw [c1] at hi
            by_cases hic : i = s.count
            · subst hic; rw [c4]; exact ⟨rfl, rfl⟩
            · rw [c3 i (by omega)]; exact hld i (by omega)
          · intro i hi hact j hj
            rw [c1] at hi
            by_cases hic : i = s.count
            · subst hic; rw [c4] at hact; exact absurd hact (by simp)
            · rw [c3 i (by omega)] at hact ⊢
              rw [c3 j (by omega)]
              exact haf i (by omega) hact j hj
  | activate name =>
    cases name with
    | none => exact ⟨hval, hld, haf⟩
    | some name =>
      cases hf : plugin_find_by_name s (some name) with
      | none => simp only [plugin_activate, hf]; exact ⟨hval, hld, haf⟩
      | some i =>
        obtain ⟨f1, f2, f3⟩ := find_by_name_spec s name i hf
        rw [plugin_activate_found s name i hf]
        split
        · exact ⟨hval, hld, haf⟩
        · split
          · exact ⟨hval, hld, haf⟩
          · exact registry_invariant_set_active s i true _ hv0 f1
              (fun _ j hj => by rw [f2]; exact f3 j hj)
  | deactivate name =>
    cases name with
    | none => exact ⟨hval, hld, haf⟩
    | some name =>
      cases hf : plugin_find_by_name s (some name) with
      | none => simp only [plugin_deactivate, hf]; exact ⟨hval, hld, haf⟩
      | some i =>
        obtain ⟨f1, _, _⟩ := find_by_name_spec s name i hf
        rw [plugin_deactivate_found s name i hf]
        split
        · exact ⟨hval, hld, haf⟩
        · exact registry_invariant_set_active s i false _ hv0 f1
            (fun h => Bool.noConfusion h)

theorem registry_invariant (s : PluginSystem) (h : PluginReachable s) :
    registry_valid s ∧ loaded_by_plugin_load s ∧ active_is_first s := by
  induction h with
  | init sys0 =>
    refine ⟨registry_valid_init sys0, ?_, ?_⟩
    · intro i hi; simp [plugin_system_init] at hi
    · intro i hi; simp [plugin_system_init] at hi
  | step s s1 _ hstep ih => exact registry_invariant_step s s1 ih hstep

/-- C12: with non-null name and description, `plugin_load` reports failure exactly when
`count` is already the maximum 10, and then the registry is unchanged; consequently
`count <= 10` in every registry reachable from `plugin_system_init`. -/
theorem C12_plugin_load_failure (sys : PluginSystem) (name desc : CStr) (type : PluginType)
    (hle : sys.count ≤ 10) :
    ((plugin_load sys (some name) (some desc) type).1 = 0 ↔ sys.count = 10) ∧
    ((plugin_load sys (some name) (some desc) type).1 = 0 →
      (plugin_load sys (some name) (some desc) type).2 = sys) ∧
    (∀ s, PluginReachable s → s.count ≤ 10) := by
  refine ⟨?_, plugin_load_fails sys _ _ type, fun s hs => (registry_invariant s hs).1.2⟩
  by_cases hf : sys.count ≥ MAX_PLUGINS
  · have h10 : sys.count = 10 := by simp only [MAX_PLUGINS] at hf; omega
    simp only [plugin_load, hf, if_true]
    exact ⟨fun _ => h10, fun _ => trivial⟩
  · have h10 : sys.count ≠ 10 := by simp only [MAX_PLUGINS] at hf; omega
    simp only [plugin_load, hf, if_false]
    exact ⟨fun h => absurd h (by decide), fun h => absurd h h10⟩

/-- C12 (instance): the eleventh load into a full registry fails. -/
theorem C12_plugin_load_failure_witness :
    full_registry.count ≤ 10 ∧
    plugin_load full_registry (some [76]) (some [100]) PluginType.PLUGIN_EMOTION
      = (0, full_registry) := by
  have h := C12_plugin_load_failure full_registry [76] [100] PluginType.PLUGIN_EMOTION
    (by decide)
  exact ⟨by decide, Prod.ext (h.1.2 (by decide)) (h.2.1 (h.1.2 (by decide)))⟩

/-! Section: plugin_activate / plugin_deactivate -/

theorem find_by_name_congr (s s1 : PluginSystem) (name : Option CStr)
    (hc : s1.count = s.count)
    (hn : ∀ k, (plugin_slot s1.plugins k).name = (plugin_slot s.plugins k).name) :
    plugin_find_by_name s1 name = plugin_find_by_name s name := by
  cases name with
  | none => rfl
  | some name => simp only [plugin_find_by_name, hc, hn]

theorem plugin_activate_fails (sys : PluginSystem) (name : Option CStr)
    (h : (plugin_activate sys name).1 = 0) : (plugin_activate sys name).2 = sys := by
  cases name with
  | none => rfl
  | some name =>
    cases hf : plugin_find_by_name sys (some name) with
    | none => simp only [plugin_activate, hf]
    | some i =>
      rw [plugin_activate_found sys name i hf] at h ⊢
      split at h
      · simp at h
      · split at h
        · rename_i h1 h2
          rw [if_neg h1, if_pos h2]
        · simp at h

theorem plugin_deactivate_fails (sys : PluginSystem) (name : Option CStr)
    (h : (plugin_deactivate sys name).1 = 0) : (plugin_deactivate sys name).2 = sys := by
  cases name with
  | none => rfl
  | some name =>
    cases hf : plugin_find_by_name sys (some name) with
    | none => simp only [plugin_deactivate, hf]
    | some i =>
      rw [plugin_deactivate_found sys name i hf] at h
      split at h <;> simp at h

/-- C13: `plugin_activate` and `plugin_deactivate` report failure, leaving the registry
unchanged, exactly when no registered processor's stored name equals the argument;
activating a processor that is already active reports success and leaves the whole
registry unchanged, so that a second `plugin_activate` changes nothing. -/
theorem C13_activate_deactivate (sys : PluginSystem) (name : CStr)
    (hv : registry_valid sys) (hl : loaded_by_plugin_load sys) :
    ((plugin_activate sys (some name)).1 = 0
      ↔ ∀ i, i < sys.count → (plugin_slot sys.plugins i).name ≠ name) ∧
    ((plugin_activate sys (some name)).1 = 0 → (plugin_activate sys (some name)).2 = sys) ∧
    ((plugin_deactivate sys (some name)).1 = 0
      ↔ ∀ i, i < sys.count → (plugin_slot sys.plugins i).name ≠ name) ∧
    ((plugin_deactivate sys (some name)).1 = 0 →
      (plugin_deactivate sys (some name)).2 = sys) ∧
    (∀ i, i < sys.count → (plugin_slot sys.plugins i).name = name →
      (∀ j, j < i → (plugin_slot sys.plugins j).name ≠ name) →
      (plugin_slot sys.plugins i).is_active = true →
      plugin_activate sys (some name) = (1, sys)) ∧
    plugin_activate (plugin_activate sys (some name)).2 (some name)
      = ((plugin_activate sys (some name)).1, (plugin_activate sys (some name)).2) := by
  refine ⟨?_, plugin_activate_fails sys _, ?_, plugin_deactivate_fails sys _, ?_, ?_⟩
  · cases hf : plugin_find_by_name sys (some name) with
    | none =>
      simp only [plugin_activate, hf, true_iff]
      exact find_by_name_eq_none sys name hf
    | some i =>
      obtain ⟨f1, f2, _⟩ := find_by_name_spec sys name i hf
      rw [plugin_activate_found sys name i hf, (hl i f1).1]
      constructor
      · intro h
        split at h <;> simp at h
      · intro h
        exact absurd f2 (h i f1)
  · cases hf : plugin_find_by_name sys (some name) with
    | none =>
      simp only [plugin_deactivate, hf, true_iff]
      exact find_by_name_eq_none sys name hf
    | some i =>
      obtain ⟨f1, f2, _⟩ := find_by_name_spec sys name i hf
      rw [plugin_deactivate_found sys name i hf]
      constructor
      · intro h
        split at h <;> simp at h
      · intro h
        exact absurd f2 (h i f1)
  · intro i hi hn hmin hact
    rw [plugin_activate_found sys name i (find_by_name_some sys name i hi hn hmin), if_pos hact]
  · cases hf : plugin_find_by_name sys (some name) with
    | none => simp only [plugin_activate, hf]
    | some i =>
      obtain ⟨f1, _, _⟩ := find_by_name_spec sys name i hf
      have hil : i < sys.plugins.length := by have := hv.1; have := hv.2; omega
      rw [plugin_activate_found sys name i hf, (hl i f1).1]
      by_cases hact : (plugin_slot sys.plugins i).is_active = true
      · rw [if_pos hact, plugin_activate_found sys name i hf, if_pos hact]
      · rw [if_neg hact, if_neg (by simp)]
        have hf1 : plugin_find_by_name
            { sys with plugins := sys.plugins.set i
                         { plugin_slot sys.plugins i with is_active := true }
                       active_count := sys.active_count + 1 } (some name) = some i := by
          exact (find_by_name_congr sys
            { sys with plugins := sys.plugins.set i
                         { plugin_slot sys.plugins i with is_active := true }
                       active_count := sys.active_count + 1 } (some name) rfl
            (fun k => (slot_set_active sys.plugins i k true hil).1)).trans hf
        rw [plugin_activate_found _ name i hf1,
          if_pos (by simpa using (slot_set_active sys.plugins i i true hil).2.2.2.2)]

/-- C13 (instance): an unknown name fails, and activating twice equals activating once. -/
theorem C13_activate_deactivate_witness :
    registry_valid duplicate_registry ∧ loaded_by_plugin_load duplicate_registry ∧
    plugin_activate duplicate_registry (some [89]) = (0, duplicate_registry) ∧
    plugin_activate (plugin_activate duplicate_registry (some [88])).2 (some [88])
      = ((plugin_activate duplicate_registry (some [88])).1,
         (plugin_activate duplicate_registry (some [88])).2) :=
  ⟨by decide, by decide, by decide,
   (C13_activate_deactivate duplicate_registry [88] (by decide) (by decide)).2.2.2.2.2⟩

/-! Section: plugin_process_input -/

theorem find_active_some (sys : PluginSystem) (type : PluginType) (i : Nat) (f : ProcessFunc)
    (hi : i < sys.count) (ht : (plugin_slot sys.plugins i).type = type)
    (ha : (plugin_slot sys.plugins i).is_active = true)
    (hp : (plugin_slot sys.plugins i).process = some f)
    (hmin : ∀ j, j < i → ¬ ((plugin_slot sys.plugins j).type = type
      ∧ (plugin_slot sys.plugins j).is_active = true)) :
    find_active sys type = some i := by
  unfold find_active
  apply find_range_some _ _ _ _ (Nat.zero_le _) (by omega)
  · simp [ht, ha, hp]
  · intro j _ hj
    have := hmin j hj
    simp only [Bool.and_eq_false_iff, decide_eq_false_iff_not]
    by_cases h1 : (plugin_slot sys.plugins j).type = type
    · exact Or.inl (Or.inr (by simpa using fun h => this ⟨h1, h⟩))
    · exact Or.inl (Or.inl h1)

theorem dispatch_no_active (sys : PluginSystem) (type : PluginType) (input : Option CStr)
    (now : Int) (malloc_ok : Bool)
    (h : ∀ i, i < sys.count → ¬ ((plugin_slot sys.plugins i).type = type
      ∧ (plugin_slot sys.plugins i).is_active = true)) :
    plugin_process_input sys input type now malloc_ok = none := by
  cases input with
  | none => rfl
  | some input =>
    simp only [plugin_process_input]
    cases hf : find_active sys type with
    | none => rfl
    | some i =>
      obtain ⟨_, h2, h3, _⟩ := find_range_spec _ _ _ _ hf
      simp only [Bool.and_eq_true, decide_eq_true_eq] at h3
      exact absurd ⟨h3.1.1, h3.1.2⟩ (h i (by omega))

/-- C14: `plugin_process_input` returns the output of the capability of the processor at
the smallest index that has the requested type and is active, and none when no
processor of that type is active; nothing registered after that first match matters, so
with two active Emotion processors registered in the order P1, P2 the result is P1's
output for every input. -/
theorem C14_dispatch_first_active (sys : PluginSystem) (input : CStr) (type : PluginType)
    (now : Int) (malloc_ok : Bool) :
    (∀ i f, i < sys.count → (plugin_slot sys.plugins i).type = type →
      (plugin_slot sys.plugins i).is_active = true →
      (∀ j, j < i → ¬ ((plugin_slot sys.plugins j).type = type
        ∧ (plugin_slot sys.plugins j).is_active = true)) →
      (plugin_slot sys.plugins i).process = some f →
      plugin_process_input sys (some input) type now malloc_ok
        = call_process f (some input) now malloc_ok) ∧
    (loaded_by_plugin_load sys →
      ∀ i, i < sys.count → (plugin_slot sys.plugins i).type = type →
      (plugin_slot sys.plugins i).is_active = true →
      (∀ j, j < i → ¬ ((plugin_slot sys.plugins j).type = type
        ∧ (plugin_slot sys.plugins j).is_active = true)) →
      plugin_process_input sys (some input) type now malloc_ok
        = (match (plugin_slot sys.plugins i).process with
           | some f => call_process f (some input) now malloc_ok
           | none => none)) ∧
    ((∀ i, i < sys.count → ¬ ((plugin_slot sys.plugins i).type = type
        ∧ (plugin_slot sys.plugins i).is_active = true)) →
      plugin_process_input sys (some input) type now malloc_ok = none) ∧
    (∀ p1 p2 f1 f2, p1 < p2 → p2 < sys.count →
      (plugin_slot sys.plugins p1).type = PluginType.PLUGIN_EMOTION →
      (plugin_slot sys.plugins p2).type = PluginType.PLUGIN_EMOTION →
      (plugin_slot sys.plugins p1).is_active = true →
      (plugin_slot sys.plugins p2).is_active = true →
      (plugin_slot sys.plugins p1).process = some f1 →
      (plugin_slot sys.plugins p2).process = some f2 →
      (∀ j, j < p1 → ¬ ((plugin_slot sys.plugins j).type = PluginType.PLUGIN_EMOTION
        ∧ (plugin_slot sys.plugins j).is_active = true)) →
      plugin_process_input sys (some input) PluginType.PLUGIN_EMOTION now malloc_ok
        = call_process f1 (some input) now malloc_ok) := by
  have key : ∀ (t : PluginType) i f, i < sys.count → (plugin_slot sys.plugins i).type = t →
      (plugin_slot sys.plugins i).is_active = true →
      (∀ j, j < i → ¬ ((plugin_slot sys.plugins j).type = t
        ∧ (plugin_slot sys.plugins j).is_active = true)) →
      (plugin_slot sys.plugins i).process = some f →
      plugin_process_input sys (some input) t now malloc_ok
        = call_process f (some input) now malloc_ok := by
    intro t i f hi ht ha hmin hp
    simp only [plugin_process_input, find_active_some sys t i f hi ht ha hp hmin, hp]
  refine ⟨key type, ?_, dispatch_no_active sys type (some input) now malloc_ok, ?_⟩
  · intro hl i hi ht ha hmin
    cases hp : (plugin_slot sys.plugins i).process with
    | some f => exact key type i f hi ht ha hmin hp
    | none =>
      apply dispatch_without_capability sys type (some input) now malloc_ok hl
      rw [← ht, ← (hl i hi).2, hp]
  · intro p1 p2 f1 _ h12 h2 t1 _ a1 _ hp1 _ hmin
    exact key PluginType.PLUGIN_EMOTION p1 f1 (by omega) t1 a1 hmin hp1

/-- C14 (instance): two active Emotion processors; the first one answers. -/
theorem C14_dispatch_first_active_witness :
    plugin_process_input two_emotions (some [115, 97, 100]) PluginType.PLUGIN_EMOTION 0 true
      = call_process ProcessFunc.emotion_plugin_process (some [115, 97, 100]) 0 true :=
  (C14_dispatch_first_active two_emotions [115, 97, 100] PluginType.PLUGIN_EMOTION 0 true).2.2.2
    0 1 ProcessFunc.emotion_plugin_process ProcessFunc.learning_plugin_process
    (by decide) (by decide) (by decide) (by decide) (by decide) (by decide) (by decide)
    (by decide) (fun j hj => absurd hj (Nat.not_lt_zero j))

/-- C15: in a reachable registry in which exactly one processor of type `T` is active,
after `plugin_deactivate` on that processor's stored name, `plugin_process_input` for
type `T` returns none for every input. -/
theorem C15_deactivated_not_dispatched (sys : PluginSystem) (type : PluginType) (i : Nat)
    (hr : PluginReachable sys) (hi : i < sys.count)
    (_ht : (plugin_slot sys.plugins i).type = type)
    (ha : (plugin_slot sys.plugins i).is_active = true)
    (honly : ∀ j, j < sys.count → (plugin_slot sys.plugins j).type = type →
      (plugin_slot sys.plugins j).is_active = true → j = i) :
    ∀ (input : Option CStr) (now : Int) (malloc_ok : Bool),
      plugin_process_input
        (plugin_deactivate sys (some (plugin_slot sys.plugins i).name)).2 input type now
        malloc_ok = none := by
  intro input now malloc_ok
  obtain ⟨hval, _, haf⟩ := registry_invariant sys hr
  have hil : i < sys.plugins.length := by have := hval.1; have := hval.2; omega
  have hf := find_by_name_some sys (plugin_slot sys.plugins i).name i hi rfl (haf i hi ha)
  rw [plugin_deactivate_found sys _ i hf]
  have hna : (!(plugin_slot sys.plugins i).is_active) = false := by simp [ha]
  rw [hna]
  simp only [Bool.false_eq_true, if_false]
  apply dispatch_no_active
  intro k hk hka
  obtain ⟨_, e2, _, _, e5⟩ := slot_set_active sys.plugins i k false hil
  simp only at hk hka
  rw [e2, e5] at hka
  by_cases hik : i = k
  · rw [if_pos hik] at hka
    exact Bool.noConfusion hka.2
  · rw [if_neg hik] at hka
    exact hik (honly k hk hka.1 hka.2).symm

/-- C15 (instance): the default Emotion processor, loaded, activated, then deactivated. -/
theorem C15_deactivated_not_dispatched_witness :
    PluginReachable one_emotion ∧
    plugin_process_input (plugin_deactivate one_emotion (some [69])).2 (some [115, 97, 100])
      PluginType.PLUGIN_EMOTION 0 true = none :=
  ⟨PluginReachable.step _ _
      (PluginReachable.step _ _ (PluginReachable.init _) (PluginStep.load _ _ _ _))
      (PluginStep.activate _ _),
   C15_deactivated_not_dispatched one_emotion PluginType.PLUGIN_EMOTION 0
      (PluginReachable.step _ _
        (PluginReachable.step _ _ (PluginReachable.init _) (PluginStep.load _ _ _ _))
        (PluginStep.activate _ _))
      (by decide) (by decide) (by decide) (by decide) (some [115, 97, 100]) 0 true⟩

/-! Section: truncation, capacity and counters of the record store -/

theorem slot_realloc (block : List Memory) (n i : Nat) (hi : i < block.length)
    (hn : block.length ≤ n) : slot (realloc block n) i = slot block i := by
  rw [slot_def, slot_def, realloc, List.take_of_length_le hn, List.getElem?_append_left hi]

/-- The state after a successful `memory_save`, slot by slot. -/
theorem memory_save_slots (sys : MemorySystem) (text tag : CStr) (type : MemoryType)
    (importance now : Int) (realloc_ok : Bool)
    (hv : valid sys) (hroom : sys.count < sys.capacity ∨ realloc_ok = true) :
    (memory_save sys (some text) (some tag) type importance now realloc_ok).1 = 1 ∧
    (memory_save sys (some text) (some tag) type importance now realloc_ok).2.count
      = sys.count + 1 ∧
    slot (memory_save sys (some text) (some tag) type importance now realloc_ok).2.memories
        sys.count
      = { text := text.take 511, tag := tag.take 63, type := type, timestamp := now,
          importance_score := importance, access_count := 0 } ∧
    (∀ i, i < sys.count →
      slot (memory_save sys (some text) (some tag) type importance now realloc_ok).2.memories i
        = slot sys.memories i) := by
  obtain ⟨hlen, hle, hpos⟩ := hv
  by_cases hfull : sys.count ≥ sys.capacity
  · have hok : realloc_ok = true := by
      rcases hroom with h | h
      · omega
      · exact h
    have hlt : sys.count < (realloc sys.memories (sys.capacity * 2)).length := by
      rw [length_realloc]; omega
    simp only [memory_save, memory_resize, hfull, hok, if_true, Bool.not_true,
      Bool.false_eq_true, if_false, one_ne_zero, slot_set, strncpy_terminated,
      MAX_MEMORY_TEXT, MAX_MEMORY_TAG]
    refine ⟨trivial, trivial, by rw [if_pos ⟨trivial, hlt⟩], fun i hi => ?_⟩
    have hne : ¬ (sys.count = i ∧ sys.count < (realloc sys.memories (sys.capacity * 2)).length) :=
      fun h => by omega
    rw [if_neg hne]
    exact slot_realloc _ _ _ (by omega) (by omega)
  · have hlt : sys.count < sys.memories.length := by omega
    simp only [memory_save, hfull, if_false, one_ne_zero, slot_set, strncpy_terminated,
      MAX_MEMORY_TEXT, MAX_MEMORY_TAG]
    refine ⟨trivial, trivial, by rw [if_pos ⟨trivial, hlt⟩], fun i hi => ?_⟩
    have hne : ¬ (sys.count = i ∧ sys.count < sys.memories.length) := fun h => by omega
    rw [if_neg hne]

/-- C16: the text stored by `memory_save` is the first `min(len, 511)` bytes of the input
and the stored tag the first `min(len, 63)` bytes, and the call succeeds whatever the
lengths; truncating again changes nothing, and saving the same text twice stores the same
text twice. -/
theorem C16_truncation (sys : MemorySystem) (text tag : CStr) (type : MemoryType)
    (importance now : Int) (realloc_ok : Bool)
    (hv : valid sys) (hroom : sys.count < sys.capacity ∨ realloc_ok = true) :
    (memory_save sys (some text) (some tag) type importance now realloc_ok).1 = 1 ∧
    (slot (memory_save sys (some text) (some tag) type importance now realloc_ok).2.memories
        sys.count).text = text.take (min text.length 511) ∧
    (slot (memory_save sys (some text) (some tag) type importance now realloc_ok).2.memories
        sys.count).tag = tag.take (min tag.length 63) ∧
    ((slot (memory_save sys (some text) (some tag) type importance now realloc_ok).2.memories
        sys.count).text).length = min text.length 511 ∧
    ((slot (memory_save sys (some text) (some tag) type importance now realloc_ok).2.memories
        sys.count).tag).length = min tag.length 63 ∧
    strncpy_terminated (strncpy_terminated text (MAX_MEMORY_TEXT - 1)) (MAX_MEMORY_TEXT - 1)
      = strncpy_terminated text (MAX_MEMORY_TEXT - 1) ∧
    (∀ (tag2 : CStr) (type2 : MemoryType) (importance2 now2 : Int) (realloc_ok2 : Bool),
      (memory_save (memory_save sys (some text) (some tag) type importance now realloc_ok).2
        (some text) (some tag2) type2 importance2 now2 realloc_ok2).1 = 1 →
      (slot (memory_save
          (memory_save sys (some text) (some tag) type importance now realloc_ok).2
          (some text) (some tag2) type2 importance2 now2 realloc_ok2).2.memories
        (sys.count + 1)).text
      = (slot (memory_save
          (memory_save sys (some text) (some tag) type importance now realloc_ok).2
          (some text) (some tag2) type2 importance2 now2 realloc_ok2).2.memories
        sys.count).text) := by
  obtain ⟨s1, s2, s3, _⟩ := memory_save_slots sys text tag type importance now realloc_ok hv hroom
  have hv1 := valid_save sys (some text) (some tag) type importance now realloc_ok hv
  have htake : ∀ (l : CStr) (n : Nat), l.take (min l.length n) = l.take n := by
    intro l n
    by_cases h : l.length ≤ n
    · rw [Nat.min_eq_left h, List.take_of_length_le (Nat.le_refl _), List.take_of_length_le h]
    · rw [Nat.min_eq_right (by omega)]
  refine ⟨s1, ?_, ?_, ?_, ?_, ?_, ?_⟩
  · rw [s3, htake]
  · rw [s3, htake]
  · rw [s3]; simp only [List.length_take]; omega
  · rw [s3]; simp only [List.length_take]; omega
  · simp [strncpy_terminated, List.take_take]
  · intro tag2 type2 importance2 now2 realloc_ok2 hok
    generalize memory_save sys (some text) (some tag) type importance now realloc_ok = r1
      at s1 s2 s3 hv1 hok ⊢
    have hroom2 : r1.2.count < r1.2.capacity ∨ realloc_ok2 = true := by
      by_cases hfull : r1.2.count ≥ r1.2.capacity
      · cases realloc_ok2
        · simp [memory_save, memory_resize, hfull] at hok
        · exact Or.inr rfl
      · exact Or.inl (by omega)
    obtain ⟨_, _, t3, t4⟩ :=
      memory_save_slots r1.2 text tag2 type2 importance2 now2 realloc_ok2 hv1 hroom2
    rw [s2] at t3 t4
    rw [t3, t4 sys.count (by omega), s3]

/-- C16 (instance): a 600-byte text is stored as its first 511 bytes. -/
theorem C16_truncation_witness :
    valid fresh_store ∧
    ((slot (memory_save fresh_store (some (List.replicate 600 120)) (some [97])
        MemoryType.MEMORY_PATTERN 3 1000 false).2.memories 0).text).length = 511 :=
  ⟨by decide,
   (C16_truncation fresh_store (List.replicate 600 120) [97] MemoryType.MEMORY_PATTERN 3 1000
      false (by decide) (Or.inl (by decide))).2.2.2.1.trans
      (by rw [List.length_replicate]; rfl)⟩

theorem cleanup_loop_fields (now age : Int) (fuel : Nat) :
    ∀ st st1, memory_cleanup_old_loop now age fuel st = some st1 →
      st1.sys.capacity = st.sys.capacity ∧ st1.sys.total_saved = st.sys.total_saved ∧
      st1.sys.total_recalled = st.sys.total_recalled := by
  induction fuel with
  | zero =>
    intro st st1 h
    by_cases hic : st.i < st.sys.count
    · simp [memory_cleanup_old_loop, hic] at h
    · simp only [memory_cleanup_old_loop, hic, if_false, Option.some.injEq] at h
      subst h; exact ⟨rfl, rfl, rfl⟩
  | succ fuel ih =>
    intro st st1 h
    rw [memory_cleanup_old_loop] at h
    by_cases hic : st.i < st.sys.count
    · by_cases hexp : now - (slot st.sys.memories st.i).timestamp > age
      · simp only [hic, hexp, if_true] at h
        have h1 := ih _ _ h
        exact h1
      · simp only [hic, hexp, if_true, if_false] at h
        have h1 := ih _ _ h
        exact h1
    · simp only [hic, if_false, Option.some.injEq] at h
      subst h; exact ⟨rfl, rfl, rfl⟩

theorem cleanup_old_fields (fuel : Nat) (sys s1 : MemorySystem) (now age : Int)
    (h : memory_cleanup_old fuel sys now age = some ((), s1)) :
    s1.capacity = sys.capacity ∧ s1.total_saved = sys.total_saved ∧
    s1.total_recalled = sys.total_recalled := by
  unfold memory_cleanup_old at h
  cases hl : memory_cleanup_old_loop now age fuel { sys := sys, i := 0, deleted_count := 0 } with
  | none => simp [hl] at h
  | some st =>
    simp only [hl, Option.map_some', Option.some.injEq, Prod.mk.injEq, true_and] at h
    subst h
    exact cleanup_loop_fields now age fuel _ _ hl

theorem recall_by_tag_fields (sys : MemorySystem) (tag : Option CStr) :
    (memory_recall_by_tag sys tag).2.capacity = sys.capacity ∧
    (memory_recall_by_tag sys tag).2.total_saved = sys.total_saved ∧
    sys.total_recalled ≤ (memory_recall_by_tag sys tag).2.total_recalled := by
  cases tag with
  | none => exact ⟨rfl, rfl, le_refl _⟩
  | some tag =>
    simp only [memory_recall_by_tag]
    cases find_tag sys tag with
    | none => exact ⟨rfl, rfl, le_refl _⟩
    | some i => exact ⟨rfl, rfl, by simp⟩

theorem recall_by_type_fields (sys : MemorySystem) (type : MemoryType) :
    (memory_recall_by_type sys type).2.capacity = sys.capacity ∧
    (memory_recall_by_type sys type).2.total_saved = sys.total_saved ∧
    sys.total_recalled ≤ (memory_recall_by_type sys type).2.total_recalled := by
  simp only [memory_recall_by_type]
  cases ((List.range' 0 sys.count).foldl (recall_by_type_step sys.memories type) (none, 0)).1 with
  | none => exact ⟨rfl, rfl, le_refl _⟩
  | some i => exact ⟨rfl, rfl, by simp⟩

theorem recall_recent_fields (sys : MemorySystem) (n : Int) :
    (memory_recall_recent sys n).2.capacity = sys.capacity ∧
    (memory_recall_recent sys n).2.total_saved = sys.total_saved ∧
    sys.total_recalled ≤ (memory_recall_recent sys n).2.total_recalled := by
  unfold memory_recall_recent
  by_cases hn : n ≤ 0
  · simp [hn]
  · simp only [hn, if_false]
    refine ⟨trivial, trivial, ?_⟩
    simp only [le_add_iff_nonneg_right]
    exact Int.ofNat_nonneg _

theorem delete_by_tag_fields (sys : MemorySystem) (tag : Option CStr) :
    (memory_delete_by_tag sys tag).2.capacity = sys.capacity ∧
    (memory_delete_by_tag sys tag).2.total_saved = sys.total_saved ∧
    (memory_delete_by_tag sys tag).2.total_recalled = sys.total_recalled := by
  cases tag with
  | none => exact ⟨rfl, rfl, rfl⟩
  | some tag =>
    simp only [memory_delete_by_tag]
    cases find_tag sys tag with
    | none => exact ⟨rfl, rfl, rfl⟩
    | some i => exact ⟨rfl, rfl, rfl⟩

theorem save_fields (sys : MemorySystem) (text tag : Option CStr) (type : MemoryType)
    (importance now : Int) (realloc_ok : Bool) :
    ((memory_save sys text tag type importance now realloc_ok).1 = 0 ∨
      (memory_save sys text tag type importance now realloc_ok).1 = 1) ∧
    ((memory_save sys text tag type importance now realloc_ok).1 = 0 →
      (memory_save sys text tag type importance now realloc_ok).2 = sys) ∧
    ((memory_save sys text tag type importance now realloc_ok).1 = 1 →
      (memory_save sys text tag type importance now realloc_ok).2.capacity
        = (if sys.count ≥ sys.capacity then sys.capacity * 2 else sys.capacity) ∧
      (memory_save sys text tag type importance now realloc_ok).2.total_saved
        = sys.total_saved + 1) ∧
    (memory_save sys text tag type importance now realloc_ok).2.total_recalled
      = sys.total_recalled := by
  cases text with
  | none => simp [memory_save]
  | some text =>
    cases tag with
    | none => simp [memory_save]
    | some tag =>
      by_cases hfull : sys.count ≥ sys.capacity
      · cases realloc_ok <;> simp [memory_save, memory_resize, hfull]
      · simp [memory_save, hfull]

/-- C17: a successful `memory_save` leaves `capacity` exactly doubled when
`count == capacity` held before the call and unchanged otherwise; the recall
operations, `memory_delete_by_tag` and `memory_cleanup_old` never change `capacity`; so
no operation shrinks it. -/
theorem C17_capacity (sys : MemorySystem) (hle : sys.count ≤ sys.capacity) :
    (∀ (text tag : Option CStr) (type : MemoryType) (importance now : Int) (realloc_ok : Bool),
      (memory_save sys text tag type importance now realloc_ok).1 = 1 →
      (memory_save sys text tag type importance now realloc_ok).2.capacity
        = (if sys.count = sys.capacity then 2 * sys.capacity else sys.capacity)) ∧
    (∀ tag, (memory_recall_by_tag sys tag).2.capacity = sys.capacity) ∧
    (∀ type, (memory_recall_by_type sys type).2.capacity = sys.capacity) ∧
    (∀ n, (memory_recall_recent sys n).2.capacity = sys.capacity) ∧
    (∀ tag, (memory_delete_by_tag sys tag).2.capacity = sys.capacity) ∧
    (∀ fuel now max_age s1, memory_cleanup_old fuel sys now max_age = some ((), s1) →
      s1.capacity = sys.capacity) ∧
    (∀ s1, MemoryStep sys s1 → sys.capacity ≤ s1.capacity) := by
  refine ⟨?_, fun tag => (recall_by_tag_fields sys tag).1,
    fun type => (recall_by_type_fields sys type).1,
    fun n => (recall_recent_fields sys n).1, fun tag => (delete_by_tag_fields sys tag).1,
    fun fuel now age s1 h => (cleanup_old_fields fuel sys s1 now age h).1, ?_⟩
  · intro text tag type importance now realloc_ok hok
    rw [((save_fields sys text tag type importance now realloc_ok).2.2.1 hok).1]
    by_cases hfull : sys.count ≥ sys.capacity
    · have : sys.count = sys.capacity := by omega
      rw [if_pos hfull, if_pos this]; omega
    · have : sys.count ≠ sys.capacity := by omega
      rw [if_neg hfull, if_neg this]
  · intro s1 hstep
    cases hstep with
    | save text tag type importance now realloc_ok =>
      obtain ⟨h01, h0, h1, _⟩ := save_fields sys text tag type importance now realloc_ok
      rcases h01 with h | h
      · rw [h0 h]
      · rw [(h1 h).1]
        split <;> omega
    | recall_by_tag tag => rw [(recall_by_tag_fields sys tag).1]
    | recall_by_type type => rw [(recall_by_type_fields sys type).1]
    | recall_recent n => rw [(recall_recent_fields sys n).1]
    | delete_by_tag tag => rw [(delete_by_tag_fields sys tag).1]
    | cleanup_old _ fuel now age h => rw [(cleanup_old_fields fuel sys s1 now age h).1]

/-- C17 (instance): saving into a full store of capacity 2 leaves capacity 4. -/
theorem C17_capacity_witness :
    full_store.count ≤ full_store.capacity ∧
    (memory_save full_store (some [104, 105]) (some [97]) MemoryType.MEMORY_PATTERN 3 1000
      true).2.capacity = 4 :=
  ⟨by decide,
   (C17_capacity full_store (by decide)).1 (some [104, 105]) (some [97])
      MemoryType.MEMORY_PATTERN 3 1000 true (by decide)⟩

/-- C18: across every single store operation `total_saved` and `total_recalled` never
decrease; `total_saved` changes only on a successful save (by one), and
`memory_delete_by_tag` and `memory_cleanup_old` leave both counters unchanged. -/
theorem C18_counters (sys : MemorySystem) :
    (∀ (text tag : Option CStr) (type : MemoryType) (importance now : Int) (realloc_ok : Bool),
      (memory_save sys text tag type importance now realloc_ok).2.total_saved
        = (if (memory_save sys text tag type importance now realloc_ok).1 = 1
           then sys.total_saved + 1 else sys.total_saved) ∧
      (memory_save sys text tag type importance now realloc_ok).2.total_recalled
        = sys.total_recalled) ∧
    (∀ tag, (memory_recall_by_tag sys tag).2.total_saved = sys.total_saved ∧
      sys.total_recalled ≤ (memory_recall_by_tag sys tag).2.total_recalled) ∧
    (∀ type, (memory_recall_by_type sys type).2.total_saved = sys.total_saved ∧
      sys.total_recalled ≤ (memory_recall_by_type sys type).2.total_recalled) ∧
    (∀ n, (memory_recall_recent sys n).2.total_saved = sys.total_saved ∧
      sys.total_recalled ≤ (memory_recall_recent sys n).2.total_recalled) ∧
    (∀ tag, (memory_delete_by_tag sys tag).2.total_saved = sys.total_saved ∧
      (memory_delete_by_tag sys tag).2.total_recalled = sys.total_recalled) ∧
    (∀ fuel now max_age s1, memory_cleanup_old fuel sys now max_age = some ((), s1) →
      s1.total_saved = sys.total_saved ∧ s1.total_recalled = sys.total_recalled) ∧
    (∀ s1, MemoryStep sys s1 →
      sys.total_saved ≤ s1.total_saved ∧ sys.total_recalled ≤ s1.total_recalled) := by
  have hsave : ∀ (text tag : Option CStr) (type : MemoryType) (importance now : Int)
      (realloc_ok : Bool),
      (memory_save sys text tag type importance now realloc_ok).2.total_saved
        = (if (memory_save sys text tag type importance now realloc_ok).1 = 1
           then sys.total_saved + 1 else sys.total_saved) ∧
      (memory_save sys text tag type importance now realloc_ok).2.total_recalled
        = sys.total_recalled := by
    intro text tag type importance now realloc_ok
    obtain ⟨h01, h0, h1, h2⟩ := save_fields sys text tag type importance now realloc_ok
    refine ⟨?_, h2⟩
    rcases h01 with h | h
    · rw [h0 h, if_neg (by rw [h]; decide)]
    · rw [(h1 h).2, if_pos h]
  refine ⟨hsave, fun tag => (recall_by_tag_fields sys tag).2,
    fun type => (recall_by_type_fields sys type).2,
    fun n => (recall_recent_fields sys n).2, fun tag => (delete_by_tag_fields sys tag).2,
    fun fuel now age s1 h => (cleanup_old_fields fuel sys s1 now age h).2, ?_⟩
  intro s1 hstep
  cases hstep with
  | save text tag type importance now realloc_ok =>
    obtain ⟨h1, h2⟩ := hsave text tag type importance now realloc_ok
    rw [h1, h2]
    refine ⟨?_, le_refl _⟩
    split <;> omega
  | recall_by_tag tag =>
    exact ⟨le_of_eq (recall_by_tag_fields sys tag).2.1.symm, (recall_by_tag_fields sys tag).2.2⟩
  | recall_by_type type =>
    exact ⟨le_of_eq (recall_by_type_fields sys type).2.1.symm,
      (recall_by_type_fields sys type).2.2⟩
  | recall_recent n =>
    exact ⟨le_of_eq (recall_recent_fields sys n).2.1.symm, (recall_recent_fields sys n).2.2⟩
  | delete_by_tag tag =>
    exact ⟨le_of_eq (delete_by_tag_fields sys tag).2.1.symm,
      le_of_eq (delete_by_tag_fields sys tag).2.2.symm⟩
  | cleanup_old _ fuel now age h =>
    exact ⟨le_of_eq (cleanup_old_fields fuel sys s1 now age h).2.1.symm,
      le_of_eq (cleanup_old_fields fuel sys s1 now age h).2.2.symm⟩

/-- C18 (instance): a cleanup that removes both records leaves the counters alone. -/
theorem C18_counters_witness :
    memory_cleanup_old 2 full_store 100 10
      = some ((), { full_store with
                      memories := [mk_memory [98] MemoryType.MEMORY_PATTERN 7,
                                   mk_memory [98] MemoryType.MEMORY_PATTERN 7]
                      count := 0 }) ∧
    ∀ s1, memory_cleanup_old 2 full_store 100 10 = some ((), s1) →
      s1.total_saved = 2 ∧ s1.total_recalled = 0 :=
  ⟨by decide, fun s1 h => (C18_counters full_store).2.2.2.2.2.1 2 100 10 s1 h⟩

/-- C19 (as stated, refuted): an empty text, an empty tag and an empty name are accepted:
the call reports success and stores the record, respectively the processor. -/
theorem C19_empty_strings_accepted :
    (memory_save fresh_store (some []) (some [97]) MemoryType.MEMORY_PATTERN 3 1000 false).1 = 1 ∧
    (memory_save fresh_store (some []) (some [97]) MemoryType.MEMORY_PATTERN 3 1000
      false).2.count = 1 ∧
    (memory_save fresh_store (some [104]) (some []) MemoryType.MEMORY_PATTERN 3 1000 false).1 = 1 ∧
    (memory_save fresh_store (some [104]) (some []) MemoryType.MEMORY_PATTERN 3 1000
      false).2.count = 1 ∧
    (plugin_load fresh_registry (some []) (some [100]) PluginType.PLUGIN_EMOTION).1 = 1 ∧
    (plugin_load fresh_registry (some []) (some [100]) PluginType.PLUGIN_EMOTION).2.count = 1 := by
  decide

/-- C19 (amended): `memory_save` called with a null text or a null tag, and `plugin_load`
called with a null name or a null description, report failure and leave the store,
respectively the registry, unchanged. -/
theorem C19_null_arguments_rejected (sys : MemorySystem) (reg : PluginSystem)
    (text tag name desc : Option CStr) (type : MemoryType) (importance now : Int)
    (realloc_ok : Bool) (ptype : PluginType) :
    memory_save sys none tag type importance now realloc_ok = (0, sys) ∧
    memory_save sys text none type importance now realloc_ok = (0, sys) ∧
    plugin_load reg none desc ptype = (0, reg) ∧
    plugin_load reg name none ptype = (0, reg) := by
  refine ⟨?_, ?_, ?_, ?_⟩
  · cases tag <;> rfl
  · cases text <;> rfl
  · cases desc <;> rfl
  · cases name <;> rfl

/-- C20 (as stated, refuted): with an Emotion and then a Learning processor registered
under the same name, lookup by that name finds index 0, the earlier registration, and
`plugin_activate` activates it and leaves the later one inactive. -/
theorem C20_lookup_finds_earlier :
    (plugin_slot duplicate_registry.plugins 0).name = [88] ∧
    (plugin_slot duplicate_registry.plugins 1).name = [88] ∧
    plugin_find_by_name duplicate_registry (some [88]) = some 0 ∧
    (plugin_activate duplicate_registry (some [88])).1 = 1 ∧
    (plugin_slot (plugin_activate duplicate_registry (some [88])).2.plugins 0).is_active = true ∧
    (plugin_slot (plugin_activate duplicate_registry (some [88])).2.plugins 1).is_active
      = false := by
  decide

/-- C20 (amended): when a name of at most 63 bytes that is not yet registered is
registered twice in a registry with room for both, both registrations succeed and the
earlier one shadows the later one in name lookup: `plugin_find_by_name`,
`plugin_activate` and `plugin_deactivate` on that name act on the earlier-registered
processor and leave the later one untouched. -/
theorem C20_first_registration_wins (sys : PluginSystem) (name desc1 desc2 : CStr)
    (type1 type2 : PluginType) (hv : registry_valid sys) (hroom : sys.count + 2 ≤ 10)
    (hlen : name.length ≤ 63)
    (hnew : ∀ i, i < sys.count → (plugin_slot sys.plugins i).name ≠ name) :
    (plugin_load sys (some name) (some desc1) type1).1 = 1 ∧
    (plugin_load (plugin_load sys (some name) (some desc1) type1).2 (some name) (some desc2)
      type2).1 = 1 ∧
    (plugin_slot (load_twice sys name desc1 desc2 type1 type2).plugins sys.count).name = name ∧
    (plugin_slot (load_twice sys name desc1 desc2 type1 type2).plugins (sys.count + 1)).name
      = name ∧
    plugin_find_by_name (load_twice sys name desc1 desc2 type1 type2) (some name)
      = some sys.count ∧
    (plugin_activate (load_twice sys name desc1 desc2 type1 type2) (some name)).1 = 1 ∧
    (plugin_slot (plugin_activate (load_twice sys name desc1 desc2 type1 type2)
      (some name)).2.plugins sys.count).is_active = true ∧
    (plugin_slot (plugin_activate (load_twice sys name desc1 desc2 type1 type2)
      (some name)).2.plugins (sys.count + 1)).is_active = false ∧
    (plugin_deactivate (plugin_activate (load_twice sys name desc1 desc2 type1 type2)
      (some name)).2 (some name)).1 = 1 ∧
    (plugin_slot (plugin_deactivate (plugin_activate
      (load_twice sys name desc1 desc2 type1 type2) (some name)).2
      (some name)).2.plugins sys.count).is_active = false ∧
    (plugin_slot (plugin_deactivate (plugin_activate
      (load_twice sys name desc1 desc2 type1 type2) (some name)).2
      (some name)).2.plugins (sys.count + 1))
      = plugin_slot (load_twice sys name desc1 desc2 type1 type2).plugins (sys.count + 1) := by
  have hroom1 : sys.count < MAX_PLUGINS := by simp only [MAX_PLUGINS]; omega
  obtain ⟨a1, a2, a3, a4⟩ := plugin_load_slots sys name desc1 type1 hv hroom1
  have hok1 : (plugin_load sys (some name) (some desc1) type1).1 = 1 := by
    have hnf : ¬ sys.count ≥ MAX_PLUGINS := by omega
    simp [plugin_load, hnf]
  have hv1 : registry_valid (plugin_load sys (some name) (some desc1) type1).2 :=
    ⟨by rw [a2]; exact hv.1, by rw [a1]; simp only [MAX_PLUGINS]; omega⟩
  unfold load_twice
  generalize (plugin_load sys (some name) (some desc1) type1).2 = s1 at a1 a2 a3 a4 hv1 ⊢
  have hroom2 : s1.count < MAX_PLUGINS := by rw [a1]; simp only [MAX_PLUGINS]; omega
  obtain ⟨b1, b2, b3, b4⟩ := plugin_load_slots s1 name desc2 type2 hv1 hroom2
  have hok2 : (plugin_load s1 (some name) (some desc2) type2).1 = 1 := by
    have hnf : ¬ s1.count ≥ MAX_PLUGINS := by omega
    simp [plugin_load, hnf]
  generalize (plugin_load s1 (some name) (some desc2) type2).2 = s2 at b1 b2 b3 b4 ⊢
  rw [a1] at b3 b4 b1
  have hname : name.take 63 = name := List.take_of_length_le hlen
  have n0 : (plugin_slot s2.plugins sys.count).name = name := by
    rw [b3 sys.count (by omega), a4]; exact hname
  have n1 : (plugin_slot s2.plugins (sys.count + 1)).name = name := by
    rw [b4]; exact hname
  have hf : plugin_find_by_name s2 (some name) = some sys.count := by
    apply find_by_name_some s2 name sys.count (by omega) n0
    intro j hj
    rw [b3 j (by omega), a3 j hj]
    exact hnew j hj
  have hil : sys.count < s2.plugins.length := by
    rw [b2, a2]; have := hv.1; simp only [MAX_PLUGINS] at this; omega
  have hinact : (plugin_slot s2.plugins sys.count).is_active = false := by
    rw [b3 sys.count (by omega), a4]
  have hinit : (plugin_slot s2.plugins sys.count).init = none := by
    rw [b3 sys.count (by omega), a4]
  have hact : plugin_activate s2 (some name)
      = (1, { s2 with plugins := s2.plugins.set sys.count
                        { plugin_slot s2.plugins sys.count with is_active := true }
                      active_count := s2.active_count + 1 }) := by
    rw [plugin_activate_found s2 name sys.count hf, hinact, hinit]
    simp
  have hf3 : plugin_find_by_name (plugin_activate s2 (some name)).2 (some name)
      = some sys.count := by
    rw [hact]
    exact (find_by_name_congr s2
      { s2 with plugins := s2.plugins.set sys.count
                  { plugin_slot s2.plugins sys.count with is_active := true }
                active_count := s2.active_count + 1 } (some name) rfl
      (fun k => (slot_set_active s2.plugins sys.count k true hil).1)).trans hf
  have hdeact := plugin_deactivate_found (plugin_activate s2 (some name)).2 name sys.count hf3
  have hact0 : (plugin_slot (plugin_activate s2 (some name)).2.plugins sys.count).is_active
      = true := by
    rw [hact]; simpa using (slot_set_active s2.plugins sys.count sys.count true hil).2.2.2.2
  have hact1 : plugin_slot (plugin_activate s2 (some name)).2.plugins (sys.count + 1)
      = plugin_slot s2.plugins (sys.count + 1) := by
    rw [hact]
    simp only [plugin_slot_set]
    rw [if_neg (fun h => by omega)]
  have hil3 : sys.count < (plugin_activate s2 (some name)).2.plugins.length := by
    rw [hact]; simpa using hil
  rw [hact0] at hdeact
  simp only [Bool.not_true, Bool.false_eq_true, if_false] at hdeact
  refine ⟨hok1, hok2, n0, n1, hf, by rw [hact], hact0, ?_, by rw [hdeact], ?_, ?_⟩
  · rw [hact1, b4]
  · rw [hdeact]
    simpa using (slot_set_active (plugin_activate s2 (some name)).2.plugins sys.count
      sys.count false hil3).2.2.2.2
  · rw [hdeact]
    simp only [plugin_slot_set]
    rw [if_neg (fun h => by omega), hact1]

/-- C20 (instance): registering the name `X` twice in the fresh registry. -/
theorem C20_first_registration_wins_witness :
    registry_valid fresh_registry ∧
    plugin_find_by_name
      (load_twice fresh_registry [88] [49] [50] PluginType.PLUGIN_EMOTION
        PluginType.PLUGIN_LEARNING) (some [88]) = some 0 :=
  ⟨by decide,
   (C20_first_registration_wins fresh_registry [88] [49] [50] PluginType.PLUGIN_EMOTION
      PluginType.PLUGIN_LEARNING (by decide) (by decide) (by decide)
      (fun i hi => absurd hi (Nat.not_lt_zero i))).2.2.2.2.1⟩

/-! Section: plugin_load_defaults -/

/-- C21: starting from a freshly initialised registry, `plugin_load_defaults` yields
exactly four processors, in the order PersonalityCore (Personality), EmotionEngine
(Emotion), CreativeThinking (Creativity), LearningCore (Learning), all active, with
priorities 0, 1, 2, 3 and `count = total_loaded = active_count = 4`. -/
theorem C21_load_defaults (sys0 : PluginSystem) :
    registered (plugin_load_defaults (plugin_system_init sys0).2)
      = [{ name := ascii "PersonalityCore"
           description := ascii "Core personality processing engine"
           type := PluginType.PLUGIN_PERSONALITY, is_active := true, priority := 0
           init := none, process := some ProcessFunc.personality_plugin_process
           cleanup := false, plugin_data := none },
         { name := ascii "EmotionEngine"
           description := ascii "Emotional understanding and response"
           type := PluginType.PLUGIN_EMOTION, is_active := true, priority := 1
           init := none, process := some ProcessFunc.emotion_plugin_process
           cleanup := false, plugin_data := none },
         { name := ascii "CreativeThinking"
           description := ascii "Creative and artistic processing"
           type := PluginType.PLUGIN_CREATIVITY, is_active := true, priority := 2
           init := none, process := some ProcessFunc.creativity_plugin_process
           cleanup := false, plugin_data := none },
         { name := ascii "LearningCore"
           description := ascii "Knowledge acquisition and processing"
           type := PluginType.PLUGIN_LEARNING, is_active := true, priority := 3
           init := none, process := some ProcessFunc.learning_plugin_process
           cleanup := false, plugin_data := none }] ∧
    (plugin_load_defaults (plugin_system_init sys0).2).count = 4 ∧
    (plugin_load_defaults (plugin_system_init sys0).2).total_loaded = 4 ∧
    (plugin_load_defaults (plugin_system_init sys0).2).active_count = 4 := by
  have h : (plugin_system_init sys0).2 = fresh_registry := rfl
  rw [h]
  decide

/-! Section: the capability functions -/

theorem starts_with_iff (s t : CStr) : starts_with s t = true ↔ ∃ rest, s = t ++ rest := by
  induction s generalizing t with
  | nil =>
    cases t with
    | nil => simp [starts_with]
    | cons b bs => simp [starts_with]
  | cons a as ih =>
    cases t with
    | nil => simp [starts_with]
    | cons b bs =>
      simp only [starts_with, Bool.and_eq_true, beq_iff_eq, ih, List.cons_append,
        List.cons.injEq]
      constructor
      · rintro ⟨hab, rest, hrest⟩
        exact ⟨rest, hab, hrest⟩
      · rintro ⟨rest, hab, hrest⟩
        exact ⟨hab, rest, hrest⟩

/-- `strstr` finds an occurrence exactly when the keyword is contained in the input. -/
theorem strstr_isSome_iff (haystack needle : CStr) :
    (strstr haystack needle).isSome = true ↔ contains haystack needle := by
  induction haystack with
  | nil =>
    simp only [strstr, contains]
    constructor
    · intro h
      have hs : starts_with [] needle = true := by
        by_contra hn
        simp [hn] at h
      obtain ⟨rest, hrest⟩ := (starts_with_iff [] needle).1 hs
      exact ⟨[], rest, by simpa using hrest⟩
    · rintro ⟨before, after, h⟩
      have hb : before = [] ∧ needle = [] ∧ after = [] := by
        have := congrArg List.length h
        simp only [List.length_nil, List.length_append] at this
        refine ⟨List.eq_nil_of_length_eq_zero (by omega),
          List.eq_nil_of_length_eq_zero (by omega), List.eq_nil_of_length_eq_zero (by omega)⟩
      rw [hb.2.1]
      simp [starts_with]
  | cons a as ih =>
    simp only [strstr]
    by_cases hs : starts_with (a :: as) needle = true
    · simp only [hs, if_true, Option.isSome_some, true_iff]
      obtain ⟨rest, hrest⟩ := (starts_with_iff _ _).1 hs
      exact ⟨[], rest, by simpa using hrest⟩
    · simp only [hs, if_false, Option.isSome_map', Bool.false_eq_true]
      rw [ih]
      constructor
      · rintro ⟨before, after, h⟩
        exact ⟨a :: before, after, by rw [h]; rfl⟩
      · rintro ⟨before, after, h⟩
        cases before with
        | nil =>
          exact absurd ((starts_with_iff _ _).2 ⟨after, by simpa using h⟩) hs
        | cons b before =>
          simp only [List.cons_append, List.cons.injEq] at h
          exact ⟨before, after, h.2⟩

theorem strstr_eq_none_iff (haystack needle : CStr) :
    (strstr haystack needle).isSome = false ↔ ¬ contains haystack needle := by
  rw [← strstr_isSome_iff]
  simp

/-- C22: `emotion_plugin_process` returns the fragment chosen by the first applicable
rule, in this order: a sadness keyword gives "[Processing with empathy]"; else a joy
keyword gives "[Emotional resonance detected]"; else a question mark gives
"[Feeling curious about your words]"; else a length above 100 gives
"[Sensing deeper meaning]"; otherwise "[Emotional context understood]".  (The result
buffer is assumed to be allocated.) -/
theorem C22_emotion_rules (input : CStr) :
    (sadness_keyword input →
      emotion_plugin_process (some input) true = some (ascii "[Processing with empathy]")) ∧
    (¬ sadness_keyword input → joy_keyword input →
      emotion_plugin_process (some input) true
        = some (ascii "[Emotional resonance detected]")) ∧
    (¬ sadness_keyword input → ¬ joy_keyword input → contains input (ascii "?") →
      emotion_plugin_process (some input) true
        = some (ascii "[Feeling curious about your words]")) ∧
    (¬ sadness_keyword input → ¬ joy_keyword input → ¬ contains input (ascii "?") →
      input.length > 100 →
      emotion_plugin_process (some input) true = some (ascii "[Sensing deeper meaning]")) ∧
    (¬ sadness_keyword input → ¬ joy_keyword input → ¬ contains input (ascii "?") →
      input.length ≤ 100 →
      emotion_plugin_process (some input) true
        = some (ascii "[Emotional context understood]")) := by
  have hsad : ((strstr input (ascii "sad")).isSome || (strstr input (ascii "cry")).isSome
      || (strstr input (ascii "hurt")).isSome) = true ↔ sadness_keyword input := by
    simp only [Bool.or_eq_true, strstr_isSome_iff, sadness_keyword, or_assoc]
  have hjoy : ((strstr input (ascii "happy")).isSome || (strstr input (ascii "joy")).isSome
      || (strstr input (ascii "love")).isSome) = true ↔ joy_keyword input := by
    simp only [Bool.or_eq_true, strstr_isSome_iff, joy_keyword, or_assoc]
  have hq := strstr_isSome_iff input (ascii "?")
  refine ⟨?_, ?_, ?_, ?_, ?_⟩
  · intro h1
    simp only [emotion_plugin_process, hsad.2 h1, if_true]
    decide
  · intro h1 h2
    simp only [emotion_plugin_process, mt hsad.1 h1, hjoy.2 h2, if_true, if_false]
    decide
  · intro h1 h2 h3
    simp only [emotion_plugin_process, mt hsad.1 h1, mt hjoy.1 h2, hq.2 h3, if_true, if_false]
    decide
  · intro h1 h2 h3 h4
    simp only [emotion_plugin_process, mt hsad.1 h1, mt hjoy.1 h2, mt hq.1 h3, h4, if_true,
      if_false]
    decide
  · intro h1 h2 h3 h4
    have h5 : ¬ input.length > 100 := by omega
    simp only [emotion_plugin_process, mt hsad.1 h1, mt hjoy.1 h2, mt hq.1 h3, h5, if_false]
    decide

/-- C22 (instance): "sad?" contains a sadness keyword and a question mark; the sadness
rule wins. -/
theorem C22_emotion_rules_witness :
    sadness_keyword (ascii "sad?") ∧
    emotion_plugin_process (some (ascii "sad?")) true
      = some (ascii "[Processing with empathy]") :=
  ⟨Or.inl ⟨[], ascii "?", by decide⟩,
   (C22_emotion_rules (ascii "sad?")).1 (Or.inl ⟨[], ascii "?", by decide⟩)⟩

/-- C23: `learning_plugin_process` returns the fragment chosen by the first applicable
rule, in this order: "learn", "teach" or "know" gives "Absorbing new knowledge
patterns..."; else "fact" or "information" gives "Educational value detected and
stored..."; else "how", "why" or "what" gives "Learning algorithms activated...";
otherwise "Knowledge integration in progress...".  (The result buffer is assumed to be
allocated.) -/
theorem C23_learning_rules (input : CStr) :
    (learning_keyword input →
      learning_plugin_process (some input) true
        = some (ascii "Absorbing new knowledge patterns...")) ∧
    (¬ learning_keyword input → fact_keyword input →
      learning_plugin_process (some input) true
        = some (ascii "Educational value detected and stored...")) ∧
    (¬ learning_keyword input → ¬ fact_keyword input → question_keyword input →
      learning_plugin_process (some input) true
        = some (ascii "Learning algorithms activated...")) ∧
    (¬ learning_keyword input → ¬ fact_keyword input → ¬ question_keyword input →
      learning_plugin_process (some input) true
        = some (ascii "Knowledge integration in progress...")) := by
  have hl : ((strstr input (ascii "learn")).isSome || (strstr input (ascii "teach")).isSome
      || (strstr input (ascii "know")).isSome) = true ↔ learning_keyword input := by
    simp only [Bool.or_eq_true, strstr_isSome_iff, learning_keyword, or_assoc]
  have hf : ((strstr input (ascii "fact")).isSome
      || (strstr input (ascii "information")).isSome) = true ↔ fact_keyword input := by
    simp only [Bool.or_eq_true, strstr_isSome_iff, fact_keyword]
  have hq : ((strstr input (ascii "how")).isSome || (strstr input (ascii "why")).isSome
      || (strstr input (ascii "what")).isSome) = true ↔ question_keyword input := by
    simp only [Bool.or_eq_true, strstr_isSome_iff, question_keyword, or_assoc]
  refine ⟨?_, ?_, ?_, ?_⟩
  · intro h1
    simp only [learning_plugin_process, hl.2 h1, if_true]
    decide
  · intro h1 h2
    simp only [learning_plugin_process, mt hl.1 h1, hf.2 h2, if_true, if_false]
    decide
  · intro h1 h2 h3
    simp only [learning_plugin_process, mt hl.1 h1, mt hf.1 h2, hq.2 h3, if_true, if_false]
    decide
  · intro h1 h2 h3
    simp only [learning_plugin_process, mt hl.1 h1, mt hf.1 h2, mt hq.1 h3, if_false]
    decide

/-- C23 (instance): "know how" contains a learning keyword and a question word; the
learning rule wins. -/
theorem C23_learning_rules_witness :
    learning_keyword (ascii "know how") ∧
    learning_plugin_process (some (ascii "know how")) true
      = some (ascii "Absorbing new knowledge patterns...") :=
  ⟨Or.inr (Or.inr ⟨[], ascii " how", by decide⟩),
   (C23_learning_rules (ascii "know how")).1 (Or.inr (Or.inr ⟨[], ascii " how", by decide⟩))⟩

theorem creativity_entry_fits (k : Nat) (hk : k < 4) :
    strncpy_terminated (creativity_responses.getD k []) (256 - 1)
      = creativity_responses.getD k [] := by
  have h : k = 0 ∨ k = 1 ∨ k = 2 ∨ k = 3 := by omega
  rcases h with h | h | h | h <;> subst h <;> decide

theorem personality_entry_fits (k : Nat) (hk : k < 4) :
    strncpy_terminated (personality_responses.getD k []) (256 - 1)
      = personality_responses.getD k [] := by
  have h : k = 0 ∨ k = 1 ∨ k = 2 ∨ k = 3 := by omega
  rcases h with h | h | h | h <;> subst h <;> decide

/-- C24: `creativity_plugin_process` returns
`creativity_responses[(length(input) * 7 mod 2^64) mod 4]`; the index is within the
4-entry table, and two inputs of equal length give equal output.  (The result buffer is
assumed to be allocated in the first part.) -/
theorem C24_creativity_index (input : CStr) :
    creativity_plugin_process (some input) true
      = some (creativity_responses.getD (((input.length * 7) % 2 ^ 64) % 4) []) ∧
    ((input.length * 7) % 2 ^ 64) % 4 < creativity_responses.length ∧
    (∀ (input2 : CStr) (malloc_ok : Bool), input2.length = input.length →
      creativity_plugin_process (some input2) malloc_ok
        = creativity_plugin_process (some input) malloc_ok) := by
  have hlt : ((input.length * 7) % 2 ^ 64) % 4 < 4 := Nat.mod_lt _ (by decide)
  refine ⟨?_, hlt, ?_⟩
  · simp only [creativity_plugin_process, plugin_result, if_true]
    rw [creativity_entry_fits _ hlt]
  · intro input2 malloc_ok h
    simp only [creativity_plugin_process, h]

/-- C25: `personality_plugin_process` returns
`personality_responses[(length(input) + t) mod 4]` for the clock reading `t`, the index
being within the 4-entry table; the output is fixed by the input and the clock reading,
but not by the input alone: the clock readings 0 and 1 give different outputs for every
input.  (The result buffer is assumed to be allocated.) -/
theorem C25_personality_clock (input : CStr) :
    (∀ t : Int, personality_plugin_process (some input) t true
      = some (personality_responses.getD ((((input.length : Int) + t) % 4).toNat) [])) ∧
    (∀ t : Int, ((((input.length : Int) + t) % 4).toNat) < personality_responses.length) ∧
    personality_plugin_process (some input) 0 true
      ≠ personality_plugin_process (some input) 1 true ∧
    (∀ (input2 : CStr) (t t2 : Int) (malloc_ok : Bool), input2 = input → t2 = t →
      personality_plugin_process (some input2) t2 malloc_ok
        = personality_plugin_process (some input) t malloc_ok) := by
  have hidx : ∀ t : Int, (((input.length : Int) + t) % 2 ^ 64) % 4
      = ((input.length : Int) + t) % 4 := by
    intro t
    exact Int.emod_emod_of_dvd _ (by decide)
  have hlt : ∀ t : Int, ((((input.length : Int) + t) % 4).toNat) < 4 := by
    intro t
    have h1 := Int.emod_nonneg ((input.length : Int) + t) (by decide : (4 : Int) ≠ 0)
    have h2 := Int.emod_lt_of_pos ((input.length : Int) + t) (by decide : (0 : Int) < 4)
    omega
  have hval : ∀ t : Int, personality_plugin_process (some input) t true
      = some (personality_responses.getD ((((input.length : Int) + t) % 4).toNat) []) := by
    intro t
    simp only [personality_plugin_process, plugin_result, if_true, hidx]
    rw [personality_entry_fits _ (hlt t)]
  refine ⟨hval, hlt, ?_, ?_⟩
  · rw [hval 0, hval 1]
    have hcases : (input.length : Int) % 4 = 0 ∨ (input.length : Int) % 4 = 1
        ∨ (input.length : Int) % 4 = 2 ∨ (input.length : Int) % 4 = 3 := by omega
    have h0 : ((input.length : Int) + 0) % 4 = (input.length : Int) % 4 := by simp
    rcases hcases with h | h | h | h
    · have h1 : ((input.length : Int) + 1) % 4 = 1 := by omega
      rw [h0, h, h1]; decide
    · have h1 : ((input.length : Int) + 1) % 4 = 2 := by omega
      rw [h0, h, h1]; decide
    · have h1 : ((input.length : Int) + 1) % 4 = 3 := by omega
      rw [h0, h, h1]; decide
    · have h1 : ((input.length : Int) + 1) % 4 = 0 := by omega
      rw [h0, h, h1]; decide
  · intro input2 t t2 malloc_ok h1 h2
    rw [h1, h2]

/-- C25 (instance): the same input at the same clock reading gives the same output. -/
theorem C25_personality_clock_witness :
    personality_plugin_process (some [104, 105]) 7 true
      = personality_plugin_process (some [104, 105]) 7 true :=
  (C25_personality_clock [104, 105]).2.2.2 [104, 105] 7 7 true rfl rfl

/-- C24 (instance): two inputs of length 2 give the same output. -/
theorem C24_creativity_index_witness :
    creativity_plugin_process (some [120, 121]) true
      = creativity_plugin_process (some [104, 105]) true :=
  (C24_creativity_index [104, 105]).2.2 [120, 121] true rfl

/-! Section: the counters of the registry -/

theorem registered_getElem (sys : PluginSystem) (i : Nat) (hi : i < sys.count)
    (hl : sys.count ≤ sys.plugins.length) (h : i < (registered sys).length) :
    (registered sys)[i] = plugin_slot sys.plugins i := by
  have hil : i < sys.plugins.length := by omega
  simp only [registered, List.getElem_take, plugin_slot, List.getD_eq_getElem?_getD,
    List.getElem?_eq_getElem hil, Option.getD_some]

/-- Setting the flag of a registered slot changes the number of active processors by the
difference between the new and the old flag. -/
theorem active_number_set (sys : PluginSystem) (i : Nat) (b : Bool) (ac : Int)
    (hv : registry_valid sys) (hi : i < sys.count) :
    (active_number { sys with plugins := sys.plugins.set i
                                { plugin_slot sys.plugins i with is_active := b }
                              active_count := ac } : Int)
      = (active_number sys : Int)
        - (if (plugin_slot sys.plugins i).is_active then 1 else 0)
        + (if b then 1 else 0) := by
  have hl : sys.count ≤ sys.plugins.length := by have := hv.1; have := hv.2; omega
  have hlen : i < (registered sys).length := by
    simp only [registered, List.length_take]; omega
  have hlen2 : i < (List.take sys.count sys.plugins).length := by
    simpa [registered] using hlen
  simp only [active_number, registered, List.set_take]
  rw [List.countP_set _ _ _ _ hlen2]
  have hget : (List.take sys.count sys.plugins)[i] = plugin_slot sys.plugins i :=
    registered_getElem sys i hi hl hlen
  rw [hget]
  by_cases hact : (plugin_slot sys.plugins i).is_active = true
  · have hpos : 0 < List.countP (fun p => p.is_active) (List.take sys.count sys.plugins) := by
      rw [List.countP_pos_iff]
      exact ⟨_, List.getElem_mem (by simpa [registered] using hlen), by rw [hget]; exact hact⟩
    cases b <;> simp [hact] <;> omega
  · cases b <;> simp [hact]

theorem registered_load (sys : PluginSystem) (name desc : CStr) (type : PluginType)
    (hv : registry_valid sys) (hroom : sys.count < MAX_PLUGINS) :
    (plugin_load sys (some name) (some desc) type).1 = 1 ∧
    registered (plugin_load sys (some name) (some desc) type).2
      = registered sys ++
          [{ name := name.take 63, description := desc.take 255, type := type,
             is_active := false, priority := sys.count, init := none,
             process := builtin_process type, cleanup := false, plugin_data := none }] ∧
    (plugin_load sys (some name) (some desc) type).2.total_loaded = sys.total_loaded + 1 ∧
    (plugin_load sys (some name) (some desc) type).2.active_count = sys.active_count := by
  have hnf : ¬ sys.count ≥ MAX_PLUGINS := by omega
  have hlt : sys.count < sys.plugins.length := by have := hv.1; omega
  refine ⟨by simp [plugin_load, hnf], ?_, by simp [plugin_load, hnf], by simp [plugin_load, hnf]⟩
  simp only [plugin_load, hnf, if_false, registered, strncpy_terminated, MAX_PLUGIN_NAME,
    MAX_PLUGIN_DESC]
  rw [take_set_succ _ _ _ hlt]

theorem registry_counters_step (s s1 : PluginSystem)
    (hv : registry_valid s ∧ (s.active_count = (active_number s : Int))
      ∧ s.total_loaded = (s.count : Int))
    (h : PluginStep s s1) :
    registry_valid s1 ∧ (s1.active_count = (active_number s1 : Int))
      ∧ s1.total_loaded = (s1.count : Int) := by
  obtain ⟨hval, hac, htl⟩ := hv
  cases h with
  | load name desc type =>
    cases hr : (plugin_load s name desc type).1 == 0 with
    | true =>
      rw [plugin_load_fails s name desc type (by simpa using hr)]
      exact ⟨hval, hac, htl⟩
    | false =>
      have hne : (plugin_load s name desc type).1 ≠ 0 := by simpa using hr
      cases name with
      | none => exact absurd rfl hne
      | some name =>
        cases desc with
        | none => exact absurd rfl hne
        | some desc =>
          have hroom : s.count < MAX_PLUGINS := by
            by_contra hf
            have hf2 : s.count ≥ MAX_PLUGINS := by omega
            exact hne (by simp [plugin_load, hf2])
          obtain ⟨c1, c2, _, _⟩ := plugin_load_slots s name desc type hval hroom
          obtain ⟨_, r2, r3, r4⟩ := registered_load s name desc type hval hroom
          refine ⟨⟨by rw [c2]; exact hval.1, by rw [c1]; omega⟩, ?_, ?_⟩
          · rw [r4, hac]
            simp only [active_number, r2, List.countP_append]
            simp
          · rw [r3, c1, htl]; push_cast; ring
  | activate name =>
    cases name with
    | none => exact ⟨hval, hac, htl⟩
    | some name =>
      cases hf : plugin_find_by_name s (some name) with
      | none => simp only [plugin_activate, hf]; exact ⟨hval, hac, htl⟩
      | some i =>
        obtain ⟨f1, _, _⟩ := find_by_name_spec s name i hf
        rw [plugin_activate_found s name i hf]
        split
        · exact ⟨hval, hac, htl⟩
        · rename_i hna
          split
          · exact ⟨hval, hac, htl⟩
          · refine ⟨⟨by simp only [List.length_set]; exact hval.1, hval.2⟩, ?_, htl⟩
            have hfalse : (plugin_slot s.plugins i).is_active = false := by simpa using hna
            rw [active_number_set s i true _ hval f1, hac, hfalse]
            simp
  | deactivate name =>
    cases name with
    | none => exact ⟨hval, hac, htl⟩
    | some name =>
      cases hf : plugin_find_by_name s (some name) with
      | none => simp only [plugin_deactivate, hf]; exact ⟨hval, hac, htl⟩
      | some i =>
        obtain ⟨f1, _, _⟩ := find_by_name_spec s name i hf
        rw [plugin_deactivate_found s name i hf]
        split
        · exact ⟨hval, hac, htl⟩
        · rename_i hna
          have hact : (plugin_slot s.plugins i).is_active = true := by simpa using hna
          refine ⟨⟨by simp only [List.length_set]; exact hval.1, hval.2⟩, ?_, htl⟩
          rw [active_number_set s i false _ hval f1, hac, hact]
          simp

theorem registry_counters (s : PluginSystem) (h : PluginReachable s) :
    registry_valid s ∧ (s.active_count = (active_number s : Int))
      ∧ s.total_loaded = (s.count : Int) := by
  induction h with
  | init sys0 =>
    refine ⟨registry_valid_init sys0, ?_, ?_⟩
    · simp [plugin_system_init, active_number, registered]
    · simp [plugin_system_init]
  | step s s1 _ hstep ih => exact registry_counters_step s s1 ih hstep

/-- C26: in every registry reachable from `plugin_system_init` by `plugin_load`,
`plugin_activate` and `plugin_deactivate` calls, `active_count` is the number of
registered processors whose `is_active` flag is set, `total_loaded` equals `count`, and
`0 <= active_count <= count`. -/
theorem C26_registry_counters (s : PluginSystem) (h : PluginReachable s) :
    s.active_count = (active_number s : Int) ∧ s.total_loaded = (s.count : Int) ∧
    0 ≤ s.active_count ∧ s.active_count ≤ (s.count : Int) := by
  obtain ⟨hval, hac, htl⟩ := registry_counters s h
  refine ⟨hac, htl, by rw [hac]; exact Int.ofNat_nonneg _, ?_⟩
  rw [hac]
  have h1 : active_number s ≤ (registered s).length := List.countP_le_length _
  have h2 : (registered s).length ≤ s.count := by
    simp only [registered, List.length_take]; omega
  exact_mod_cast Nat.le_trans h1 h2

/-- C26 (instance): one Emotion processor loaded and activated. -/
theorem C26_registry_counters_witness :
    PluginReachable one_emotion ∧ one_emotion.active_count = 1 ∧
    one_emotion.active_count = (active_number one_emotion : Int) :=
  ⟨PluginReachable.step _ _
      (PluginReachable.step _ _ (PluginReachable.init _) (PluginStep.load _ _ _ _))
      (PluginStep.activate _ _),
   by decide,
   (C26_registry_counters one_emotion
      (PluginReachable.step _ _
        (PluginReachable.step _ _ (PluginReachable.init _) (PluginStep.load _ _ _ _))
        (PluginStep.activate _ _))).1⟩

/-! Section: the order of the timestamps -/

theorem map_timestamp_touch (mem : List Memory) (i : Nat) :
    (touch mem i).map (fun m => m.timestamp) = mem.map (fun m => m.timestamp) := by
  apply List.ext_getElem?
  intro k
  simp only [touch, List.map_set, List.getElem?_set, List.getElem?_map, List.length_map]
  by_cases hik : i = k
  · subst hik
    by_cases hl : i < mem.length
    · rw [if_pos rfl, if_pos hl, getElem?_eq_some_slot mem i hl]
      rfl
    · rw [if_pos rfl, if_neg hl, List.getElem?_eq_none (Nat.le_of_not_lt hl)]
      rfl
  · rw [if_neg hik]

theorem map_timestamp_touch_fold (l : List Nat) (mem : List Memory) :
    (l.foldl touch mem).map (fun m => m.timestamp) = mem.map (fun m => m.timestamp) := by
  induction l generalizing mem with
  | nil => rfl
  | cons a l ih => rw [List.foldl_cons, ih, map_timestamp_touch]

/-- An operation that leaves `count` and the timestamps of the block alone keeps the
timestamps ordered and bounded. -/
theorem sorted_of_same_timestamps (s s1 : MemorySystem) (last : Int)
    (hc : s1.count = s.count)
    (hm : s1.memories.map (fun m => m.timestamp) = s.memories.map (fun m => m.timestamp))
    (h : timestamps_sorted s ∧ ∀ m, m ∈ records s → m.timestamp ≤ last) :
    timestamps_sorted s1 ∧ ∀ m, m ∈ records s1 → m.timestamp ≤ last := by
  have hst : (records s1).map (fun m => m.timestamp) = (records s).map (fun m => m.timestamp) := by
    simp only [records, List.map_take, hc, hm]
  obtain ⟨h1, h2⟩ := h
  constructor
  · have := (List.pairwise_map (f := fun m : Memory => m.timestamp)
      (R := fun a b : Int => a ≤ b) (l := records s)).2 h1
    rw [← hst] at this
    exact List.pairwise_map.1 this
  · intro m hm1
    have hmem : m.timestamp ∈ (records s1).map (fun m => m.timestamp) :=
      List.mem_map.2 ⟨m, hm1, rfl⟩
    rw [hst] at hmem
    obtain ⟨m0, hm0, heq⟩ := List.mem_map.1 hmem
    rw [← heq]
    exact h2 m0 hm0

theorem sorted_of_sublist (s s1 : MemorySystem) (last : Int)
    (hsub : List.Sublist (records s1) (records s))
    (h : timestamps_sorted s ∧ ∀ m, m ∈ records s → m.timestamp ≤ last) :
    timestamps_sorted s1 ∧ ∀ m, m ∈ records s1 → m.timestamp ≤ last :=
  ⟨List.Pairwise.sublist hsub h.1, fun m hm => h.2 m (hsub.subset hm)⟩

theorem records_delete_sublist (sys : MemorySystem) (tag : Option CStr)
    (hlen : sys.count ≤ sys.memories.length) :
    List.Sublist (records (memory_delete_by_tag sys tag).2) (records sys) := by
  cases tag with
  | none => exact List.Sublist.refl _
  | some tag =>
    simp only [memory_delete_by_tag]
    cases hf : find_tag sys tag with
    | none => exact List.Sublist.refl _
    | some i =>
      have hi := find_tag_lt sys tag i hf
      have : records { sys with memories := shift_down sys.memories i sys.count
                                count := sys.count - 1 }
          = (records sys).eraseIdx i := by
        simp only [records]
        exact take_shift_down _ _ _ hi hlen
      rw [this]
      exact List.eraseIdx_sublist _ _

theorem records_cleanup_sublist (fuel : Nat) (sys s1 : MemorySystem) (now age : Int)
    (hlen : sys.count ≤ sys.memories.length)
    (h : memory_cleanup_old fuel sys now age = some ((), s1)) :
    List.Sublist (records s1) (records sys) := by
  rw [(cleanup_old_returns fuel sys s1 now age hlen h).1]
  exact List.filter_sublist _

/-- The record sequence after a successful `memory_save`. -/
theorem records_save (sys : MemorySystem) (text tag : CStr) (type : MemoryType)
    (importance now : Int) (realloc_ok : Bool)
    (hv : valid sys) (hroom : sys.count < sys.capacity ∨ realloc_ok = true) :
    records (memory_save sys (some text) (some tag) type importance now realloc_ok).2
      = records sys ++
          [{ text := text.take 511, tag := tag.take 63, type := type, timestamp := now,
             importance_score := importance, access_count := 0 }] := by
  obtain ⟨hlen, hle, hpos⟩ := hv
  by_cases hfull : sys.count ≥ sys.capacity
  · have hok : realloc_ok = true := by
      rcases hroom with h | h
      · omega
      · exact h
    have hlt : sys.count < (realloc sys.memories (sys.capacity * 2)).length := by
      rw [length_realloc]; omega
    simp only [memory_save, memory_resize, hfull, hok, if_true, records,
      strncpy_terminated, MAX_MEMORY_TEXT, MAX_MEMORY_TAG, Bool.not_true,
      Bool.false_eq_true, if_false, one_ne_zero]
    rw [take_set_succ _ _ _ hlt, take_realloc _ _ _ (by omega) (by omega)]
  · have hlt : sys.count < sys.memories.length := by omega
    simp only [memory_save, hfull, if_false, records, strncpy_terminated, MAX_MEMORY_TEXT,
      MAX_MEMORY_TAG, one_ne_zero]
    rw [take_set_succ _ _ _ hlt]

/-- A save that returns 1 had non-null arguments and a free slot or a successful growth. -/
theorem save_success_inv (sys : MemorySystem) (text tag : Option CStr) (type : MemoryType)
    (importance now : Int) (realloc_ok : Bool)
    (h : (memory_save sys text tag type importance now realloc_ok).1 = 1) :
    ∃ t g, text = some t ∧ tag = some g ∧
      (sys.count < sys.capacity ∨ realloc_ok = true) := by
  cases text with
  | none => simp [memory_save] at h
  | some t =>
    cases tag with
    | none => simp [memory_save] at h
    | some g =>
      refine ⟨t, g, rfl, rfl, ?_⟩
      by_cases hfull : sys.count ≥ sys.capacity
      · cases realloc_ok
        · simp [memory_save, memory_resize, hfull] at h
        · exact Or.inr rfl
      · exact Or.inl (by omega)

theorem clock_invariant (s : MemorySystem) (last : Int) (h : ClockReachable s last) :
    valid s ∧ timestamps_sorted s ∧ ∀ m, m ∈ records s → m.timestamp ≤ last := by
  induction h with
  | init sys0 t0 =>
    refine ⟨valid_init sys0, ?_, ?_⟩
    · simp [timestamps_sorted, records, memory_init]
    · intro m hm
      simp [records, memory_init] at hm
  | save s last text tag type importance now realloc_ok _ hle ih =>
    obtain ⟨hv, hs, hb⟩ := ih
    refine ⟨valid_save s _ _ _ _ _ _ hv, ?_⟩
    obtain ⟨h01, h0, _, _⟩ := save_fields s text tag type importance now realloc_ok
    rcases h01 with hr | hr
    · rw [h0 hr]
      exact ⟨hs, fun m hm => le_trans (hb m hm) hle⟩
    · obtain ⟨t, g, ht, hg, hroom⟩ :=
        save_success_inv s text tag type importance now realloc_ok hr
      subst ht; subst hg
      have hrec := records_save s t g type importance now realloc_ok hv hroom
      constructor
      · simp only [timestamps_sorted, hrec, List.pairwise_append]
        refine ⟨hs, List.pairwise_singleton _ _, ?_⟩
        intro a ha b hb1
        simp only [List.mem_singleton] at hb1
        subst hb1
        exact le_trans (hb a ha) hle
      · intro m hm
        rw [hrec, List.mem_append] at hm
        rcases hm with hm | hm
        · exact le_trans (hb m hm) hle
        · simp only [List.mem_singleton] at hm
          subst hm
          exact le_refl _
  | recall_by_tag s last tag _ ih =>
    obtain ⟨hv, hsb⟩ := ih
    refine ⟨valid_recall_by_tag s tag hv, ?_⟩
    apply sorted_of_same_timestamps s _ last _ _ hsb
    · cases tag with
      | none => rfl
      | some tag =>
        simp only [memory_recall_by_tag]
        cases find_tag s tag <;> rfl
    · cases tag with
      | none => rfl
      | some tag =>
        simp only [memory_recall_by_tag]
        cases find_tag s tag with
        | none => rfl
        | some i => exact map_timestamp_touch _ _
  | recall_by_type s last type _ ih =>
    obtain ⟨hv, hsb⟩ := ih
    refine ⟨valid_recall_by_type s type hv, ?_⟩
    apply sorted_of_same_timestamps s _ last _ _ hsb
    · simp only [memory_recall_by_type]
      cases ((List.range' 0 s.count).foldl (recall_by_type_step s.memories type) (none, 0)).1
        <;> rfl
    · simp only [memory_recall_by_type]
      cases ((List.range' 0 s.count).foldl (recall_by_type_step s.memories type)
        (none, 0)).1 with
      | none => rfl
      | some i => exact map_timestamp_touch _ _
  | recall_recent s last count _ ih =>
    obtain ⟨hv, hsb⟩ := ih
    refine ⟨valid_recall_recent s count hv, ?_⟩
    apply sorted_of_same_timestamps s _ last _ _ hsb
    · unfold memory_recall_recent
      split <;> rfl
    · unfold memory_recall_recent
      split
      · rfl
      · exact map_timestamp_touch_fold _ _
  | delete_by_tag s last tag _ ih =>
    obtain ⟨hv, hsb⟩ := ih
    exact ⟨valid_delete_by_tag s tag hv,
      sorted_of_sublist s _ last (records_delete_sublist s tag (by have := hv.1; have := hv.2.1; omega)) hsb⟩
  | cleanup_old s s1 last fuel now age _ hc ih =>
    obtain ⟨hv, hsb⟩ := ih
    exact ⟨valid_step s s1 hv (MemoryStep.cleanup_old s s1 fuel now age hc),
      sorted_of_sublist s s1 last
        (records_cleanup_sublist fuel s s1 now age (by have := hv.1; have := hv.2.1; omega) hc)
        hsb⟩

/-- C27: if the clock readings seen by successive `memory_save` calls are
non-decreasing, then in every state reachable from `memory_init` by save, recall,
`memory_delete_by_tag` and `memory_cleanup_old` the stored timestamps are non-decreasing
in index order; and on any store deletion and cleanup preserve this ordering. -/
theorem C27_timestamps_sorted (s : MemorySystem) (last : Int) (h : ClockReachable s last) :
    timestamps_sorted s ∧
    (∀ i j, i < j → j < s.count →
      (slot s.memories i).timestamp ≤ (slot s.memories j).timestamp) ∧
    (∀ (sys : MemorySystem) (tag : Option CStr), sys.count ≤ sys.memories.length →
      timestamps_sorted sys → timestamps_sorted (memory_delete_by_tag sys tag).2) ∧
    (∀ (sys s1 : MemorySystem) (fuel : Nat) (now max_age : Int),
      sys.count ≤ sys.memories.length → timestamps_sorted sys →
      memory_cleanup_old fuel sys now max_age = some ((), s1) → timestamps_sorted s1) := by
  obtain ⟨hv, hs, _⟩ := clock_invariant s last h
  have hlen : s.count ≤ s.memories.length := by have := hv.1; have := hv.2.1; omega
  refine ⟨hs, ?_, ?_, ?_⟩
  · intro i j hij hj
    have hl := length_records s hlen
    have hp := List.pairwise_iff_getElem.1 hs i j (by omega) (by omega) hij
    rw [← slot_records s i (by omega), ← slot_records s j hj,
      slot_eq_getElem _ _ (by omega), slot_eq_getElem _ _ (by omega)]
    exact hp
  · intro sys tag hl hsorted
    exact List.Pairwise.sublist (records_delete_sublist sys tag hl) hsorted
  · intro sys s1 fuel now max_age hl hsorted hc
    exact List.Pairwise.sublist (records_cleanup_sublist fuel sys s1 now max_age hl hc) hsorted

/-- C27 (instance): two saves at clock readings 5 and 9. -/
theorem C27_timestamps_sorted_witness :
    ClockReachable
      (memory_save
        (memory_save fresh_store (some [1]) (some [97]) MemoryType.MEMORY_PATTERN 0 5 true).2
        (some [2]) (some [98]) MemoryType.MEMORY_PATTERN 0 9 true).2 9 ∧
    timestamps_sorted
      (memory_save
        (memory_save fresh_store (some [1]) (some [97]) MemoryType.MEMORY_PATTERN 0 5 true).2
        (some [2]) (some [98]) MemoryType.MEMORY_PATTERN 0 9 true).2 :=
  ⟨ClockReachable.save _ 5 _ _ _ _ _ _
      (ClockReachable.save _ 0 _ _ _ _ _ _ (ClockReachable.init _ 0) (by decide)) (by decide),
   (C27_timestamps_sorted _ 9
      (ClockReachable.save _ 5 _ _ _ _ _ _
        (ClockReachable.save _ 0 _ _ _ _ _ _ (ClockReachable.init _ 0) (by decide))
        (by decide))).1⟩

/-! Section: truncated tags and names -/

/-- C28: on a store holding no record whose stored tag equals `tag`, after a successful
`memory_save` with that tag, `memory_recall_by_tag(tag)` returns the record just saved if
and only if `tag` is at most 63 bytes long; a tag of 64 or more bytes is stored truncated
and is then found neither by `memory_recall_by_tag` nor by `memory_delete_by_tag` with
the original tag. -/
theorem C28_truncated_tag_lost (sys : MemorySystem) (text tag : CStr) (type : MemoryType)
    (importance now : Int) (realloc_ok : Bool)
    (hv : valid sys) (hroom : sys.count < sys.capacity ∨ realloc_ok = true)
    (hno : ∀ i, i < sys.count → (slot sys.memories i).tag ≠ tag) :
    (memory_save sys (some text) (some tag) type importance now realloc_ok).1 = 1 ∧
    ((memory_recall_by_tag
        (memory_save sys (some text) (some tag) type importance now realloc_ok).2
        (some tag)).1 = some sys.count ↔ tag.length ≤ 63) ∧
    (64 ≤ tag.length →
      (slot (memory_save sys (some text) (some tag) type importance now realloc_ok).2.memories
        sys.count).tag = tag.take 63 ∧
      memory_recall_by_tag
        (memory_save sys (some text) (some tag) type importance now realloc_ok).2 (some tag)
        = (none, (memory_save sys (some text) (some tag) type importance now realloc_ok).2) ∧
      memory_delete_by_tag
        (memory_save sys (some text) (some tag) type importance now realloc_ok).2 (some tag)
        = (0, (memory_save sys (some text) (some tag) type importance now realloc_ok).2)) := by
  obtain ⟨s1, s2, s3, s4⟩ :=
    memory_save_slots sys text tag type importance now realloc_ok hv hroom
  generalize (memory_save sys (some text) (some tag) type importance now realloc_ok).2 = S1
    at s2 s3 s4 ⊢
  have hold : ∀ j, j < sys.count → (slot S1.memories j).tag ≠ tag := fun j hj => by
    rw [s4 j hj]; exact hno j hj
  have hlong : 64 ≤ tag.length → ∀ j, j < S1.count → (slot S1.memories j).tag ≠ tag := by
    intro hl j hj
    by_cases hjc : j = sys.count
    · subst hjc
      rw [s3]
      intro heq
      have := congrArg List.length heq
      simp only [List.length_take] at this
      omega
    · exact hold j (by omega)
  refine ⟨s1, ?_, ?_⟩
  · constructor
    · intro h
      by_contra hlen
      have hnone := find_tag_none S1 tag (hlong (by omega))
      simp only [memory_recall_by_tag, hnone] at h
      exact Option.noConfusion h
    · intro hlen
      have htag : (slot S1.memories sys.count).tag = tag := by
        rw [s3]; exact List.take_of_length_le hlen
      simp only [memory_recall_by_tag,
        find_tag_some S1 tag sys.count (by omega) htag hold]
  · intro hl
    have hnone := find_tag_none S1 tag (hlong hl)
    refine ⟨by rw [s3], ?_, ?_⟩
    · simp only [memory_recall_by_tag, hnone]
    · simp only [memory_delete_by_tag, hnone]

/-- C28 (instance): a one-byte tag saved into the fresh store is found again. -/
theorem C28_truncated_tag_lost_witness :
    valid fresh_store ∧
    (memory_recall_by_tag
      (memory_save fresh_store (some [104]) (some [97]) MemoryType.MEMORY_PATTERN 3 1000
        false).2 (some [97])).1 = some 0 :=
  ⟨by decide,
   ((C28_truncated_tag_lost fresh_store [104] [97] MemoryType.MEMORY_PATTERN 3 1000 false
      (by decide) (Or.inl (by decide)) (fun i hi => absurd hi (Nat.not_lt_zero i))).2.1).2
      (by decide)⟩

theorem names_bounded_long (sys : PluginSystem) (name : CStr) (hb : names_bounded sys)
    (hl : 64 ≤ name.length) : plugin_find_by_name sys (some name) = none := by
  apply find_by_name_none
  intro j hj heq
  have := hb j hj
  rw [heq] at this
  simp only [MAX_PLUGIN_NAME] at this
  omega

/-- C29 (as stated, refuted): a processor loaded under a 64-byte name is stored under the
first 63 bytes of it; `plugin_activate` with that 63-byte name finds and activates it,
and it is then dispatched. -/
theorem C29_truncated_name_activates :
    long_name.length = 64 ∧
    (plugin_load fresh_registry (some long_name) (some [100]) PluginType.PLUGIN_EMOTION).1 = 1 ∧
    (plugin_activate long_name_registry (some long_name)).1 = 0 ∧
    (plugin_activate long_name_registry (some (long_name.take 63))).1 = 1 ∧
    (plugin_slot (plugin_activate long_name_registry
      (some (long_name.take 63))).2.plugins 0).is_active = true ∧
    plugin_process_input (plugin_activate long_name_registry (some (long_name.take 63))).2
      (some [104, 105]) PluginType.PLUGIN_EMOTION 0 true
      = some (ascii "[Emotional context understood]") := by
  decide

/-- C29 (amended): on a registry with `count < 10`, after a successful `plugin_load` under
`name`, `plugin_activate(name)` reports success if and only if `name` is at most 63 bytes
long; a longer name is stored truncated and is never found under the name it was loaded
with; and when the name is at most 63 bytes and no earlier processor has that stored
name, the processor made active is the one just loaded. -/
theorem C29_activate_after_load (sys : PluginSystem) (name desc : CStr) (type : PluginType)
    (hv : registry_valid sys) (hl : loaded_by_plugin_load sys) (hb : names_bounded sys)
    (hroom : sys.count < 10) :
    (plugin_load sys (some name) (some desc) type).1 = 1 ∧
    ((plugin_activate (plugin_load sys (some name) (some desc) type).2 (some name)).1 = 1
      ↔ name.length ≤ 63) ∧
    (64 ≤ name.length →
      (plugin_slot (plugin_load sys (some name) (some desc) type).2.plugins sys.count).name
        = name.take 63 ∧
      plugin_find_by_name (plugin_load sys (some name) (some desc) type).2 (some name) = none ∧
      plugin_activate (plugin_load sys (some name) (some desc) type).2 (some name)
        = (0, (plugin_load sys (some name) (some desc) type).2) ∧
      plugin_deactivate (plugin_load sys (some name) (some desc) type).2 (some name)
        = (0, (plugin_load sys (some name) (some desc) type).2)) ∧
    (name.length ≤ 63 → (∀ i, i < sys.count → (plugin_slot sys.plugins i).name ≠ name) →
      plugin_find_by_name (plugin_load sys (some name) (some desc) type).2 (some name)
        = some sys.count ∧
      (plugin_slot (plugin_activate (plugin_load sys (some name) (some desc) type).2
        (some name)).2.plugins sys.count).is_active = true) := by
  have hroom1 : sys.count < MAX_PLUGINS := by simp only [MAX_PLUGINS]; omega
  obtain ⟨c1, c2, c3, c4⟩ := plugin_load_slots sys name desc type hv hroom1
  obtain ⟨r1, _, _, _⟩ := registered_load sys name desc type hv hroom1
  generalize (plugin_load sys (some name) (some desc) type).2 = S1 at c1 c2 c3 c4 ⊢
  have hv1 : registry_valid S1 :=
    ⟨by rw [c2]; exact hv.1, by rw [c1]; simp only [MAX_PLUGINS]; omega⟩
  have hb1 : names_bounded S1 := by
    intro j hj
    by_cases hjc : j = sys.count
    · subst hjc; rw [c4]; simp only [List.length_take, MAX_PLUGIN_NAME]; omega
    · rw [c3 j (by omega)]; exact hb j (by omega)
  have hinit : ∀ j, j < S1.count → (plugin_slot S1.plugins j).init = none := by
    intro j hj
    by_cases hjc : j = sys.count
    · subst hjc; rw [c4]
    · rw [c3 j (by omega)]; exact (hl j (by omega)).1
  have hil : sys.count < S1.plugins.length := by
    rw [c2]; have := hv.1; simp only [MAX_PLUGINS] at this; omega
  have hshort : name.length ≤ 63 →
      (plugin_activate S1 (some name)).1 = 1 := by
    intro hlen
    have htag : (plugin_slot S1.plugins sys.count).name = name := by
      rw [c4]; exact List.take_of_length_le hlen
    cases hf : plugin_find_by_name S1 (some name) with
    | none => exact absurd htag (find_by_name_eq_none S1 name hf sys.count (by omega))
    | some k =>
      obtain ⟨f1, _, _⟩ := find_by_name_spec S1 name k hf
      rw [plugin_activate_found S1 name k hf, hinit k f1]
      split <;> simp
  refine ⟨r1, ?_, ?_, ?_⟩
  · constructor
    · intro h
      by_contra hlen
      have hnone := names_bounded_long S1 name hb1 (by omega)
      simp only [plugin_activate, hnone] at h
      exact absurd h (by decide)
    · exact hshort
  · intro hlong
    have hnone := names_bounded_long S1 name hb1 hlong
    refine ⟨by rw [c4], hnone, ?_, ?_⟩
    · simp only [plugin_activate, hnone]
    · simp only [plugin_deactivate, hnone]
  · intro hlen hnew
    have htag : (plugin_slot S1.plugins sys.count).name = name := by
      rw [c4]; exact List.take_of_length_le hlen
    have hf : plugin_find_by_name S1 (some name) = some sys.count :=
      find_by_name_some S1 name sys.count (by omega) htag
        (fun j hj => by rw [c3 j hj]; exact hnew j hj)
    refine ⟨hf, ?_⟩
    have hinact : (plugin_slot S1.plugins sys.count).is_active = false := by rw [c4]
    rw [plugin_activate_found S1 name sys.count hf, hinact, hinit sys.count (by omega)]
    simp only [Bool.false_eq_true, if_false, Option.isSome_none, false_and]
    simpa using (slot_set_active S1.plugins sys.count sys.count true hil).2.2.2.2

/-- C29 (instance): a one-byte name loaded into the fresh registry can be activated. -/
theorem C29_activate_after_load_witness :
    registry_valid fresh_registry ∧ loaded_by_plugin_load fresh_registry ∧
    names_bounded fresh_registry ∧
    (plugin_activate
      (plugin_load fresh_registry (some [69]) (some [100]) PluginType.PLUGIN_EMOTION).2
      (some [69])).1 = 1 :=
  ⟨by decide, by decide, by decide,
   ((C29_activate_after_load fresh_registry [69] [100] PluginType.PLUGIN_EMOTION
      (by decide) (by decide) (by decide) (by decide)).2.1).2 (by decide)⟩

/-- C30: `memory_recall_by_type(T)` returns a record if and only if the store holds a
record of type `T` whose timestamp is strictly greater than 0; a store whose records of
type `T` all have timestamp 0 or less yields none and is left unchanged. -/
theorem C30_recall_by_type_positive (sys : MemorySystem) (type : MemoryType) :
    ((memory_recall_by_type sys type).1.isSome = true
      ↔ ∃ i, i < sys.count ∧ (slot sys.memories i).type = type
          ∧ 0 < (slot sys.memories i).timestamp) ∧
    ((∀ i, i < sys.count → (slot sys.memories i).type = type →
        (slot sys.memories i).timestamp ≤ 0) →
      memory_recall_by_type sys type = (none, sys)) := by
  obtain ⟨h1, h2, h3⟩ := recall_by_type_fold sys.memories type sys.count
  unfold memory_recall_by_type
  cases hst : ((List.range' 0 sys.count).foldl (recall_by_type_step sys.memories type)
      (none, 0)).1 with
  | none =>
    simp only [hst, Option.isSome_none, Bool.false_eq_true, false_iff, implies_true, and_true]
    rintro ⟨i, hi, hty, hpos⟩
    have := h1 i hi hty
    rw [h2 hst] at this
    omega
  | some i0 =>
    obtain ⟨a1, a2, _, a4, _⟩ := h3 i0 hst
    simp only [hst, Option.isSome_some, true_iff]
    refine ⟨⟨i0, a1, a2, a4⟩, ?_⟩
    intro hall
    have := hall i0 a1 a2
    omega

/-- C30 (instance): the only Evolution record has timestamp 0 and is not returned. -/
theorem C30_recall_by_type_positive_witness :
    (slot zero_time_store.memories 0).type = MemoryType.MEMORY_EVOLUTION ∧
    memory_recall_by_type zero_time_store MemoryType.MEMORY_EVOLUTION
      = (none, zero_time_store) :=
  ⟨by decide,
   (C30_recall_by_type_positive zero_time_store MemoryType.MEMORY_EVOLUTION).2 (by decide)⟩

/-! Section: access counts and the running counters -/

theorem touch_take (mem : List Memory) (n i : Nat) :
    (touch mem i).take n
      = (mem.take n).set i
          { slot mem i with access_count := (slot mem i).access_count + 1 } := by
  simp only [touch, List.set_take]

theorem access_sum_set (l : List Memory) (i : Nat) (v : Memory) (hi : i < l.length) :
    ((l.set i v).map (fun m => m.access_count)).sum
      = (l.map (fun m => m.access_count)).sum - (slot l i).access_count + v.access_count := by
  induction l generalizing i with
  | nil => simp at hi
  | cons a t ih =>
    cases i with
    | zero =>
      simp only [List.set_cons_zero, List.map_cons, List.sum_cons, slot, List.getD_cons_zero]
      ring
    | succ k =>
      simp only [List.length_cons, Nat.add_lt_add_iff_right] at hi
      have hs : slot (a :: t) (k + 1) = slot t k := by simp [slot]
      simp only [List.set_cons_succ, List.map_cons, List.sum_cons, ih k hi, hs]
      ring

/-- One `access_count++` on a stored record adds one to the sum and keeps every
`access_count` non-negative. -/
theorem touch_effect (mem : List Memory) (n i : Nat) (hi : i < n) (hn : n ≤ mem.length) :
    (((touch mem i).take n).map (fun m => m.access_count)).sum
      = ((mem.take n).map (fun m => m.access_count)).sum + 1 ∧
    ((∀ m, m ∈ mem.take n → 0 ≤ m.access_count) →
      ∀ m, m ∈ (touch mem i).take n → 0 ≤ m.access_count) := by
  have hil : i < (mem.take n).length := by simp only [List.length_take]; omega
  have hslot : slot (mem.take n) i = slot mem i := by
    simp [slot, List.getElem?_take, hi]
  have hmem : slot mem i ∈ mem.take n := by
    rw [← hslot, slot_eq_getElem _ _ hil]
    exact List.getElem_mem hil
  rw [touch_take]
  constructor
  · rw [access_sum_set _ _ _ hil, hslot]
    ring
  · intro hnn m hm
    rcases List.mem_or_eq_of_mem_set hm with h | h
    · exact hnn m h
    · rw [h]
      have := hnn _ hmem
      simp only
      omega

theorem touch_fold_effect (mem : List Memory) (n lo k : Nat) (h : lo + k ≤ n)
    (hn : n ≤ mem.length) :
    ((List.range' lo k).foldl touch mem).length = mem.length ∧
    ((((List.range' lo k).foldl touch mem).take n).map (fun m => m.access_count)).sum
      = ((mem.take n).map (fun m => m.access_count)).sum + (k : Int) ∧
    ((∀ m, m ∈ mem.take n → 0 ≤ m.access_count) →
      ∀ m, m ∈ ((List.range' lo k).foldl touch mem).take n → 0 ≤ m.access_count) := by
  induction k with
  | zero => exact ⟨rfl, by simp, fun hnn => hnn⟩
  | succ k ih =>
    obtain ⟨i1, i2, i3⟩ := ih (by omega)
    rw [List.range'_1_concat, List.foldl_append]
    simp only [List.foldl_cons, List.foldl_nil]
    obtain ⟨t1, t2⟩ := touch_effect ((List.range' lo k).foldl touch mem) n (lo + k)
      (by omega) (by rw [i1]; exact hn)
    refine ⟨by rw [length_touch, i1], ?_, fun hnn => t2 (i3 hnn)⟩
    rw [t1, i2]
    push_cast
    ring

theorem sublist_access_sum_le (l1 l2 : List Memory) (h : List.Sublist l1 l2)
    (hnn : ∀ m, m ∈ l2 → 0 ≤ m.access_count) :
    (l1.map (fun m => m.access_count)).sum ≤ (l2.map (fun m => m.access_count)).sum := by
  induction h with
  | slnil => exact le_refl _
  | cons a _ ih =>
    have h1 := ih (fun m hm => hnn m (List.mem_cons_of_mem _ hm))
    have h2 := hnn a (List.mem_cons_self _ _)
    simp only [List.map_cons, List.sum_cons]
    omega
  | cons₂ a _ ih =>
    have h1 := ih (fun m hm => hnn m (List.mem_cons_of_mem _ hm))
    simp only [List.map_cons, List.sum_cons]
    omega

theorem delete_by_tag_fails (sys : MemorySystem) (tag : Option CStr)
    (h : (memory_delete_by_tag sys tag).1 = 0) : (memory_delete_by_tag sys tag).2 = sys := by
  cases tag with
  | none => rfl
  | some tag =>
    simp only [memory_delete_by_tag] at h ⊢
    cases hf : find_tag sys tag with
    | none => rfl
    | some i => simp [hf] at h

/-- What a recall that touches slot `i` does to the sum and to the counters. -/
theorem touch_one_effect (s : MemorySystem) (i : Nat) (hi : i < s.count)
    (hlen : s.count ≤ s.memories.length) :
    access_sum { s with memories := touch s.memories i
                        total_recalled := s.total_recalled + 1 } = access_sum s + 1 ∧
    ((∀ m, m ∈ records s → 0 ≤ m.access_count) →
      ∀ m, m ∈ records { s with memories := touch s.memories i
                                total_recalled := s.total_recalled + 1 } →
        0 ≤ m.access_count) := by
  obtain ⟨t1, t2⟩ := touch_effect s.memories s.count i hi hlen
  exact ⟨t1, t2⟩

/-- The effect of one store operation on the sum of the access counts and on the
counters: the sum never grows by more than `total_recalled` does, `count` never by more
than `total_saved`, and the access counts stay non-negative. -/
theorem access_step (s s1 : MemorySystem) (hv : valid s)
    (hnn : ∀ m, m ∈ records s → 0 ≤ m.access_count) (h : MemoryStep s s1) :
    (∀ m, m ∈ records s1 → 0 ≤ m.access_count) ∧
    access_sum s1 - access_sum s ≤ s1.total_recalled - s.total_recalled ∧
    (s1.count : Int) - (s.count : Int) ≤ s1.total_saved - s.total_saved := by
  have hlen : s.count ≤ s.memories.length := by have := hv.1; have := hv.2.1; omega
  cases h with
  | save text tag type importance now realloc_ok =>
    obtain ⟨h01, h0, h1, h2⟩ := save_fields s text tag type importance now realloc_ok
    rcases h01 with hr | hr
    · rw [h0 hr]
      exact ⟨hnn, by omega, by omega⟩
    · obtain ⟨t, g, ht, hg, hroom⟩ :=
        save_success_inv s text tag type importance now realloc_ok hr
      subst ht; subst hg
      have hrec := records_save s t g type importance now realloc_ok hv hroom
      have hcount := (memory_save_slots s t g type importance now realloc_ok hv hroom).2.1
      have hsum : access_sum (memory_save s (some t) (some g) type importance now realloc_ok).2
          = access_sum s := by
        simp only [access_sum, hrec, List.map_append, List.sum_append, List.map_cons,
          List.map_nil, List.sum_cons, List.sum_nil]
        ring
      refine ⟨?_, by rw [hsum, h2]; omega, by rw [hcount, (h1 hr).2]; push_cast; omega⟩
      intro m hm
      rw [hrec, List.mem_append] at hm
      rcases hm with hm | hm
      · exact hnn m hm
      · simp only [List.mem_singleton] at hm
        rw [hm]
  | recall_by_tag tag =>
    cases tag with
    | none => exact ⟨hnn, by simp [memory_recall_by_tag], by simp [memory_recall_by_tag]⟩
    | some tag =>
      simp only [memory_recall_by_tag]
      cases hf : find_tag s tag with
      | none => exact ⟨hnn, by simp, by simp⟩
      | some i =>
        obtain ⟨e1, e2⟩ := touch_one_effect s i (find_tag_lt s tag i hf) hlen
        refine ⟨e2 hnn, ?_, by simp⟩
        simp only
        rw [e1]; omega
  | recall_by_type type =>
    obtain ⟨_, _, h3⟩ := recall_by_type_fold s.memories type s.count
    simp only [memory_recall_by_type]
    cases hst : ((List.range' 0 s.count).foldl (recall_by_type_step s.memories type)
        (none, 0)).1 with
    | none => exact ⟨hnn, by simp, by simp⟩
    | some i =>
      obtain ⟨e1, e2⟩ := touch_one_effect s i (h3 i hst).1 hlen
      refine ⟨e2 hnn, ?_, by simp⟩
      simp only
      rw [e1]; omega
  | recall_recent n =>
    unfold memory_recall_recent
    by_cases hn : n ≤ 0
    · simp only [hn, if_true]
      exact ⟨hnn, by simp, by simp⟩
    · simp only [hn, if_false]
      have hk : (if n > (s.count : Int) then s.count else n.toNat) ≤ s.count := by
        split <;> omega
      obtain ⟨_, f2, f3⟩ := touch_fold_effect s.memories s.count
        (s.count - (if n > (s.count : Int) then s.count else n.toNat))
        (if n > (s.count : Int) then s.count else n.toNat) (by omega) hlen
      refine ⟨f3 hnn, ?_, by simp⟩
      simp only [access_sum, records]
      rw [f2]
      omega
  | delete_by_tag tag =>
    have hsub := records_delete_sublist s tag hlen
    have hle := sublist_access_sum_le _ _ hsub hnn
    obtain ⟨_, f2, f3⟩ := delete_by_tag_fields s tag
    refine ⟨fun m hm => hnn m (hsub.subset hm), ?_, ?_⟩
    · simp only [access_sum]; rw [f3]; omega
    · rw [f2]
      have hc : (memory_delete_by_tag s tag).2.count ≤ s.count := by
        cases tag with
        | none => exact Nat.le_refl _
        | some tag =>
          simp only [memory_delete_by_tag]
          cases find_tag s tag with
          | none => exact Nat.le_refl _
          | some i => exact Nat.sub_le _ _
      omega
  | cleanup_old _ fuel now age hc =>
    have hsub := records_cleanup_sublist fuel s s1 now age hlen hc
    have hle := sublist_access_sum_le _ _ hsub hnn
    obtain ⟨_, f2, f3⟩ := cleanup_old_fields fuel s s1 now age hc
    have hcount := (cleanup_old_returns fuel s s1 now age hlen hc).2.2.2.2.2
    refine ⟨fun m hm => hnn m (hsub.subset hm), ?_, ?_⟩
    · simp only [access_sum]; rw [f3]; omega
    · rw [f2]; omega

theorem access_invariant (s : MemorySystem) (h : Reachable s) :
    valid s ∧ (∀ m, m ∈ records s → 0 ≤ m.access_count) ∧
    access_sum s ≤ s.total_recalled ∧ (s.count : Int) ≤ s.total_saved := by
  induction h with
  | init sys0 =>
    refine ⟨valid_init sys0, ?_, ?_, ?_⟩
    · intro m hm; simp [records, memory_init] at hm
    · simp [access_sum, records, memory_init]
    · simp [memory_init]
  | step s s1 _ hstep ih =>
    obtain ⟨hv, hnn, hs, hc⟩ := ih
    obtain ⟨a1, a2, a3⟩ := access_step s s1 hv hnn hstep
    exact ⟨valid_step s s1 hv hstep, a1, by omega, by omega⟩

theorem save_access (s : MemorySystem) (text tag : Option CStr) (type : MemoryType)
    (importance now : Int) (realloc_ok : Bool) (hv : valid s) :
    access_sum (memory_save s text tag type importance now realloc_ok).2 = access_sum s ∧
    (memory_save s text tag type importance now realloc_ok).2.total_recalled
      = s.total_recalled := by
  obtain ⟨h01, h0, _, h2⟩ := save_fields s text tag type importance now realloc_ok
  refine ⟨?_, h2⟩
  rcases h01 with hr | hr
  · rw [h0 hr]
  · obtain ⟨t, g, ht, hg, hroom⟩ :=
      save_success_inv s text tag type importance now realloc_ok hr
    subst ht; subst hg
    simp only [access_sum, records_save s t g type importance now realloc_ok hv hroom,
      List.map_append, List.sum_append, List.map_cons, List.map_nil, List.sum_cons,
      List.sum_nil]
    ring

theorem recall_by_tag_access (s : MemorySystem) (tag : Option CStr)
    (hlen : s.count ≤ s.memories.length) :
    access_sum (memory_recall_by_tag s tag).2 - access_sum s
      = (memory_recall_by_tag s tag).2.total_recalled - s.total_recalled := by
  cases tag with
  | none => simp [memory_recall_by_tag]
  | some tag =>
    simp only [memory_recall_by_tag]
    cases hf : find_tag s tag with
    | none => simp
    | some i =>
      simp only
      rw [(touch_one_effect s i (find_tag_lt s tag i hf) hlen).1]
      ring

theorem recall_by_type_access (s : MemorySystem) (type : MemoryType)
    (hlen : s.count ≤ s.memories.length) :
    access_sum (memory_recall_by_type s type).2 - access_sum s
      = (memory_recall_by_type s type).2.total_recalled - s.total_recalled := by
  obtain ⟨_, _, h3⟩ := recall_by_type_fold s.memories type s.count
  simp only [memory_recall_by_type]
  cases hst : ((List.range' 0 s.count).foldl (recall_by_type_step s.memories type)
      (none, 0)).1 with
  | none => simp
  | some i =>
    simp only
    rw [(touch_one_effect s i (h3 i hst).1 hlen).1]
    ring

theorem recall_recent_access (s : MemorySystem) (n : Int)
    (hlen : s.count ≤ s.memories.length) :
    access_sum (memory_recall_recent s n).2 - access_sum s
      = (memory_recall_recent s n).2.total_recalled - s.total_recalled := by
  unfold memory_recall_recent
  by_cases hn : n ≤ 0
  · simp [hn]
  · simp only [hn, if_false]
    have hk : (if n > (s.count : Int) then s.count else n.toNat) ≤ s.count := by
      split <;> omega
    obtain ⟨_, f2, _⟩ := touch_fold_effect s.memories s.count
      (s.count - (if n > (s.count : Int) then s.count else n.toNat))
      (if n > (s.count : Int) then s.count else n.toNat) (by omega) hlen
    simp only [access_sum, records]
    rw [f2]
    ring

theorem access_exact (s : MemorySystem) (h : ReachableNoRemoval s) :
    valid s ∧ access_sum s = s.total_recalled := by
  induction h with
  | init sys0 =>
    exact ⟨valid_init sys0, by simp [access_sum, records, memory_init]⟩
  | save s text tag type importance now realloc_ok _ ih =>
    obtain ⟨hv, he⟩ := ih
    obtain ⟨a1, a2⟩ := save_access s text tag type importance now realloc_ok hv
    exact ⟨valid_save s _ _ _ _ _ _ hv, by rw [a1, a2, he]⟩
  | recall_by_tag s tag _ ih =>
    obtain ⟨hv, he⟩ := ih
    have := recall_by_tag_access s tag (by have := hv.1; have := hv.2.1; omega)
    exact ⟨valid_recall_by_tag s tag hv, by omega⟩
  | recall_by_type s type _ ih =>
    obtain ⟨hv, he⟩ := ih
    have := recall_by_type_access s type (by have := hv.1; have := hv.2.1; omega)
    exact ⟨valid_recall_by_type s type hv, by omega⟩
  | recall_recent s n _ ih =>
    obtain ⟨hv, he⟩ := ih
    have := recall_recent_access s n (by have := hv.1; have := hv.2.1; omega)
    exact ⟨valid_recall_recent s n hv, by omega⟩
  | delete_by_tag s tag _ hfail ih =>
    rw [delete_by_tag_fails s tag hfail]
    exact ih
  | cleanup_old s s1 fuel now age _ hc hcount ih =>
    obtain ⟨hv, he⟩ := ih
    have hlen : s.count ≤ s.memories.length := by have := hv.1; have := hv.2.1; omega
    have hv1 := valid_step s s1 hv (MemoryStep.cleanup_old s s1 fuel now age hc)
    have hlen1 : s1.count ≤ s1.memories.length := by have := hv1.1; have := hv1.2.1; omega
    have hsub := records_cleanup_sublist fuel s s1 now age hlen hc
    have hrec : records s1 = records s :=
      hsub.eq_of_length (by rw [length_records s1 hlen1, length_records s hlen, hcount])
    obtain ⟨_, _, f3⟩ := cleanup_old_fields fuel s s1 now age hc
    exact ⟨hv1, by simp only [access_sum]; rw [hrec, f3]; exact he⟩

/-- C31: in every state reachable from `memory_init` by any sequence of save, the three
recalls, `memory_delete_by_tag` and `memory_cleanup_old`, the sum of `access_count` over
the records currently stored is at most `total_recalled`, and `count` is at most
`total_saved`; the sum equals `total_recalled` as long as no record has been deleted or
cleaned up. -/
theorem C31_access_counts (s : MemorySystem) (h : Reachable s) :
    access_sum s ≤ s.total_recalled ∧ (s.count : Int) ≤ s.total_saved ∧
    (ReachableNoRemoval s → access_sum s = s.total_recalled) := by
  obtain ⟨_, _, h1, h2⟩ := access_invariant s h
  exact ⟨h1, h2, fun hk => (access_exact s hk).2⟩

/-- C31 (instance): after one save and one recall of it, the single stored record has
`access_count = 1 = total_recalled`; deleting it leaves the sum 0 below
`total_recalled = 1`. -/
theorem C31_access_counts_witness :
    Reachable
      (memory_recall_by_tag
        (memory_save fresh_store (some [104]) (some [97]) MemoryType.MEMORY_PATTERN 3 1000
          true).2 (some [97])).2 ∧
    access_sum
      (memory_recall_by_tag
        (memory_save fresh_store (some [104]) (some [97]) MemoryType.MEMORY_PATTERN 3 1000
          true).2 (some [97])).2
      = (memory_recall_by_tag
        (memory_save fresh_store (some [104]) (some [97]) MemoryType.MEMORY_PATTERN 3 1000
          true).2 (some [97])).2.total_recalled ∧
    access_sum
      (memory_delete_by_tag
        (memory_recall_by_tag
          (memory_save fresh_store (some [104]) (some [97]) MemoryType.MEMORY_PATTERN 3 1000
            true).2 (some [97])).2 (some [97])).2 = 0 ∧
    (memory_delete_by_tag
        (memory_recall_by_tag
          (memory_save fresh_store (some [104]) (some [97]) MemoryType.MEMORY_PATTERN 3 1000
            true).2 (some [97])).2 (some [97])).2.total_recalled = 1 :=
  ⟨Reachable.step _ _ (Reachable.step _ _ (Reachable.init _) (MemoryStep.save _ _ _ _ _ _ _))
      (MemoryStep.recall_by_tag _ _),
   (C31_access_counts _
      (Reachable.step _ _ (Reachable.step _ _ (Reachable.init _) (MemoryStep.save _ _ _ _ _ _ _))
        (MemoryStep.recall_by_tag _ _))).2.2
      (ReachableNoRemoval.recall_by_tag _ _
        (ReachableNoRemoval.save _ _ _ _ _ _ _ (ReachableNoRemoval.init _))),
   by decide, by decide⟩

end Kurama
